import Mathlib

/-!
# Arena combat simulation (`game.c`): embedding and verified properties

The simulation core of `game.c` is embedded function by function; drawing (`render`,
`setup_colors`) and the terminal set-up in `main` are left out.

Conventions of the embedding:

* C `float` / `double` values are elements of a type `F` carrying the operations the
  program uses (`FloatOps F`). `F` holds the values of both types (every `float` is a
  `double`, widening is exact). The operators `+ - * /` of `F` are the operators on
  `float`; `dadd`, `dsub`, `ddiv` are the operators on `double`, `sqrt` is the library
  function on `double`, and `narrow` is the conversion `double -> float` that an assignment
  to a `float` object performs. `ofInt` is the conversion of an `int` (exact in both types
  for the values that occur) and `toInt` the cast `(int)` (a total function: casts of values
  outside the `int` range are not modelled apart). Definitions and theorems are generic in
  `F`; nothing is assumed about rounding. The one fact about casts that a property needs is
  stated as the hypothesis `CastExact`.
  `Ieee` is the instance with the rounding of the machine: binary32 for `float`, binary64
  for `double`, round to nearest, ties to even, on values `man * 2 ^ exp` (overflow,
  subnormal numbers, infinities and NaN are not modelled: the exponent is unbounded, and
  a division by zero or the root of a negative number gives 0). The properties that depend
  on rounding are stated for it.
  `Frac` (exact unnormalised fractions, no rounding, `(int)` truncating toward zero,
  `sqrt` rounded down to the denominator) is an executable instance used for sample runs
  of the properties that do not depend on the arithmetic.
* C `int` values are `Int`, without wrap-around. Signed overflow is undefined in C, so the
  properties that state the result of `health - 10` or `ammo + 2` carry the hypothesis that
  the result is in the range of `int` (`in_int`); the states reached from `init_game`
  satisfy it (`play_range`).
* The fixed arrays `enemies[NUM_ENEMIES]` / `projectiles[MAX_PROJECTILES]` together with
  their counters `num_enemies` / `projectile_count` are lists holding the live slots
  `0 .. count-1`; `memmove` of the tail over slot `i` followed by `count--` is
  `List.eraseIdx i`, and writing slot `count++` is appending one element.
* `char map[MAP_HEIGHT][MAP_WIDTH]` is a function `map y x`; only `0 <= y < 20`,
  `0 <= x < 40` is ever read or written.
* `rand()` reads the head of a stream `Nat -> Nat` of non-negative values and moves on;
  what `get_time()` returns is an argument.
* `for` loops over an index that the body may hold back (`update_projectiles`) are
  recursive functions on the index with a bound on the number of passes, proved sufficient
  (`update_projectiles_loop_fuel`, `update_enemies_loop_fuel`); the `while (1)` loops of the
  spawns and of the win screen take a bound on the number of passes and return `none`
  when it is used up.
* One pass of the loop of `run_game` is `run_game_pass`: the frame part (`frame`,
  `frame_state`), then the win check; drawing is left out, and whether the win message was
  drawn is recorded in the result.
-/

set_option linter.unusedSectionVars false
set_option maxRecDepth 100000

namespace Roguelike

/-! ## Numbers -/

/-- Operations on the C floating point values used by the game. -/
class FloatOps (F : Type) extends Add F, Sub F, Mul F, Div F where
  /-- Conversion `int -> float` and `int -> double`. -/
  ofInt : Int → F
  /-- Cast `(int)f`. -/
  toInt : F → Int
  /-- Library function `sqrt` (on `double`). -/
  sqrt : F → F
  /-- Comparison `a < b`. -/
  lt : F → F → Bool
  /-- Comparison `a <= b`. -/
  le : F → F → Bool
  /-- Operator `+` on `double`. -/
  dadd : F → F → F
  /-- Operator `-` on `double`. -/
  dsub : F → F → F
  /-- Operator `/` on `double`. -/
  ddiv : F → F → F
  /-- Conversion `double -> float`. -/
  narrow : F → F

export FloatOps (ofInt toInt)

/-- Exact fractions `num / den`, kept unnormalised. -/
structure Frac where
  num : Int
  den : Nat
deriving DecidableEq, Repr

/-- Bisection for the integer square root of `n` between `lo` (`lo * lo <= n`) and `hi`
(`n < hi * hi`), with a bound on the number of halvings. -/
def isqrt_loop (n : Nat) : Nat → Nat → Nat → Nat
  | 0, lo, _ => lo
  | fuel + 1, lo, hi =>
    if hi ≤ lo + 1 then lo
    else if ((lo + hi) / 2) * ((lo + hi) / 2) ≤ n then isqrt_loop n fuel ((lo + hi) / 2) hi
    else isqrt_loop n fuel lo ((lo + hi) / 2)

/-- Largest `k` with `k * k <= n`. -/
def isqrt (n : Nat) : Nat := isqrt_loop n (n.log2 + 2) 0 (n + 1)

instance : FloatOps Frac where
  add a b := ⟨a.num * b.den + b.num * a.den, a.den * b.den⟩
  sub a b := ⟨a.num * b.den - b.num * a.den, a.den * b.den⟩
  mul a b := ⟨a.num * b.num, a.den * b.den⟩
  div a b := ⟨a.num * b.den * Int.sign b.num, a.den * b.num.natAbs⟩
  ofInt n := ⟨n, 1⟩
  toInt a := Int.tdiv a.num a.den
  sqrt a := ⟨isqrt (a.num.toNat * a.den), a.den⟩
  lt a b := decide (a.num * b.den < b.num * a.den)
  le a b := decide (a.num * b.den ≤ b.num * a.den)
  dadd a b := ⟨a.num * b.den + b.num * a.den, a.den * b.den⟩
  dsub a b := ⟨a.num * b.den - b.num * a.den, a.den * b.den⟩
  ddiv a b := ⟨a.num * b.den * Int.sign b.num, a.den * b.num.natAbs⟩
  narrow a := a

/-- Count the binary digits of `n`, at most `fuel` of them. -/
def bit_length_loop : Nat → Nat → Nat
  | 0, _ => 0
  | fuel + 1, n => if n = 0 then 0 else bit_length_loop fuel (n / 2) + 1

/-- Number of binary digits of `n`: `2 ^ (bit_length n - 1) <= n < 2 ^ bit_length n` for
`0 < n`. -/
def bit_length (n : Nat) : Nat := bit_length_loop n n

/-- Binary floating point value `man * 2 ^ exp`; in the values the operations return `man`
is odd, or `man` and `exp` are both 0. -/
structure Ieee where
  man : Int
  exp : Int
deriving DecidableEq, Repr

/-- Halve an even mantissa `m` and raise the exponent `e`, at most `fuel` times. -/
def Ieee.norm_loop : Nat → Int → Int → Ieee
  | 0, m, e => ⟨m, e⟩
  | fuel + 1, m, e =>
    if m = 0 then ⟨0, 0⟩
    else if m % 2 = 0 then Ieee.norm_loop fuel (m / 2) (e + 1)
    else ⟨m, e⟩

/-- The value `m * 2 ^ e` with an odd mantissa. -/
def Ieee.norm (m e : Int) : Ieee := Ieee.norm_loop (bit_length m.natAbs) m e

/-- Rounding of the fraction `n / d` to `p` significant bits, to nearest, ties to even: with
`k` such that `|n| / (d * 2 ^ k)` lies in `[2 ^ (p - 1), 2 ^ p)`, the quotient `q` and the
remainder `r` of that division decide between `q * 2 ^ k` and `(q + 1) * 2 ^ k`. -/
def round_to (p : Nat) (n : Int) (d : Nat) : Ieee :=
  if n = 0 ∨ d = 0 then ⟨0, 0⟩
  else
    let a := n.natAbs
    let k0 : Int := (bit_length a : Int) - (bit_length d : Int) - (p : Int) + 1
    let k : Int :=
      if a * 2 ^ (-k0).toNat / (d * 2 ^ k0.toNat) < 2 ^ (p - 1) then k0 - 1 else k0
    let N := a * 2 ^ (-k).toNat
    let D := d * 2 ^ k.toNat
    let q := N / D
    let r := N % D
    let q1 := if D < 2 * r ∨ (2 * r = D ∧ q % 2 = 1) then q + 1 else q
    Ieee.norm (Int.sign n * (q1 : Int)) k

/-- Rounding of `m * 2 ^ e` to `p` significant bits. -/
def round_bin (p : Nat) (m e : Int) : Ieee :=
  round_to p (m * 2 ^ e.toNat) (2 ^ (-e).toNat)

/-- Exact sum of two values as mantissa and exponent. -/
def Ieee.add_exact (a b : Ieee) : Int × Int :=
  (a.man * 2 ^ (a.exp - min a.exp b.exp).toNat + b.man * 2 ^ (b.exp - min a.exp b.exp).toNat,
    min a.exp b.exp)

/-- Exact difference of two values as mantissa and exponent. -/
def Ieee.sub_exact (a b : Ieee) : Int × Int :=
  (a.man * 2 ^ (a.exp - min a.exp b.exp).toNat - b.man * 2 ^ (b.exp - min a.exp b.exp).toNat,
    min a.exp b.exp)

/-- Quotient of two values rounded to `p` significant bits. -/
def Ieee.div_to (p : Nat) (a b : Ieee) : Ieee :=
  round_to p (Int.sign b.man * a.man * 2 ^ (a.exp - min a.exp b.exp).toNat)
    (b.man.natAbs * 2 ^ (b.exp - min a.exp b.exp).toNat)

/-- Square root rounded to `p` significant bits: with `a = N * 2 ^ (2 * s)` and `N` of more
than 120 bits, the root lies in `[r, r + 1) * 2 ^ s` for the integer root `r` of `N`, and is
`r * 2 ^ s` exactly when `r * r = N`; otherwise `r + 1/2` stands for it in the rounding. -/
def Ieee.sqrt_to (p : Nat) (a : Ieee) : Ieee :=
  if a.man ≤ 0 then ⟨0, 0⟩
  else
    let s : Int := (a.exp - 128) / 2
    let N : Nat := a.man.toNat * 2 ^ (a.exp - 2 * s).toNat
    let r := isqrt_loop N (bit_length N + 2) 0 (N + 1)
    if r * r = N then round_bin p r s else round_bin p (2 * r + 1) (s - 1)

instance : FloatOps Ieee where
  add a b := round_bin 24 (a.add_exact b).1 (a.add_exact b).2
  sub a b := round_bin 24 (a.sub_exact b).1 (a.sub_exact b).2
  mul a b := round_bin 24 (a.man * b.man) (a.exp + b.exp)
  div a b := Ieee.div_to 24 a b
  ofInt n := round_to 24 n 1
  toInt a := Int.tdiv (a.man * 2 ^ a.exp.toNat) (2 ^ (-a.exp).toNat)
  sqrt a := Ieee.sqrt_to 53 a
  lt a b := decide ((a.sub_exact b).1 < 0)
  le a b := decide ((a.sub_exact b).1 ≤ 0)
  dadd a b := round_bin 53 (a.add_exact b).1 (a.add_exact b).2
  dsub a b := round_bin 53 (a.sub_exact b).1 (a.sub_exact b).2
  ddiv a b := Ieee.div_to 53 a b
  narrow a := round_bin 24 a.man a.exp

def MAP_WIDTH : Int := 40
def MAP_HEIGHT : Int := 20
def NUM_ENEMIES : Nat := 10
def WALL_DENSITY : Nat := 30
def MAX_PROJECTILES : Nat := 100

def PLAYER_CHAR : Char := '@'
def ENEMY_CHAR : Char := 'E'
def WALL_CHAR : Char := '#'
def FLOOR_CHAR : Char := '.'
def ARROW_CHAR : Char := '*'
def ENEMY_ARROW_CHAR : Char := '+'

/-! ## Data model -/

structure Entity (F : Type) where
  x : F
  y : F
  character : Char
deriving DecidableEq, Repr

structure Player (F : Type) where
  base : Entity F
  health : Int
  speed : F
  ammo : Int
deriving DecidableEq, Repr

structure Enemy (F : Type) where
  base : Entity F
  health : Int
  speed : F
  last_shot_time : F
  shoot_delay : F
deriving DecidableEq, Repr

structure Projectile (F : Type) where
  base : Entity F
  dx : F
  dy : F
  speed : F
  is_enemy : Bool
deriving DecidableEq, Repr

/-- The session object `Game` (the `stdscr` handle, used for drawing only, is left out). -/
structure Game (F : Type) where
  /-- Tile grid, `map y x` for `map[y][x]`. -/
  map : Int → Int → Char
  player : Player F
  /-- Live enemies `enemies[0 .. num_enemies-1]`. -/
  enemies : List (Enemy F)
  /-- Live projectiles `projectiles[0 .. projectile_count-1]`. -/
  projectiles : List (Projectile F)
  last_update : F
  game_over : Bool

variable {F : Type} [FloatOps F]

/-- Counter `num_enemies`. -/
def Game.num_enemies (game : Game F) : Nat := game.enemies.length

/-- Counter `projectile_count`. -/
def Game.projectile_count (game : Game F) : Nat := game.projectiles.length

/-! ## Movement and shooting -/

/-- Function `move_entity`: the entity after the call (the caller stores it back). -/
def move_entity (game : Game F) (entity : Entity F) (dx dy : F) : Entity F :=
  let new_x : Int := toInt (entity.x + dx)
  let new_y : Int := toInt (entity.y + dy)
  if new_x ≥ 0 ∧ new_x < MAP_WIDTH ∧ new_y ≥ 0 ∧ new_y < MAP_HEIGHT then
    if game.map new_y new_x = FLOOR_CHAR then
      { entity with x := ofInt new_x, y := ofInt new_y }
    else entity
  else entity

/-- Call `move_entity(game, &game->player.base, dx, dy)`. -/
def move_player (game : Game F) (dx dy : F) : Game F :=
  { game with player := { game.player with base := move_entity game game.player.base dx dy } }

/-- Function `shoot`. -/
def shoot (game : Game F) (x y dx dy : F) (is_enemy : Bool) : Game F :=
  if ¬ is_enemy ∧ game.player.ammo ≤ 0 then game
  else
    let game1 : Game F :=
      if is_enemy then game
      else { game with player := { game.player with ammo := game.player.ammo - 1 } }
    if game1.projectiles.length ≥ MAX_PROJECTILES then game1
    else
      { game1 with
        projectiles := game1.projectiles ++
          [{ base := { x := x, y := y,
                       character := if is_enemy then ENEMY_ARROW_CHAR else ARROW_CHAR },
             dx := dx, dy := dy, speed := ofInt 2, is_enemy := is_enemy }] }

/-! ## Projectiles -/

/-- Inner loop of `update_projectiles` (`for (j = ...; j < num_enemies; j++)`) over the live
enemies: index of the first enemy at or after `j` whose truncated position is `(x, y)`;
`fuel` bounds the number of passes and is `num_enemies` at the call. -/
def find_enemy_at (enemies : List (Enemy F)) (x y : Int) : Nat → Nat → Option Nat
  | 0, _ => none
  | fuel + 1, j =>
    if h : j < enemies.length then
      if toInt (enemies[j]).base.x = x ∧ toInt (enemies[j]).base.y = y then some j
      else find_enemy_at enemies x y fuel (j + 1)
    else none

/-- The projectile in slot `i` after `base.x += dx * speed * delta_time` (and `y`). -/
def advance (p : Projectile F) (delta_time : F) : Projectile F :=
  { p with base := { p.base with x := p.base.x + p.dx * p.speed * delta_time,
                                 y := p.base.y + p.dy * p.speed * delta_time } }

/-- One pass through the body of the loop of `update_projectiles` at index `i`, followed by
the loop's `i++`: the new state and the next value of `i` (`i--; continue` then `i++`
leaves `i` as it is). -/
def update_projectiles_body (delta_time : F) (game : Game F) (i : Nat)
    (h : i < game.projectiles.length) : Game F × Nat :=
  let projectile : Projectile F := advance (game.projectiles[i]) delta_time
  let game1 : Game F := { game with projectiles := game.projectiles.set i projectile }
  let x : Int := toInt projectile.base.x
  let y : Int := toInt projectile.base.y
  -- check bounds
  if x < 0 ∨ x ≥ MAP_WIDTH ∨ y < 0 ∨ y ≥ MAP_HEIGHT then
    ({ game1 with projectiles := game1.projectiles.eraseIdx i }, i)
  -- wall collision
  else if game1.map y x = WALL_CHAR then
    ({ game1 with projectiles := game1.projectiles.eraseIdx i }, i)
  -- player hit by enemy projectile
  else if projectile.is_enemy then
    if toInt game1.player.base.x = x ∧ toInt game1.player.base.y = y then
      let game2 : Game F :=
        { game1 with
          player := { game1.player with health := game1.player.health - 10 },
          projectiles := game1.projectiles.eraseIdx i }
      (if game2.player.health ≤ 0 then { game2 with game_over := true } else game2, i)
    else (game1, i + 1)
  -- player projectile hitting enemy
  else
    match find_enemy_at game1.enemies x y game1.enemies.length 0 with
    | some j =>
      ({ game1 with
         enemies := game1.enemies.eraseIdx j,
         projectiles := game1.projectiles.eraseIdx i,
         player := { game1.player with ammo := game1.player.ammo + 2 } }, i)
    | none => (game1, i + 1)

/-- Loop `for (i = ...; i < projectile_count; i++)` of `update_projectiles`, started at
index `i`; `fuel` bounds the number of passes. -/
def update_projectiles_loop (delta_time : F) : Nat → Game F → Nat → Game F
  | 0, game, _ => game
  | fuel + 1, game, i =>
    if h : i < game.projectiles.length then
      update_projectiles_loop delta_time fuel
        (update_projectiles_body delta_time game i h).1
        (update_projectiles_body delta_time game i h).2
    else game

/-- Function `update_projectiles`. Every pass either advances `i` or removes a projectile,
so `projectile_count` passes are enough (`update_projectiles_loop_fuel`). -/
def update_projectiles (game : Game F) (delta_time : F) : Game F :=
  update_projectiles_loop delta_time game.projectiles.length game 0

/-! ## Random numbers -/

/-- State of the generator behind `rand()`: the values still to come. -/
abbrev Rng := Nat → Nat

/-- Call `rand()`: the value returned and the generator afterwards. -/
def rand (rng : Rng) : Int × Rng := ((rng 0 : Nat), fun n => rng (n + 1))

/-! ## Enemies -/

/-- The expression `1.0 + (rand() % 200) / 100.0` assigned to the `float` object
`shoot_delay`, for the value `r` that `rand()` returned: a division and an addition on
`double`, then the conversion to `float`. -/
def random_delay (r : Int) : F :=
  FloatOps.narrow (FloatOps.dadd (ofInt 1) (FloatOps.ddiv (ofInt (r % 200)) (ofInt 100)))

/-- Movement part of the body of the loop of `update_enemies`: the enemy after the attempt to
move towards the player, and the generator after the two calls of `rand()`. -/
def enemy_move (game : Game F) (enemy : Enemy F) (delta_time : F) (rng : Rng) :
    Enemy F × Rng :=
  -- movement towards player with slight randomness
  let dx : F := game.player.base.x - enemy.base.x
  let dy : F := game.player.base.y - enemy.base.y
  let distance : F := FloatOps.narrow (FloatOps.sqrt (dx * dx + dy * dy))
  let dx1 : F := if FloatOps.lt (ofInt 0) distance then dx / distance else dx
  let dy1 : F := if FloatOps.lt (ofInt 0) distance then dy / distance else dy
  -- add slight random movement
  let r1 := rand rng
  let dx2 : F :=
    FloatOps.narrow (FloatOps.dadd dx1 (FloatOps.ddiv (ofInt (r1.1 % 100 - 50)) (ofInt 500)))
  let r2 := rand r1.2
  let dy2 : F :=
    FloatOps.narrow (FloatOps.dadd dy1 (FloatOps.ddiv (ofInt (r2.1 % 100 - 50)) (ofInt 500)))
  let new_x : F := enemy.base.x + dx2 * enemy.speed * delta_time
  let new_y : F := enemy.base.y + dy2 * enemy.speed * delta_time
  let int_new_x : Int := toInt new_x
  let int_new_y : Int := toInt new_y
  (if int_new_x ≥ 0 ∧ int_new_x < MAP_WIDTH ∧ int_new_y ≥ 0 ∧ int_new_y < MAP_HEIGHT ∧
        game.map int_new_y int_new_x = FLOOR_CHAR then
      { enemy with base := { enemy.base with x := new_x, y := new_y } }
    else enemy, r2.2)

/-- Shooting part of the body of the loop of `update_enemies`: the state after the possible
call of `shoot`, the enemy with its timer, and the generator. -/
def enemy_shoot (game : Game F) (enemy : Enemy F) (current_time : F) (rng : Rng) :
    Game F × Enemy F × Rng :=
  if FloatOps.le enemy.shoot_delay (FloatOps.dsub current_time enemy.last_shot_time) then
    let shot_dx : F := game.player.base.x - enemy.base.x
    let shot_dy : F := game.player.base.y - enemy.base.y
    let shot_distance : F :=
      FloatOps.narrow (FloatOps.sqrt (shot_dx * shot_dx + shot_dy * shot_dy))
    let shot_dx1 : F := if FloatOps.lt (ofInt 0) shot_distance then shot_dx / shot_distance
                        else shot_dx
    let shot_dy1 : F := if FloatOps.lt (ofInt 0) shot_distance then shot_dy / shot_distance
                        else shot_dy
    let game1 : Game F := shoot game enemy.base.x enemy.base.y shot_dx1 shot_dy1 true
    let r3 := rand rng
    (game1,
     { enemy with last_shot_time := current_time,
                  shoot_delay := random_delay r3.1 },
     r3.2)
  else (game, enemy, rng)

/-- One pass through the body of the loop of `update_enemies` for enemy `i`: the movement
part, then the shooting part, both writing through the pointer to slot `i`. -/
def update_enemies_body (delta_time current_time : F) (game : Game F) (rng : Rng) (i : Nat)
    (h : i < game.enemies.length) : Game F × Rng :=
  let moved := enemy_move game (game.enemies[i]) delta_time rng
  let shot := enemy_shoot game moved.1 current_time moved.2
  ({ shot.1 with enemies := shot.1.enemies.set i shot.2.1 }, shot.2.2)

/-- Loop `for (i = ...; i < num_enemies; i++)` of `update_enemies`, started at index `i`;
`fuel` bounds the number of passes. -/
def update_enemies_loop (delta_time current_time : F) : Nat → Game F → Rng → Nat → Game F × Rng
  | 0, game, rng, _ => (game, rng)
  | fuel + 1, game, rng, i =>
    if h : i < game.enemies.length then
      update_enemies_loop delta_time current_time fuel
        (update_enemies_body delta_time current_time game rng i h).1
        (update_enemies_body delta_time current_time game rng i h).2
        (i + 1)
    else (game, rng)

/-- Function `update_enemies`; `current_time` is what its call of `get_time()` returns. The
loop never changes `num_enemies`, so `num_enemies` passes are enough. -/
def update_enemies (game : Game F) (delta_time current_time : F) (rng : Rng) : Game F × Rng :=
  update_enemies_loop delta_time current_time game.enemies.length game rng 0

/-! ## Map generation and spawning -/

/-- Assignment `map[y][x] = c`. -/
def set_cell (map : Int → Int → Char) (y x : Int) (c : Char) : Int → Int → Char :=
  fun y1 x1 => if y1 = y ∧ x1 = x then c else map y1 x1

/-- One pass of the loop that scatters walls: two calls of `rand()` and one assignment. -/
def random_wall (st : (Int → Int → Char) × Rng) : (Int → Int → Char) × Rng :=
  let r1 := rand st.2
  let x : Int := r1.1 % (MAP_WIDTH - 2) + 1
  let r2 := rand r1.2
  let y : Int := r2.1 % (MAP_HEIGHT - 2) + 1
  (set_cell st.1 y x WALL_CHAR, r2.2)

/-- Function `generate_map`. -/
def generate_map (game : Game F) (rng : Rng) : Game F × Rng :=
  -- initialize map with floor tiles
  let map1 := (List.range MAP_HEIGHT.toNat).foldl
    (fun m (y : Nat) =>
      (List.range MAP_WIDTH.toNat).foldl (fun m (x : Nat) => set_cell m y x FLOOR_CHAR) m)
    game.map
  -- create border walls
  let map2 := (List.range MAP_WIDTH.toNat).foldl
    (fun m (x : Nat) => set_cell (set_cell m 0 x WALL_CHAR) (MAP_HEIGHT - 1) x WALL_CHAR) map1
  let map3 := (List.range MAP_HEIGHT.toNat).foldl
    (fun m (y : Nat) => set_cell (set_cell m y 0 WALL_CHAR) y (MAP_WIDTH - 1) WALL_CHAR) map2
  -- random walls in arena
  let st := (List.range (MAP_WIDTH.toNat * MAP_HEIGHT.toNat / WALL_DENSITY)).foldl
    (fun st _ => random_wall st) (map3, rng)
  ({ game with map := st.1 }, st.2)

/-- Function `spawn_player`; `fuel` bounds the passes of its `while (1)` loop, and `none`
is returned when no floor cell was drawn within that many passes. -/
def spawn_player : Nat → Game F → Rng → Option (Game F × Rng)
  | 0, _, _ => none
  | fuel + 1, game, rng =>
    let r1 := rand rng
    let x : Int := r1.1 % (MAP_WIDTH - 2) + 1
    let r2 := rand r1.2
    let y : Int := r2.1 % (MAP_HEIGHT - 2) + 1
    if game.map y x = FLOOR_CHAR then
      some ({ game with
              player := { base := { x := ofInt x, y := ofInt y, character := PLAYER_CHAR },
                          health := 100, speed := ofInt 1, ammo := 10 } }, r2.2)
    else spawn_player fuel game r2.2

/-- The `while (1)` loop of `spawn_enemies` that places one enemy in slot `num_enemies`;
`now` is what `get_time()` returns, `fuel` bounds the passes. -/
def spawn_enemy (now : F) : Nat → Game F → Rng → Option (Game F × Rng)
  | 0, _, _ => none
  | fuel + 1, game, rng =>
    let r1 := rand rng
    let x : Int := r1.1 % (MAP_WIDTH - 2) + 1
    let r2 := rand r1.2
    let y : Int := r2.1 % (MAP_HEIGHT - 2) + 1
    if game.map y x = FLOOR_CHAR then
      let r3 := rand r2.2
      some ({ game with
              enemies := game.enemies ++
                [{ base := { x := ofInt x, y := ofInt y, character := ENEMY_CHAR },
                   health := 50, speed := ofInt 1 / ofInt 2, last_shot_time := now,
                   shoot_delay := random_delay r3.1 }] }, r3.2)
    else spawn_enemy now fuel game r2.2

/-- Loop `for (i = ...; i < NUM_ENEMIES; i++)` of `spawn_enemies` with `n` passes left;
`times k` is what `get_time()` returns in the pass with `k` passes left after it. -/
def spawn_enemies_loop (fuel : Nat) (times : Nat → F) : Nat → Game F → Rng → Option (Game F × Rng)
  | 0, game, rng => some (game, rng)
  | n + 1, game, rng =>
    match spawn_enemy (times n) fuel game rng with
    | none => none
    | some st => spawn_enemies_loop fuel times n st.1 st.2

/-- Function `spawn_enemies`; `fuel` bounds the passes of each `while (1)` loop. -/
def spawn_enemies (fuel : Nat) (times : Nat → F) (game : Game F) (rng : Rng) :
    Option (Game F × Rng) :=
  spawn_enemies_loop fuel times NUM_ENEMIES { game with enemies := [] } rng

/-- Function `init_game`: `memset` to zero, then the map and the spawns; `now` is what its
own `get_time()` returns. The previous content of the session object is not read. -/
def init_game (fuel : Nat) (now : F) (times : Nat → F) (_game : Game F) (rng : Rng) :
    Option (Game F × Rng) :=
  let game0 : Game F :=
    { map := fun _ _ => Char.ofNat 0,
      player := { base := { x := ofInt 0, y := ofInt 0, character := Char.ofNat 0 },
                  health := 0, speed := ofInt 0, ammo := 0 },
      enemies := [], projectiles := [], last_update := now, game_over := false }
  let st1 := generate_map game0 rng
  match spawn_player fuel st1.1 st1.2 with
  | none => none
  | some st2 => spawn_enemies fuel times st2.1 st2.2

/-! ## Frame loop -/

/-- Value returned by `getch()`: one of the four arrow keys, a character, or nothing. -/
inductive Key where
  | KEY_UP | KEY_DOWN | KEY_LEFT | KEY_RIGHT
  | char (c : Char)
  | none
deriving DecidableEq, Repr

/-- Call `shoot(game, player.x, player.y, dx, dy, false)` of `handle_input`. -/
def player_shoot (game : Game F) (dx dy : Int) : Game F :=
  shoot game game.player.base.x game.player.base.y (ofInt dx) (ofInt dy) false

/-- Function `handle_input`, given the key read by `getch()`. -/
def handle_input (game : Game F) (key : Key) : Game F :=
  match key with
  | Key.KEY_UP => move_player game (ofInt 0) (ofInt (-1))
  | Key.KEY_DOWN => move_player game (ofInt 0) (ofInt 1)
  | Key.KEY_LEFT => move_player game (ofInt (-1)) (ofInt 0)
  | Key.KEY_RIGHT => move_player game (ofInt 1) (ofInt 0)
  | Key.char c =>
    if c = 'w' then player_shoot game 0 (-1)
    else if c = 's' then player_shoot game 0 1
    else if c = 'a' then player_shoot game (-1) 0
    else if c = 'd' then player_shoot game 1 0
    else if c = 'q' then player_shoot game (-1) (-1)
    else if c = 'e' then player_shoot game 1 (-1)
    else if c = 'z' then player_shoot game (-1) 1
    else if c = 'c' then player_shoot game 1 1
    else if c = 'x' then { game with game_over := true }
    else game
  | Key.none => game

/-- What one pass of the loop of `run_game` reads from outside. -/
structure FrameInput (F : Type) where
  /-- Value of `get_time()` at the top of the pass. -/
  current_time : F
  /-- Key returned by `getch()`. -/
  key : Key
  /-- Value of `get_time()` inside `update_enemies`. -/
  enemies_time : F
  /-- Generator state at the start of the pass. -/
  rng : Rng

/-- One pass of the loop of `run_game` up to and including `update_enemies` (drawing and
the win screen come after it). -/
def frame (game : Game F) (inp : FrameInput F) : Game F :=
  let delta_time : F := FloatOps.narrow (FloatOps.dsub inp.current_time game.last_update)
  let game1 : Game F := { game with last_update := inp.current_time }
  let game2 := handle_input game1 inp.key
  let game3 := update_projectiles game2 delta_time
  (update_enemies game3 delta_time inp.enemies_time inp.rng).1

/-- Several passes in a row. -/
def run_frames (game : Game F) (inputs : List (FrameInput F)) : Game F :=
  inputs.foldl frame game

/-- The session and the generator after the frame part of one pass of the loop of `run_game`
(`frame` is its first component). -/
def frame_state (game : Game F) (inp : FrameInput F) : Game F × Rng :=
  let delta_time : F := FloatOps.narrow (FloatOps.dsub inp.current_time game.last_update)
  let game1 : Game F := { game with last_update := inp.current_time }
  let game2 := handle_input game1 inp.key
  let game3 := update_projectiles game2 delta_time
  update_enemies game3 delta_time inp.enemies_time inp.rng

/-- What the win screen of one pass reads from outside. -/
structure WinInput (F : Type) where
  /-- Keys returned by `getch()` in the loop of the win screen, in order. -/
  keys : Nat → Key
  /-- Value of `get_time()` in `init_game`, should the session be restarted. -/
  now : F
  /-- Values of `get_time()` in `spawn_enemies`, should the session be restarted. -/
  times : Nat → F

/-- The loop `while (1)` of the win screen, reading key number `k` next: `y` restarts the
session through `init_game`, `q` sets `game_over`, any other key is skipped. The first
argument bounds the number of keys read, `fuel` the passes of each spawn loop; `none` when
a bound is used up. -/
def win_screen (fuel : Nat) (win : WinInput F) : Nat → Game F → Nat → Rng → Option (Game F × Rng)
  | 0, _, _, _ => none
  | reads + 1, game, k, rng =>
    if win.keys k = Key.char 'y' then init_game fuel win.now win.times game rng
    else if win.keys k = Key.char 'q' then some ({ game with game_over := true }, rng)
    else win_screen fuel win reads game (k + 1) rng

/-- Outcome of one pass of the loop of `run_game`. -/
structure PassResult (F : Type) where
  /-- The branch `if (game->num_enemies == 0)` was entered: the win message was drawn. -/
  won : Bool
  /-- The session and the generator at the end of the pass; `none` when the loops of the win
  screen did not finish within their bounds. -/
  after : Option (Game F × Rng)

/-- One pass of the loop of `run_game`: the frame part, then (drawing left out) the check for
the win condition with the win screen. -/
def run_game_pass (fuel reads : Nat) (game : Game F) (inp : FrameInput F) (win : WinInput F) :
    PassResult F :=
  let st := frame_state game inp
  -- check for win condition
  if st.1.num_enemies = 0 then
    { won := true, after := win_screen fuel win reads st.1 0 st.2 }
  else
    { won := false, after := some st }

/-- The loop `while (!game->game_over)` of `run_game` over the inputs of successive passes:
the session when the loop is left or the inputs are used up, and the number of passes made. -/
def run_game (fuel reads : Nat) : List (FrameInput F × WinInput F) → Game F →
    Option (Game F × Nat)
  | [], game => some (game, 0)
  | inp :: rest, game =>
    if game.game_over then some (game, 0)
    else
      match (run_game_pass fuel reads game inp.1 inp.2).after with
      | none => none
      | some st => (run_game fuel reads rest st.1).map (fun r => (r.1, r.2 + 1))

/-! ## The projectile update as the specification words it -/

/-- Index of the first enemy of the list whose truncated position is the cell `(x, y)`. -/
def first_enemy_on (x y : Int) : List (Enemy F) → Option Nat
  | [] => none
  | e :: es =>
    if toInt e.base.x = x ∧ toInt e.base.y = y then some 0
    else (first_enemy_on x y es).map (fun j => j + 1)

/-- Removal rules of the specification for one advanced projectile `p`, in their priority
order (outside the grid, wall, player hit by an enemy-owned projectile, first enemy hit by a
player-owned projectile): the world afterwards, and whether `p` is still live. The
projectile collection of the world is left alone. -/
def spec_resolve (world : Game F) (p : Projectile F) : Game F × Bool :=
  let x : Int := toInt p.base.x
  let y : Int := toInt p.base.y
  if x < 0 ∨ x ≥ MAP_WIDTH ∨ y < 0 ∨ y ≥ MAP_HEIGHT then (world, false)
  else if world.map y x = WALL_CHAR then (world, false)
  else if p.is_enemy then
    if toInt world.player.base.x = x ∧ toInt world.player.base.y = y then
      ({ world with
         player := { world.player with health := world.player.health - 10 },
         game_over := if world.player.health - 10 ≤ 0 then true else world.game_over }, false)
    else (world, true)
  else
    match first_enemy_on x y world.enemies with
    | some j =>
      ({ world with
         enemies := world.enemies.eraseIdx j,
         player := { world.player with ammo := world.player.ammo + 2 } }, false)
    | none => (world, true)

/-- One step of the left-to-right fold: advance the next original projectile once, resolve
it against the world so far, and keep it behind the survivors if it is still live. -/
def spec_step (delta_time : F) (acc : Game F × List (Projectile F)) (p : Projectile F) :
    Game F × List (Projectile F) :=
  ((spec_resolve acc.1 (advance p delta_time)).1,
   if (spec_resolve acc.1 (advance p delta_time)).2 then acc.2 ++ [advance p delta_time]
   else acc.2)

/-- The world of a fold state with the survivors as its projectile collection. -/
def spec_finish (acc : Game F × List (Projectile F)) : Game F :=
  { acc.1 with projectiles := acc.2 }

/-- The projectile update as a left-to-right fold over the original projectile list. -/
def spec_update_projectiles (game : Game F) (delta_time : F) : Game F :=
  spec_finish (game.projectiles.foldl (spec_step delta_time) (game, []))

/-! ## Predicates of the properties -/

/-- The truncated position of an entity is a cell of the grid that is not `WALL_CHAR`. -/
def off_wall (map : Int → Int → Char) (e : Entity F) : Prop :=
  0 ≤ toInt e.x ∧ toInt e.x < 40 ∧ 0 ≤ toInt e.y ∧ toInt e.y < 20 ∧
    map (toInt e.y) (toInt e.x) ≠ WALL_CHAR

instance (map : Int → Int → Char) (e : Entity F) : Decidable (off_wall map e) := by
  unfold off_wall; infer_instance

/-- The truncated position of an entity is a cell of the grid that holds `FLOOR_CHAR`. -/
def on_floor (map : Int → Int → Char) (e : Entity F) : Prop :=
  0 ≤ toInt e.x ∧ toInt e.x < 40 ∧ 0 ≤ toInt e.y ∧ toInt e.y < 20 ∧
    map (toInt e.y) (toInt e.x) = FLOOR_CHAR

instance (map : Int → Int → Char) (e : Entity F) : Decidable (on_floor map e) := by
  unfold on_floor; infer_instance

/-- The cast `(int)` gives back every whole number of the grid range that was converted to
floating point (true of IEEE floats, which hold all integers of that size exactly). -/
def CastExact (F : Type) [FloatOps F] : Prop :=
  ∀ n : Int, 0 ≤ n → n < 40 → toInt (ofInt n : F) = n

/-- Occupancy: the player and every live enemy stand on a floor cell of the grid. -/
def Occupancy (g : Game F) : Prop :=
  on_floor g.map g.player.base ∧ ∀ e ∈ g.enemies, on_floor g.map e.base

/-- Capacity bounds of the two collections and non-negative ammo. -/
def Bounds (g : Game F) : Prop :=
  0 ≤ (g.num_enemies : Int) ∧ (g.num_enemies : Int) ≤ 10 ∧
  0 ≤ (g.projectile_count : Int) ∧ (g.projectile_count : Int) ≤ 100 ∧
  0 ≤ g.player.ammo

/-- Number of live enemy-owned projectiles. -/
def enemy_shots (l : List (Projectile F)) : Nat := l.countP (fun p => p.is_enemy)

/-- The state `r` is `g` after one player move, one player shot, the quit flag, or `g`. -/
def InputEffect (g r : Game F) : Prop :=
  (∃ dx dy : F, r = move_player g dx dy) ∨
  (∃ x y dx dy : F, r = shoot g x y dx dy false) ∨
  r = { g with game_over := true } ∨
  r = g

/-- The point at parameter `t` (from 0 to 1) of the straight segment from the position of
`p` to its advanced position. -/
def segment_point (p : Projectile F) (delta_time t : F) : Entity F :=
  { x := p.base.x + t * ((advance p delta_time).base.x - p.base.x),
    y := p.base.y + t * ((advance p delta_time).base.y - p.base.y),
    character := p.base.character }

/-- The cells `(y, x)` of the 38 x 18 interior of the grid. -/
def interior : Finset (Int × Int) := Finset.Icc (1 : Int) 18 ×ˢ Finset.Icc (1 : Int) 38

/-- Number of interior cells of the grid that hold the tile `c`. -/
def interior_count (map : Int → Int → Char) (c : Char) : Nat :=
  (interior.filter (fun cell => map cell.1 cell.2 = c)).card

/-- The test `current_time - enemy->last_shot_time >= enemy->shoot_delay` of `update_enemies`
for the enemy `e` at clock value `now`. -/
def due (now : F) (e : Enemy F) : Bool :=
  FloatOps.le e.shoot_delay (FloatOps.dsub now e.last_shot_time)

/-- Timer of an enemy before (`e`) and after (`e1`) a call of `update_enemies` at clock value
`now`: reset to `now` with the delay `random_delay r` drawn from a random value `r` when the
enemy was due, untouched otherwise. -/
def ShootTimer (now : F) (e e1 : Enemy F) : Prop :=
  (due now e = true → e1.last_shot_time = now ∧
    ∃ r : Int, 0 ≤ r ∧ e1.shoot_delay = random_delay r) ∧
  (due now e = false → e1.last_shot_time = e.last_shot_time ∧ e1.shoot_delay = e.shoot_delay)

/-- Least value of the C type `int`. -/
def INT_MIN : Int := -2147483648

/-- Greatest value of the C type `int`. -/
def INT_MAX : Int := 2147483647

/-- The value `n` is in the range of `int`. -/
def in_int (n : Int) : Prop := INT_MIN ≤ n ∧ n ≤ INT_MAX

instance (n : Int) : Decidable (in_int n) := by
  unfold in_int; infer_instance

/-- What holds of the counters in every state of a session: the capacity bounds, at most
30 rounds counting the two that each live enemy is worth, health at most 100, health above 0
unless the session is over, and health a multiple of 10. -/
def play_range (g : Game F) : Prop :=
  Bounds g ∧ g.player.ammo + 2 * (g.num_enemies : Int) ≤ 30 ∧ g.player.health ≤ 100 ∧
  (g.game_over = false → 0 < g.player.health) ∧ g.player.health % 10 = 0

/-! ## Sample states over `Frac` -/

/-- An arena whose border is wall and whose interior is floor, except a wall at `(x, y) = (7, 5)`. -/
def arena_map : Int → Int → Char :=
  fun y x =>
    if x ≤ 0 ∨ y ≤ 0 ∨ x ≥ 39 ∨ y ≥ 19 ∨ (x = 7 ∧ y = 5) then WALL_CHAR else FLOOR_CHAR

/-- An entity standing on the whole-numbered cell `(x, y)`. -/
def entity_at (x y : Int) (c : Char) : Entity Frac := { x := ⟨x, 1⟩, y := ⟨y, 1⟩, character := c }

/-- A projectile at `(x, y)` with direction `(dx, dy)` and speed 2. -/
def projectile_at (x y dx dy : Int) (is_enemy : Bool) : Projectile Frac :=
  { base := entity_at x y (if is_enemy then ENEMY_ARROW_CHAR else ARROW_CHAR),
    dx := ⟨dx, 1⟩, dy := ⟨dy, 1⟩, speed := ⟨2, 1⟩, is_enemy := is_enemy }

/-- An enemy at `(x, y)` as `spawn_enemies` sets it up, with shoot delay 1. -/
def enemy_at (x y : Int) : Enemy Frac :=
  { base := entity_at x y ENEMY_CHAR, health := 50, speed := ⟨1, 2⟩,
    last_shot_time := ⟨0, 1⟩, shoot_delay := ⟨1, 1⟩ }

/-- A session on `arena_map` with the player at `(5, 5)`. -/
def sample_game (health ammo : Int) (enemies : List (Enemy Frac))
    (projectiles : List (Projectile Frac)) : Game Frac :=
  { map := arena_map,
    player := { base := entity_at 5 5 PLAYER_CHAR, health := health, speed := ⟨1, 1⟩,
                ammo := ammo },
    enemies := enemies, projectiles := projectiles, last_update := ⟨0, 1⟩,
    game_over := false }

/-- A stream of random values for the samples. -/
def sample_rng : Rng := fun n => 7 * n + 3

/-- A fresh session: `init_game` on `sample_rng`, the clock reading 0 throughout. -/
def sample_init : Option (Game Frac × Rng) :=
  init_game 3 ⟨0, 1⟩ (fun _ => ⟨0, 1⟩) (sample_game 0 0 [] []) sample_rng

/-- Input of one pass of the frame loop: one second later, arrow key up. -/
def sample_input : FrameInput Frac :=
  { current_time := ⟨1, 1⟩, key := Key.KEY_UP, enemies_time := ⟨1, 1⟩, rng := sample_rng }

/-- The grid made by `generate_map` on `sample_rng`, and the generator after it. -/
def sample_generated : Game Frac × Rng := generate_map (sample_game 0 0 [] []) sample_rng

/-- A session that was won (no enemy left) with a projectile still in flight. -/
def sample_won : Game Frac := sample_game 40 7 [] [projectile_at 8 5 1 0 false]

/-- A session in which the player (health 10) and the last enemy, at `(10, 5)`, are both
about to be hit: an enemy-owned projectile flies towards the player's cell `(5, 5)` and a
player-owned one towards the enemy. -/
def sample_double_hit : Game Frac :=
  sample_game 10 10 [enemy_at 10 5] [projectile_at 3 5 1 0 true, projectile_at 8 5 1 0 false]

/-- Input of a pass one second later with no key pressed. -/
def sample_idle : FrameInput Frac :=
  { current_time := ⟨1, 1⟩, key := Key.none, enemies_time := ⟨1, 1⟩, rng := sample_rng }

/-- A win screen on which `y` is pressed at once. -/
def sample_restart : WinInput Frac :=
  { keys := fun _ => Key.char 'y', now := ⟨1, 1⟩, times := fun _ => ⟨1, 1⟩ }

/-- A session in machine arithmetic on `arena_map` with the player at `(5, 5)`, 10 rounds
and nothing else. -/
def sample_ieee_game : Game Ieee :=
  { map := arena_map,
    player := { base := { x := ofInt 5, y := ofInt 5, character := PLAYER_CHAR }, health := 100,
                speed := ofInt 1, ammo := 10 },
    enemies := [], projectiles := [], last_update := ofInt 0, game_over := false }

/-- An enemy in machine arithmetic at `(x, y)` that shot last at clock value 0 and has the
given shoot delay. -/
def ieee_enemy_at (x y : Int) (delay : Ieee) : Enemy Ieee :=
  { base := { x := ofInt x, y := ofInt y, character := ENEMY_CHAR }, health := 50,
    speed := ofInt 1 / ofInt 2, last_shot_time := ofInt 0, shoot_delay := delay }

/-- The session `sample_ieee_game` with one enemy at `(3, 3)` whose shoot delay is 1. -/
def sample_ieee_duel : Game Ieee :=
  { sample_ieee_game with enemies := [ieee_enemy_at 3 3 (ofInt 1)] }

/-! # Properties -/

/-! ## The loop of `update_projectiles` -/

theorem eraseIdx_set_self {α : Type} (l : List α) (i : Nat) (a : α) :
    (l.set i a).eraseIdx i = l.eraseIdx i := by
  induction l generalizing i with
  | nil => simp
  | cons b t ih =>
    cases i with
    | zero => simp
    | succ n => simp [ih]

/-- What `find_enemy_at` returns is the lowest index at or after `j` of an enemy on the cell. -/
theorem find_enemy_at_some (enemies : List (Enemy F)) (x y : Int) :
    ∀ (fuel j k : Nat), find_enemy_at enemies x y fuel j = some k →
      j ≤ k ∧ ∃ hk : k < enemies.length,
        (toInt (enemies[k]).base.x = x ∧ toInt (enemies[k]).base.y = y) ∧
        ∀ (m : Nat) (hm : m < enemies.length), j ≤ m → m < k →
          ¬ (toInt (enemies[m]).base.x = x ∧ toInt (enemies[m]).base.y = y) := by
  intro fuel
  induction fuel with
  | zero => intro j k h; simp [find_enemy_at] at h
  | succ n ih =>
    intro j k h
    unfold find_enemy_at at h
    split_ifs at h with h1 h2
    · cases h
      exact ⟨le_refl _, h1, h2, fun m _ h3 h4 => absurd h4 (not_lt.mpr h3)⟩
    · obtain ⟨h3, hk, h4, h5⟩ := ih (j + 1) k h
      refine ⟨by omega, hk, h4, ?_⟩
      intro m hm h6 h7
      by_cases h8 : m = j
      · subst h8; exact h2
      · exact h5 m hm (by omega) h7

/-- With enough passes, `find_enemy_at` misses no enemy on the cell. -/
theorem find_enemy_at_none (enemies : List (Enemy F)) (x y : Int) :
    ∀ (fuel j : Nat), enemies.length - j ≤ fuel → find_enemy_at enemies x y fuel j = none →
      ∀ (m : Nat) (hm : m < enemies.length), j ≤ m →
        ¬ (toInt (enemies[m]).base.x = x ∧ toInt (enemies[m]).base.y = y) := by
  intro fuel
  induction fuel with
  | zero => intro j h _ m hm h2; omega
  | succ n ih =>
    intro j hf h m hm h2
    unfold find_enemy_at at h
    split_ifs at h with h1 h3
    · by_cases h8 : m = j
      · subst h8; exact h3
      · exact ih (j + 1) (by omega) h m hm (by omega)
    · omega

/-- The four ways a pass of the loop of `update_projectiles` can end. -/
theorem update_projectiles_body_cases (dt : F) (g : Game F) (i : Nat)
    (h : i < g.projectiles.length) :
    ((toInt (advance (g.projectiles[i]) dt).base.x < 0 ∨
        40 ≤ toInt (advance (g.projectiles[i]) dt).base.x ∨
        toInt (advance (g.projectiles[i]) dt).base.y < 0 ∨
        20 ≤ toInt (advance (g.projectiles[i]) dt).base.y ∨
        g.map (toInt (advance (g.projectiles[i]) dt).base.y)
          (toInt (advance (g.projectiles[i]) dt).base.x) = WALL_CHAR) ∧
      update_projectiles_body dt g i h =
        ({ g with projectiles := g.projectiles.eraseIdx i }, i)) ∨
    ((g.projectiles[i]).is_enemy = true ∧
      toInt g.player.base.x = toInt (advance (g.projectiles[i]) dt).base.x ∧
      toInt g.player.base.y = toInt (advance (g.projectiles[i]) dt).base.y ∧
      update_projectiles_body dt g i h =
        ({ g with
           player := { g.player with health := g.player.health - 10 },
           projectiles := g.projectiles.eraseIdx i,
           game_over := if g.player.health - 10 ≤ 0 then true else g.game_over }, i)) ∨
    ((g.projectiles[i]).is_enemy = false ∧
      ∃ j, find_enemy_at g.enemies (toInt (advance (g.projectiles[i]) dt).base.x)
          (toInt (advance (g.projectiles[i]) dt).base.y) g.enemies.length 0 = some j ∧
        update_projectiles_body dt g i h =
          ({ g with
             enemies := g.enemies.eraseIdx j,
             projectiles := g.projectiles.eraseIdx i,
             player := { g.player with ammo := g.player.ammo + 2 } }, i)) ∨
    ((0 ≤ toInt (advance (g.projectiles[i]) dt).base.x ∧
        toInt (advance (g.projectiles[i]) dt).base.x < 40 ∧
        0 ≤ toInt (advance (g.projectiles[i]) dt).base.y ∧
        toInt (advance (g.projectiles[i]) dt).base.y < 20 ∧
        g.map (toInt (advance (g.projectiles[i]) dt).base.y)
          (toInt (advance (g.projectiles[i]) dt).base.x) ≠ WALL_CHAR) ∧
      ((g.projectiles[i]).is_enemy = true →
        ¬ (toInt g.player.base.x = toInt (advance (g.projectiles[i]) dt).base.x ∧
           toInt g.player.base.y = toInt (advance (g.projectiles[i]) dt).base.y)) ∧
      ((g.projectiles[i]).is_enemy = false →
        find_enemy_at g.enemies (toInt (advance (g.projectiles[i]) dt).base.x)
          (toInt (advance (g.projectiles[i]) dt).base.y) g.enemies.length 0 = none) ∧
      update_projectiles_body dt g i h =
        ({ g with projectiles := g.projectiles.set i (advance (g.projectiles[i]) dt) },
          i + 1)) := by
  unfold update_projectiles_body
  simp only [MAP_WIDTH, MAP_HEIGHT, ge_iff_le, eraseIdx_set_self]
  by_cases h1 : toInt (advance (g.projectiles[i]) dt).base.x < 0 ∨
      40 ≤ toInt (advance (g.projectiles[i]) dt).base.x ∨
      toInt (advance (g.projectiles[i]) dt).base.y < 0 ∨
      20 ≤ toInt (advance (g.projectiles[i]) dt).base.y
  · rw [if_pos h1]
    left
    refine ⟨?_, rfl⟩
    rcases h1 with h1 | h1 | h1 | h1
    · exact Or.inl h1
    · exact Or.inr (Or.inl h1)
    · exact Or.inr (Or.inr (Or.inl h1))
    · exact Or.inr (Or.inr (Or.inr (Or.inl h1)))
  rw [if_neg h1]
  by_cases h2 : g.map (toInt (advance (g.projectiles[i]) dt).base.y)
      (toInt (advance (g.projectiles[i]) dt).base.x) = WALL_CHAR
  · rw [if_pos h2]
    left
    exact ⟨Or.inr (Or.inr (Or.inr (Or.inr h2))), rfl⟩
  rw [if_neg h2]
  simp only [not_or, not_le, not_lt] at h1
  have hin : 0 ≤ toInt (advance (g.projectiles[i]) dt).base.x ∧
      toInt (advance (g.projectiles[i]) dt).base.x < 40 ∧
      0 ≤ toInt (advance (g.projectiles[i]) dt).base.y ∧
      toInt (advance (g.projectiles[i]) dt).base.y < 20 ∧
      g.map (toInt (advance (g.projectiles[i]) dt).base.y)
        (toInt (advance (g.projectiles[i]) dt).base.x) ≠ WALL_CHAR :=
    ⟨h1.1, h1.2.1, h1.2.2.1, h1.2.2.2, h2⟩
  by_cases h3 : (advance (g.projectiles[i]) dt).is_enemy = true
  · rw [if_pos h3]
    by_cases h4 : toInt g.player.base.x = toInt (advance (g.projectiles[i]) dt).base.x ∧
        toInt g.player.base.y = toInt (advance (g.projectiles[i]) dt).base.y
    · rw [if_pos h4]
      right; left
      refine ⟨h3, h4.1, h4.2, ?_⟩
      by_cases h5 : g.player.health - 10 ≤ 0
      · simp only [if_pos h5]
      · simp only [if_neg h5]
    · rw [if_neg h4]
      right; right; right
      have h3t : (g.projectiles[i]).is_enemy = true := by simpa [advance] using h3
      exact ⟨hin, fun _ => h4, fun hc => by simp [h3t] at hc, rfl⟩
  · rw [if_neg h3]
    have h3f : (g.projectiles[i]).is_enemy = false := by
      simpa [advance] using h3
    cases hf : find_enemy_at g.enemies (toInt (advance (g.projectiles[i]) dt).base.x)
        (toInt (advance (g.projectiles[i]) dt).base.y) g.enemies.length 0 with
    | none =>
      right; right; right
      exact ⟨hin, fun hc => by simp [h3f] at hc, fun _ => rfl, rfl⟩
    | some j =>
      right; right; left
      exact ⟨h3f, j, rfl, rfl⟩

/-- Each pass brings the index one step closer to `projectile_count`. -/
theorem update_projectiles_body_measure (dt : F) (g : Game F) (i : Nat)
    (h : i < g.projectiles.length) :
    (update_projectiles_body dt g i h).1.projectiles.length
      - (update_projectiles_body dt g i h).2 + 1 = g.projectiles.length - i := by
  rcases update_projectiles_body_cases dt g i h with
    ⟨_, e⟩ | ⟨_, _, _, e⟩ | ⟨_, j, _, e⟩ | ⟨_, _, _, e⟩ <;>
  · rw [e]
    simp [List.length_eraseIdx, h]
    omega

/-- Loop rule: an invariant `P game i` kept by every pass holds when the loop is left, where
moreover `i` has reached `projectile_count`; `projectile_count - i` passes are enough. -/
theorem update_projectiles_loop_rule (dt : F) (P : Game F → Nat → Prop) (Q : Game F → Prop)
    (hstep : ∀ g i (h : i < g.projectiles.length), P g i →
      P (update_projectiles_body dt g i h).1 (update_projectiles_body dt g i h).2)
    (hexit : ∀ g i, P g i → g.projectiles.length ≤ i → Q g) :
    ∀ (fuel : Nat) (g : Game F) (i : Nat), g.projectiles.length - i ≤ fuel → P g i →
      Q (update_projectiles_loop dt fuel g i) := by
  intro fuel
  induction fuel with
  | zero =>
    intro g i hf hP
    exact hexit g i hP (by omega)
  | succ n ih =>
    intro g i hf hP
    unfold update_projectiles_loop
    split_ifs with h
    · apply ih
      · have := update_projectiles_body_measure dt g i h
        omega
      · exact hstep g i h hP
    · exact hexit g i hP (by omega)

/-- The function `update_projectiles` is total and its loop runs to completion: more passes
than `projectile_count - i` change nothing. -/
theorem update_projectiles_loop_fuel (dt : F) :
    ∀ (fuel : Nat) (g : Game F) (i : Nat), g.projectiles.length - i ≤ fuel →
      update_projectiles_loop dt fuel g i
        = update_projectiles_loop dt (g.projectiles.length - i) g i := by
  intro fuel
  induction fuel with
  | zero =>
    intro g i hf
    have : g.projectiles.length - i = 0 := by omega
    rw [this]
  | succ n ih =>
    intro g i hf
    by_cases h : i < g.projectiles.length
    · obtain ⟨m, hm⟩ : ∃ m, g.projectiles.length - i = m + 1 := ⟨g.projectiles.length - i - 1, by omega⟩
      have hb := update_projectiles_body_measure dt g i h
      rw [hm]
      unfold update_projectiles_loop
      simp only [h, dite_true]
      rw [ih _ _ (by omega)]
      have : (update_projectiles_body dt g i h).1.projectiles.length
          - (update_projectiles_body dt g i h).2 = m := by omega
      rw [this]
    · have h0 : g.projectiles.length - i = 0 := by omega
      rw [h0]
      unfold update_projectiles_loop
      simp [h]

/-! ## Facts about `shoot`, `update_enemies` and the spawns -/

theorem Frac_cast_exact : CastExact Frac := by
  intro n _ _
  show Int.tdiv n ((1 : Nat) : Int) = n
  simp

theorem ieee_cast_exact_fin : ∀ k : Fin 40, toInt (ofInt ((k : Nat) : Int) : Ieee) = (k : Nat) := by
  decide!

/-- In machine arithmetic the whole numbers 0..39 survive the conversion to `float` and the
cast back. -/
theorem ieee_cast_exact : CastExact Ieee := by
  intro n h0 h1
  have e : (((n.toNat : Nat) : Int)) = n := Int.toNat_of_nonneg h0
  have := ieee_cast_exact_fin ⟨n.toNat, by omega⟩
  simp only [e] at this
  exact this

/-- An enemy shot either is dropped at the cap or appends one enemy-owned projectile. -/
theorem shoot_enemy_eq (g : Game F) (x y dx dy : F) :
    shoot g x y dx dy true =
      if 100 ≤ g.projectiles.length then g
      else { g with projectiles := g.projectiles ++
        [{ base := { x := x, y := y, character := ENEMY_ARROW_CHAR },
           dx := dx, dy := dy, speed := ofInt 2, is_enemy := true }] } := by
  simp [shoot, MAX_PROJECTILES]

/-- What `shoot` leaves alone and how it changes ammo and the projectiles. -/
theorem shoot_frame (g : Game F) (x y dx dy : F) (o : Bool) :
    (shoot g x y dx dy o).map = g.map ∧
    (shoot g x y dx dy o).enemies = g.enemies ∧
    (shoot g x y dx dy o).player.base = g.player.base ∧
    (shoot g x y dx dy o).player.health = g.player.health ∧
    (shoot g x y dx dy o).game_over = g.game_over ∧
    ((shoot g x y dx dy o).player.ammo = g.player.ammo ∨
      (0 < g.player.ammo ∧ (shoot g x y dx dy o).player.ammo = g.player.ammo - 1)) ∧
    ((shoot g x y dx dy o).projectiles = g.projectiles ∨
      (g.projectiles.length < 100 ∧ ∃ p : Projectile F, p.is_enemy = o ∧
        (shoot g x y dx dy o).projectiles = g.projectiles ++ [p])) := by
  cases o with
  | true =>
    rw [shoot_enemy_eq]
    by_cases h2 : 100 ≤ g.projectiles.length
    · rw [if_pos h2]
      exact ⟨rfl, rfl, rfl, rfl, rfl, Or.inl rfl, Or.inl rfl⟩
    · rw [if_neg h2]
      exact ⟨rfl, rfl, rfl, rfl, rfl, Or.inl rfl, Or.inr ⟨by omega, _, rfl, rfl⟩⟩
  | false =>
    by_cases h1 : g.player.ammo ≤ 0
    · have e : shoot g x y dx dy false = g := by simp [shoot, h1]
      rw [e]
      exact ⟨rfl, rfl, rfl, rfl, rfl, Or.inl rfl, Or.inl rfl⟩
    · by_cases h2 : 100 ≤ g.projectiles.length
      · have e : shoot g x y dx dy false =
            { g with player := { g.player with ammo := g.player.ammo - 1 } } := by
          simp [shoot, h1, h2, MAX_PROJECTILES]
        rw [e]
        exact ⟨rfl, rfl, rfl, rfl, rfl, Or.inr ⟨by omega, rfl⟩, Or.inl rfl⟩
      · have e : shoot g x y dx dy false =
            { g with
              player := { g.player with ammo := g.player.ammo - 1 },
              projectiles := g.projectiles ++
                [{ base := { x := x, y := y, character := ARROW_CHAR },
                   dx := dx, dy := dy, speed := ofInt 2, is_enemy := false }] } := by
          simp [shoot, h1, h2, MAX_PROJECTILES]
        rw [e]
        exact ⟨rfl, rfl, rfl, rfl, rfl, Or.inr ⟨by omega, rfl⟩,
          Or.inr ⟨by omega, _, rfl, rfl⟩⟩

theorem ite_move_spec (map : Int → Int → Char) (c : Prop) [Decidable c] (e : Enemy F)
    (b : Entity F) (hc : c → on_floor map b) :
    (if c then { e with base := b } else e).base = e.base ∨
      on_floor map (if c then { e with base := b } else e).base := by
  by_cases h : c
  · rw [if_pos h]; exact Or.inr (hc h)
  · rw [if_neg h]; exact Or.inl rfl

/-- The movement part keeps the enemy's position or gives it one whose truncated cell is a
floor cell of the grid. -/
theorem enemy_move_spec (g : Game F) (e : Enemy F) (dt : F) (rng : Rng) :
    (enemy_move g e dt rng).1.base = e.base ∨ on_floor g.map (enemy_move g e dt rng).1.base := by
  unfold enemy_move
  simp only [MAP_WIDTH, MAP_HEIGHT, ge_iff_le]
  exact ite_move_spec g.map _ e _
    (fun hc => ⟨hc.1, hc.2.1, hc.2.2.1, hc.2.2.2.1, hc.2.2.2.2⟩)

/-- The shooting part keeps the enemy's position and changes the state by at most one call
of `shoot` for an enemy-owned projectile. -/
theorem enemy_shoot_spec (g : Game F) (e : Enemy F) (now : F) (rng : Rng) :
    (enemy_shoot g e now rng).2.1.base = e.base ∧
    ((enemy_shoot g e now rng).1 = g ∨
      ∃ x y dx dy : F, (enemy_shoot g e now rng).1 = shoot g x y dx dy true) := by
  unfold enemy_shoot
  split
  · exact ⟨rfl, Or.inr ⟨_, _, _, _, rfl⟩⟩
  · exact ⟨rfl, Or.inl rfl⟩

/-- One pass of the loop of `update_enemies`: enemy `i` is rewritten in place, keeping its
position or taking one whose truncated cell is a floor cell of the grid; the player, the
map and the flags are untouched; at most one enemy-owned projectile is appended. -/
theorem update_enemies_body_spec (dt now : F) (g : Game F) (rng : Rng) (i : Nat)
    (h : i < g.enemies.length) :
    (∃ e : Enemy F,
      (update_enemies_body dt now g rng i h).1.enemies = g.enemies.set i e ∧
      (e.base = (g.enemies[i]).base ∨ on_floor g.map e.base)) ∧
    (update_enemies_body dt now g rng i h).1.map = g.map ∧
    (update_enemies_body dt now g rng i h).1.player = g.player ∧
    (update_enemies_body dt now g rng i h).1.game_over = g.game_over ∧
    ((update_enemies_body dt now g rng i h).1.projectiles = g.projectiles ∨
      (g.projectiles.length < 100 ∧ ∃ p : Projectile F, p.is_enemy = true ∧
        (update_enemies_body dt now g rng i h).1.projectiles = g.projectiles ++ [p])) := by
  unfold update_enemies_body
  simp only []
  obtain ⟨hb, hs⟩ := enemy_shoot_spec g (enemy_move g (g.enemies[i]) dt rng).1 now
    (enemy_move g (g.enemies[i]) dt rng).2
  have hm := enemy_move_spec g (g.enemies[i]) dt rng
  have hbase : (enemy_shoot g (enemy_move g (g.enemies[i]) dt rng).1 now
      (enemy_move g (g.enemies[i]) dt rng).2).2.1.base = (g.enemies[i]).base ∨
      on_floor g.map (enemy_shoot g (enemy_move g (g.enemies[i]) dt rng).1 now
        (enemy_move g (g.enemies[i]) dt rng).2).2.1.base := by
    rw [hb]; exact hm
  rcases hs with hs | ⟨x, y, dx, dy, hs⟩
  · rw [hs]
    exact ⟨⟨_, rfl, hbase⟩, rfl, rfl, rfl, Or.inl rfl⟩
  · rw [hs]
    obtain ⟨f1, f2, f3, f4, f5, f6, f7⟩ := shoot_frame g x y dx dy true
    refine ⟨⟨_, by rw [f2], hbase⟩, f1, ?_, f5, f7⟩
    rw [shoot_enemy_eq]
    split <;> rfl

/-- Loop rule for `update_enemies`: what every pass keeps holds at the end. -/
theorem update_enemies_loop_rule (dt now : F) (P : Game F → Prop)
    (hstep : ∀ g rng i (h : i < g.enemies.length), P g →
      P (update_enemies_body dt now g rng i h).1) :
    ∀ (fuel : Nat) (g : Game F) (rng : Rng) (i : Nat), P g →
      P (update_enemies_loop dt now fuel g rng i).1 := by
  intro fuel
  induction fuel with
  | zero => intro g rng i hP; exact hP
  | succ n ih =>
    intro g rng i hP
    unfold update_enemies_loop
    split_ifs with h
    · exact ih _ _ _ (hstep g rng i h hP)
    · exact hP

/-- The loop of `update_enemies` runs to completion: a pass keeps `num_enemies`, so more
passes than `num_enemies - i` change nothing. -/
theorem update_enemies_loop_fuel (dt now : F) :
    ∀ (fuel : Nat) (g : Game F) (rng : Rng) (i : Nat), g.enemies.length - i ≤ fuel →
      update_enemies_loop dt now fuel g rng i
        = update_enemies_loop dt now (g.enemies.length - i) g rng i := by
  intro fuel
  induction fuel with
  | zero =>
    intro g rng i hf
    have : g.enemies.length - i = 0 := by omega
    rw [this]
  | succ n ih =>
    intro g rng i hf
    by_cases h : i < g.enemies.length
    · obtain ⟨m, hm⟩ : ∃ m, g.enemies.length - i = m + 1 :=
        ⟨g.enemies.length - i - 1, by omega⟩
      obtain ⟨⟨e, b0, _⟩, _⟩ := update_enemies_body_spec dt now g rng i h
      have hlen : (update_enemies_body dt now g rng i h).1.enemies.length = g.enemies.length := by
        rw [b0]; simp
      rw [hm]
      unfold update_enemies_loop
      simp only [h, dite_true]
      rw [ih _ _ _ (by omega)]
      have : (update_enemies_body dt now g rng i h).1.enemies.length - (i + 1) = m := by omega
      rw [this]
    · have h0 : g.enemies.length - i = 0 := by omega
      rw [h0]
      unfold update_enemies_loop
      simp [h]

/-! ## Enemy timers -/

theorem ite_base_timers (c : Prop) [Decidable c] (e : Enemy F) (b : Entity F) :
    (if c then { e with base := b } else e).last_shot_time = e.last_shot_time ∧
    (if c then { e with base := b } else e).shoot_delay = e.shoot_delay := by
  by_cases h : c
  · rw [if_pos h]; exact ⟨rfl, rfl⟩
  · rw [if_neg h]; exact ⟨rfl, rfl⟩

/-- The movement part does not touch the timer of the enemy. -/
theorem enemy_move_timers (g : Game F) (e : Enemy F) (dt : F) (rng : Rng) :
    (enemy_move g e dt rng).1.last_shot_time = e.last_shot_time ∧
    (enemy_move g e dt rng).1.shoot_delay = e.shoot_delay := by
  unfold enemy_move
  simp only []
  exact ite_base_timers _ e _

/-- The shooting part: an enemy that is due calls `shoot` once from its position, as the
enemy, and gets a new timer; an enemy that is not due changes nothing. -/
theorem enemy_shoot_due (g : Game F) (e : Enemy F) (now : F) (rng : Rng) :
    (due now e = true → ∃ dx dy : F,
      enemy_shoot g e now rng =
        (shoot g e.base.x e.base.y dx dy true,
         { e with last_shot_time := now,
                  shoot_delay := random_delay (rand rng).1 },
         (rand rng).2)) ∧
    (due now e = false → enemy_shoot g e now rng = (g, e, rng)) := by
  unfold enemy_shoot due
  constructor
  · intro h
    rw [if_pos h]
    exact ⟨_, _, rfl⟩
  · intro h
    rw [if_neg (by rw [h]; simp)]

theorem rand_nonneg (rng : Rng) : 0 ≤ (rand rng).1 := by
  unfold rand
  exact Int.natCast_nonneg _

/-- One pass of the loop of `update_enemies` for enemy `i`, as far as shooting goes. -/
theorem update_enemies_body_shoot (dt now : F) (g : Game F) (rng : Rng) (i : Nat)
    (h : i < g.enemies.length) :
    (update_enemies_body dt now g rng i h).1.player = g.player ∧
    ∃ e2 : Enemy F,
      (update_enemies_body dt now g rng i h).1.enemies = g.enemies.set i e2 ∧
      e2.base = (enemy_move g (g.enemies[i]) dt rng).1.base ∧
      ShootTimer now (g.enemies[i]) e2 ∧
      (due now (g.enemies[i]) = true →
        (g.projectiles.length < 100 → ∃ p : Projectile F, p.is_enemy = true ∧
          p.base.x = (enemy_move g (g.enemies[i]) dt rng).1.base.x ∧
          p.base.y = (enemy_move g (g.enemies[i]) dt rng).1.base.y ∧
          (update_enemies_body dt now g rng i h).1.projectiles = g.projectiles ++ [p]) ∧
        (100 ≤ g.projectiles.length →
          (update_enemies_body dt now g rng i h).1.projectiles = g.projectiles)) ∧
      (due now (g.enemies[i]) = false →
        (update_enemies_body dt now g rng i h).1.projectiles = g.projectiles) := by
  obtain ⟨t1, t2⟩ := enemy_move_timers g (g.enemies[i]) dt rng
  have hdue : due now (enemy_move g (g.enemies[i]) dt rng).1 = due now (g.enemies[i]) := by
    unfold due; rw [t1, t2]
  obtain ⟨s1, s2⟩ := enemy_shoot_due g (enemy_move g (g.enemies[i]) dt rng).1 now
    (enemy_move g (g.enemies[i]) dt rng).2
  unfold update_enemies_body
  simp only []
  by_cases hd : due now (g.enemies[i]) = true
  · have hnf : ¬ due now (g.enemies[i]) = false := by rw [hd]; simp
    obtain ⟨dx, dy, es⟩ := s1 (hdue.trans hd)
    rw [es]
    simp only [shoot_enemy_eq]
    by_cases hc : 100 ≤ g.projectiles.length
    · rw [if_pos hc]
      exact ⟨rfl, _, rfl, rfl, ⟨fun _ => ⟨rfl, _, rand_nonneg _, rfl⟩, fun hf => absurd hf hnf⟩,
        fun _ => ⟨fun hlt => absurd hc (not_le.mpr hlt), fun _ => rfl⟩,
        fun hf => absurd hf hnf⟩
    · rw [if_neg hc]
      exact ⟨rfl, _, rfl, rfl, ⟨fun _ => ⟨rfl, _, rand_nonneg _, rfl⟩, fun hf => absurd hf hnf⟩,
        fun _ => ⟨fun _ => ⟨_, rfl, rfl, rfl, rfl⟩, fun hge => absurd hge hc⟩,
        fun hf => absurd hf hnf⟩
  · have hf0 : due now (g.enemies[i]) = false := by simpa using hd
    rw [s2 (hdue.trans hf0)]
    exact ⟨rfl, _, rfl, rfl, ⟨fun ht => absurd ht hd, fun _ => ⟨t1, t2⟩⟩,
      fun ht => absurd ht hd, fun _ => rfl⟩

/-- Loop rule for `update_enemies` with the index: an invariant `P game i` kept by every
pass holds when the loop is left, where `i` has reached `num_enemies`. -/
theorem update_enemies_loop_rule_idx (dt now : F) (P : Game F → Nat → Prop)
    (Q : Game F → Prop)
    (hstep : ∀ g rng i (h : i < g.enemies.length), P g i →
      P (update_enemies_body dt now g rng i h).1 (i + 1))
    (hexit : ∀ g i, P g i → g.enemies.length ≤ i → Q g) :
    ∀ (fuel : Nat) (g : Game F) (rng : Rng) (i : Nat), g.enemies.length - i ≤ fuel →
      P g i → Q (update_enemies_loop dt now fuel g rng i).1 := by
  intro fuel
  induction fuel with
  | zero =>
    intro g rng i hf hP
    exact hexit g i hP (by omega)
  | succ n ih =>
    intro g rng i hf hP
    unfold update_enemies_loop
    by_cases h : i < g.enemies.length
    · rw [dif_pos h]
      obtain ⟨⟨e, b0, _⟩, _⟩ := update_enemies_body_spec dt now g rng i h
      have hlen : (update_enemies_body dt now g rng i h).1.enemies.length
          = g.enemies.length := by rw [b0]; simp
      exact ih _ _ _ (by omega) (hstep g rng i h hP)
    · rw [dif_neg h]
      exact hexit g i hP (by omega)

theorem countP_take_succ {α : Type} (l : List α) (i : Nat) (h : i < l.length) (p : α → Bool) :
    (l.take (i + 1)).countP p = (l.take i).countP p + (if p (l[i]) = true then 1 else 0) := by
  rw [List.take_succ, List.countP_append, List.getElem?_eq_getElem h]
  simp [List.countP_cons]

/-- One call of `update_enemies` at clock value `now`: every enemy's timer follows
`ShootTimer`, the player is untouched, and the projectiles added are enemy-owned, at most
one per enemy that was due. -/
theorem update_enemies_timers (g : Game F) (dt now : F) (rng : Rng) :
    (update_enemies g dt now rng).1.enemies.length = g.enemies.length ∧
    (update_enemies g dt now rng).1.player = g.player ∧
    (∀ (k : Nat) (e e1 : Enemy F), g.enemies[k]? = some e →
      (update_enemies g dt now rng).1.enemies[k]? = some e1 → ShootTimer now e e1) ∧
    ∃ new : List (Projectile F),
      (update_enemies g dt now rng).1.projectiles = g.projectiles ++ new ∧
      (∀ p ∈ new, p.is_enemy = true) ∧ new.length ≤ g.enemies.countP (due now) := by
  unfold update_enemies
  refine update_enemies_loop_rule_idx dt now
    (fun g1 i => g1.enemies.length = g.enemies.length ∧ g1.player = g.player ∧
      (∀ k : Nat, i ≤ k → g1.enemies[k]? = g.enemies[k]?) ∧
      (∀ (k : Nat) (e e1 : Enemy F), k < i → g.enemies[k]? = some e →
        g1.enemies[k]? = some e1 → ShootTimer now e e1) ∧
      ∃ new : List (Projectile F), g1.projectiles = g.projectiles ++ new ∧
        (∀ p ∈ new, p.is_enemy = true) ∧
        new.length ≤ (g.enemies.take i).countP (due now))
    (fun g1 => g1.enemies.length = g.enemies.length ∧ g1.player = g.player ∧
      (∀ (k : Nat) (e e1 : Enemy F), g.enemies[k]? = some e →
        g1.enemies[k]? = some e1 → ShootTimer now e e1) ∧
      ∃ new : List (Projectile F), g1.projectiles = g.projectiles ++ new ∧
        (∀ p ∈ new, p.is_enemy = true) ∧ new.length ≤ g.enemies.countP (due now))
    ?_ ?_ g.enemies.length g rng 0 (by omega)
    ⟨rfl, rfl, fun _ _ => rfl, fun k _ _ hk => absurd hk (Nat.not_lt_zero k),
      [], by simp, by simp, by simp⟩
  · intro g1 rng1 i h ⟨h1, h2, h3, h4, new, h5, h6, h7⟩
    have hi : i < g.enemies.length := by omega
    have hgi : g1.enemies[i] = g.enemies[i] := by
      have := h3 i (le_refl i)
      rw [List.getElem?_eq_getElem h, List.getElem?_eq_getElem hi] at this
      exact Option.some.inj this
    obtain ⟨b1, e2, b2, _, b4, b5, b6⟩ := update_enemies_body_shoot dt now g1 rng1 i h
    rw [hgi] at b4 b5 b6
    have hct := countP_take_succ g.enemies i hi (due now)
    refine ⟨by rw [b2]; simpa using h1, b1.trans h2, ?_, ?_, ?_⟩
    · intro k hk
      rw [b2, List.getElem?_set_ne (by omega)]
      exact h3 k (by omega)
    · intro k e e1 hk he he1
      rw [b2] at he1
      by_cases hki : k = i
      · subst hki
        rw [List.getElem?_set_self h] at he1
        rw [List.getElem?_eq_getElem hi] at he
        cases he1
        cases he
        exact b4
      · rw [List.getElem?_set_ne (Ne.symm hki)] at he1
        exact h4 k e e1 (by omega) he he1
    · by_cases hd : due now (g.enemies[i]) = true
      · rw [if_pos hd] at hct
        by_cases hc : 100 ≤ g1.projectiles.length
        · refine ⟨new, ?_, h6, by omega⟩
          rw [(b5 hd).2 hc]; exact h5
        · obtain ⟨p, p1, _, _, p4⟩ := (b5 hd).1 (by omega)
          refine ⟨new ++ [p], ?_, ?_, ?_⟩
          · rw [p4, h5, List.append_assoc]
          · intro q hq
            rcases List.mem_append.mp hq with hq | hq
            · exact h6 q hq
            · rw [List.mem_singleton.mp hq]; exact p1
          · simp only [List.length_append, List.length_singleton]
            omega
      · have hf : due now (g.enemies[i]) = false := by simpa using hd
        refine ⟨new, ?_, h6, by omega⟩
        rw [b6 hf]; exact h5
  · intro g1 i ⟨h1, h2, _, h4, new, h5, h6, h7⟩ hlen
    refine ⟨h1, h2, ?_, new, h5, h6, ?_⟩
    · intro k e e1 he he1
      have hk : k < g.enemies.length := (List.getElem?_eq_some.mp he).1
      exact h4 k e e1 (by omega) he he1
    · rw [List.take_of_length_le (by omega)] at h7
      exact h7

/-- When the inner loop of `spawn_enemies` returns, the enemy it appended has the shoot delay
`random_delay r` for a random value `r >= 0`. -/
theorem spawn_enemy_delay (now : F) :
    ∀ (fuel : Nat) (g : Game F) (rng : Rng) (st : Game F × Rng),
      spawn_enemy now fuel g rng = some st →
      ∃ (e : Enemy F) (r : Int), 0 ≤ r ∧ st.1.enemies = g.enemies ++ [e] ∧
        e.shoot_delay = random_delay r := by
  intro fuel
  induction fuel with
  | zero => intro g rng st h; simp [spawn_enemy] at h
  | succ n ih =>
    intro g rng st h
    unfold spawn_enemy at h
    simp only [] at h
    split_ifs at h with hc
    · cases h
      exact ⟨_, _, rand_nonneg _, rfl, rfl⟩
    · exact ih g _ st h

/-- When `spawn_enemies` returns, every enemy has a shoot delay `random_delay r` for a random
value `r >= 0`. -/
theorem spawn_enemies_delay (fuel : Nat) (times : Nat → F) :
    ∀ (n : Nat) (g : Game F) (rng : Rng) (st : Game F × Rng),
      spawn_enemies_loop fuel times n g rng = some st →
      ∃ l : List (Enemy F), st.1.enemies = g.enemies ++ l ∧
        ∀ e ∈ l, ∃ r : Int, 0 ≤ r ∧ e.shoot_delay = random_delay r := by
  intro n
  induction n with
  | zero =>
    intro g rng st h
    simp only [spawn_enemies_loop, Option.some.injEq] at h
    subst h
    exact ⟨[], by simp, by simp⟩
  | succ k ih =>
    intro g rng st h
    unfold spawn_enemies_loop at h
    cases h1 : spawn_enemy (times k) fuel g rng with
    | none => simp [h1] at h
    | some st1 =>
      simp only [h1] at h
      obtain ⟨e, r, hr, he, hd⟩ := spawn_enemy_delay (times k) fuel g rng st1 h1
      obtain ⟨l, i1, i2⟩ := ih st1.1 st1.2 st h
      rw [he] at i1
      refine ⟨e :: l, by simpa using i1, ?_⟩
      intro e1 he1
      rcases List.mem_cons.mp he1 with he1 | he1
      · subst he1; exact ⟨r, hr, hd⟩
      · exact i2 e1 he1

/-- With the rounding of the machine the delay stored for a random value `k < 200` is at
least 1 and less than 3. -/
theorem ieee_delay_range_fin :
    ∀ k : Fin 200,
      FloatOps.le (ofInt 1 : Ieee) (random_delay ((k : Nat) : Int)) = true ∧
      FloatOps.lt (random_delay ((k : Nat) : Int) : Ieee) (ofInt 3) = true := by
  decide!

/-- With the rounding of the machine every stored delay is at least 1 and less than 3. -/
theorem ieee_delay_range (r : Int) :
    FloatOps.le (ofInt 1 : Ieee) (random_delay r) = true ∧
    FloatOps.lt (random_delay r : Ieee) (ofInt 3) = true := by
  have h1 : (0 : Int) ≤ r % 200 := Int.emod_nonneg r (by decide)
  have h2 : r % 200 < 200 := Int.emod_lt_of_pos r (by decide)
  have hk : (r % 200).toNat < 200 := by omega
  have e1 : (((r % 200).toNat : Nat) : Int) = r % 200 := Int.toNat_of_nonneg h1
  have e2 : (random_delay r : Ieee) = random_delay (((r % 200).toNat : Nat) : Int) := by
    unfold random_delay
    rw [e1, Int.emod_emod_of_dvd r (dvd_refl 200)]
  rw [e2]
  exact ieee_delay_range_fin ⟨(r % 200).toNat, hk⟩

/-! ## Facts about `generate_map` and the spawns -/

/-- Filling the first `n` cells of row `Y` with `c`. -/
theorem fill_row_spec (c : Char) (Y : Nat) :
    ∀ (n : Nat) (m0 : Int → Int → Char) (y x : Int),
      ((List.range n).foldl (fun m (x1 : Nat) => set_cell m Y x1 c) m0) y x
        = if y = Y ∧ 0 ≤ x ∧ x < n then c else m0 y x := by
  intro n
  induction n with
  | zero =>
    intro m0 y x
    simp only [List.range_zero, List.foldl_nil]
    rw [if_neg]
    intro h
    omega
  | succ k ih =>
    intro m0 y x
    rw [List.range_succ, List.foldl_append]
    simp only [List.foldl_cons, List.foldl_nil, set_cell, ih]
    push_cast
    split_ifs <;> first | rfl | (exfalso; omega)

/-- Filling the first `n` rows, `w` cells each, with `c`. -/
theorem fill_rows_spec (c : Char) (w : Nat) :
    ∀ (n : Nat) (m0 : Int → Int → Char) (y x : Int),
      ((List.range n).foldl
          (fun m (y1 : Nat) => (List.range w).foldl (fun m (x1 : Nat) => set_cell m y1 x1 c) m)
          m0) y x
        = if (0 ≤ y ∧ y < n) ∧ 0 ≤ x ∧ x < w then c else m0 y x := by
  intro n
  induction n with
  | zero =>
    intro m0 y x
    simp only [List.range_zero, List.foldl_nil]
    rw [if_neg]
    intro h
    omega
  | succ k ih =>
    intro m0 y x
    rw [List.range_succ, List.foldl_append]
    simp only [List.foldl_cons, List.foldl_nil, set_cell, ih, fill_row_spec]
    push_cast
    split_ifs <;> first | rfl | (exfalso; omega)

/-- The loop that writes the top and bottom border. -/
theorem border_rows_spec (c : Char) (Y1 Y2 : Int) :
    ∀ (n : Nat) (m0 : Int → Int → Char) (y x : Int),
      ((List.range n).foldl (fun m (x1 : Nat) => set_cell (set_cell m Y1 x1 c) Y2 x1 c) m0) y x
        = if (y = Y1 ∨ y = Y2) ∧ 0 ≤ x ∧ x < n then c else m0 y x := by
  intro n
  induction n with
  | zero =>
    intro m0 y x
    simp only [List.range_zero, List.foldl_nil]
    rw [if_neg]
    intro h
    omega
  | succ k ih =>
    intro m0 y x
    rw [List.range_succ, List.foldl_append]
    simp only [List.foldl_cons, List.foldl_nil, set_cell, ih]
    push_cast
    split_ifs <;> first | rfl | (exfalso; omega)

/-- The loop that writes the left and right border. -/
theorem border_cols_spec (c : Char) (X1 X2 : Int) :
    ∀ (n : Nat) (m0 : Int → Int → Char) (y x : Int),
      ((List.range n).foldl (fun m (y1 : Nat) => set_cell (set_cell m y1 X1 c) y1 X2 c) m0) y x
        = if (x = X1 ∨ x = X2) ∧ 0 ≤ y ∧ y < n then c else m0 y x := by
  intro n
  induction n with
  | zero =>
    intro m0 y x
    simp only [List.range_zero, List.foldl_nil]
    rw [if_neg]
    intro h
    omega
  | succ k ih =>
    intro m0 y x
    rw [List.range_succ, List.foldl_append]
    simp only [List.foldl_cons, List.foldl_nil, set_cell, ih]
    push_cast
    split_ifs <;> first | rfl | (exfalso; omega)

/-- One random wall: a cell either keeps its content or is an interior cell turned into
wall. -/
theorem random_wall_spec (st : (Int → Int → Char) × Rng) (y x : Int) :
    (random_wall st).1 y x = st.1 y x ∨
      ((random_wall st).1 y x = WALL_CHAR ∧ 1 ≤ x ∧ x ≤ 38 ∧ 1 ≤ y ∧ y ≤ 18) := by
  unfold random_wall
  simp only [set_cell, rand, MAP_WIDTH, MAP_HEIGHT]
  split_ifs with h
  · right
    refine ⟨rfl, ?_, ?_, ?_, ?_⟩ <;> omega
  · left; rfl

/-- The loop that scatters walls: a cell either keeps its content or is an interior cell
turned into wall. -/
theorem random_walls_spec :
    ∀ (n : Nat) (st : (Int → Int → Char) × Rng) (y x : Int),
      ((List.range n).foldl (fun st1 _ => random_wall st1) st).1 y x = st.1 y x ∨
        (((List.range n).foldl (fun st1 _ => random_wall st1) st).1 y x = WALL_CHAR ∧
          1 ≤ x ∧ x ≤ 38 ∧ 1 ≤ y ∧ y ≤ 18) := by
  intro n
  induction n with
  | zero => intro st y x; left; rfl
  | succ k ih =>
    intro st y x
    rw [List.range_succ, List.foldl_append]
    simp only [List.foldl_cons, List.foldl_nil]
    rcases random_wall_spec ((List.range k).foldl (fun st1 _ => random_wall st1) st) y x with
      h | h
    · rw [h]; exact ih st y x
    · exact Or.inr h

/-- The grid after `generate_map`: wall on the border, and in the interior floor or, where a
random wall fell, wall. -/
theorem generate_map_cell (g : Game F) (rng : Rng) (y x : Int)
    (hy0 : 0 ≤ y) (hy1 : y < 20) (hx0 : 0 ≤ x) (hx1 : x < 40) :
    ((y = 0 ∨ y = 19 ∨ x = 0 ∨ x = 39) → (generate_map g rng).1.map y x = WALL_CHAR) ∧
    ((generate_map g rng).1.map y x = FLOOR_CHAR ∨
      (generate_map g rng).1.map y x = WALL_CHAR) := by
  unfold generate_map
  simp only []
  have h3 : ∀ m0 : Int → Int → Char,
      ((List.range MAP_HEIGHT.toNat).foldl
        (fun m (y1 : Nat) => set_cell (set_cell m y1 0 WALL_CHAR) y1 (MAP_WIDTH - 1) WALL_CHAR)
        ((List.range MAP_WIDTH.toNat).foldl
          (fun m (x1 : Nat) => set_cell (set_cell m 0 x1 WALL_CHAR) (MAP_HEIGHT - 1) x1 WALL_CHAR)
          ((List.range MAP_HEIGHT.toNat).foldl
            (fun m (y1 : Nat) => (List.range MAP_WIDTH.toNat).foldl
              (fun m (x1 : Nat) => set_cell m y1 x1 FLOOR_CHAR) m) m0))) y x
        = if y = 0 ∨ y = 19 ∨ x = 0 ∨ x = 39 then WALL_CHAR else FLOOR_CHAR := by
    intro m0
    rw [border_cols_spec, border_rows_spec, fill_rows_spec]
    simp only [MAP_WIDTH, MAP_HEIGHT]
    have e1 : Int.toNat 20 = 20 := by decide
    have e2 : Int.toNat 40 = 40 := by decide
    simp only [e1, e2]
    push_cast
    split_ifs <;> first | rfl | (exfalso; omega)
  rcases random_walls_spec (MAP_WIDTH.toNat * MAP_HEIGHT.toNat / WALL_DENSITY)
    (_, rng) y x with h | h
  · rw [h]
    dsimp only
    rw [h3]
    constructor
    · intro hb; rw [if_pos hb]
    · split_ifs
      · right; rfl
      · left; rfl
  · constructor
    · intro hb; omega
    · right; exact h.1

/-- When `spawn_player` returns, the player was put on an interior floor cell with health
100 and 10 rounds, and nothing else changed. -/
theorem spawn_player_spec :
    ∀ (fuel : Nat) (g : Game F) (rng : Rng) (st : Game F × Rng),
      spawn_player fuel g rng = some st →
      ∃ x y : Int, 1 ≤ x ∧ x ≤ 38 ∧ 1 ≤ y ∧ y ≤ 18 ∧ g.map y x = FLOOR_CHAR ∧
        st.1 = { g with
                 player := { base := { x := ofInt x, y := ofInt y, character := PLAYER_CHAR },
                             health := 100, speed := ofInt 1, ammo := 10 } } := by
  intro fuel
  induction fuel with
  | zero => intro g rng st h; simp [spawn_player] at h
  | succ n ih =>
    intro g rng st h
    unfold spawn_player at h
    simp only [] at h
    split_ifs at h with hc
    · cases h
      refine ⟨_, _, ?_, ?_, ?_, ?_, hc, rfl⟩ <;>
        simp only [rand, MAP_WIDTH, MAP_HEIGHT] <;> omega
    · exact ih g _ st h

/-- When the inner loop of `spawn_enemies` returns, one enemy with health 50 was appended on
an interior floor cell, and nothing else changed. -/
theorem spawn_enemy_spec (now : F) :
    ∀ (fuel : Nat) (g : Game F) (rng : Rng) (st : Game F × Rng),
      spawn_enemy now fuel g rng = some st →
      ∃ (x y : Int) (e : Enemy F), 1 ≤ x ∧ x ≤ 38 ∧ 1 ≤ y ∧ y ≤ 18 ∧ g.map y x = FLOOR_CHAR ∧
        e.base = { x := ofInt x, y := ofInt y, character := ENEMY_CHAR } ∧ e.health = 50 ∧
        st.1 = { g with enemies := g.enemies ++ [e] } := by
  intro fuel
  induction fuel with
  | zero => intro g rng st h; simp [spawn_enemy] at h
  | succ n ih =>
    intro g rng st h
    unfold spawn_enemy at h
    simp only [] at h
    split_ifs at h with hc
    · cases h
      refine ⟨_, _, _, ?_, ?_, ?_, ?_, hc, rfl, rfl, rfl⟩ <;>
        simp only [rand, MAP_WIDTH, MAP_HEIGHT] <;> omega
    · exact ih g _ st h

/-- When the outer loop of `spawn_enemies` returns after `n` passes, `n` enemies were
appended, each with health 50 on an interior floor cell, and nothing else changed. -/
theorem spawn_enemies_loop_spec (fuel : Nat) (times : Nat → F) :
    ∀ (n : Nat) (g : Game F) (rng : Rng) (st : Game F × Rng),
      spawn_enemies_loop fuel times n g rng = some st →
      st.1.map = g.map ∧ st.1.player = g.player ∧ st.1.projectiles = g.projectiles ∧
      st.1.game_over = g.game_over ∧
      ∃ l : List (Enemy F), st.1.enemies = g.enemies ++ l ∧ l.length = n ∧
        ∀ e ∈ l, e.health = 50 ∧
          ∃ x y : Int, 1 ≤ x ∧ x ≤ 38 ∧ 1 ≤ y ∧ y ≤ 18 ∧ g.map y x = FLOOR_CHAR ∧
            e.base = { x := ofInt x, y := ofInt y, character := ENEMY_CHAR } := by
  intro n
  induction n with
  | zero =>
    intro g rng st h
    simp only [spawn_enemies_loop, Option.some.injEq] at h
    subst h
    exact ⟨rfl, rfl, rfl, rfl, [], by simp, rfl, by simp⟩
  | succ k ih =>
    intro g rng st h
    unfold spawn_enemies_loop at h
    cases h1 : spawn_enemy (times k) fuel g rng with
    | none => simp [h1] at h
    | some st1 =>
      simp only [h1] at h
      obtain ⟨x, y, e, hx0, hx1, hy0, hy1, hfl, hb, hh, hst⟩ :=
        spawn_enemy_spec (times k) fuel g rng st1 h1
      obtain ⟨i1, i2, i3, i4, l, i5, i6, i7⟩ := ih st1.1 st1.2 st h
      rw [hst] at i1 i2 i3 i4 i5 i7
      refine ⟨i1, i2, i3, i4, e :: l, by simpa using i5, by simp [i6], ?_⟩
      intro e1 he1
      rcases List.mem_cons.mp he1 with he1 | he1
      · subst he1
        exact ⟨hh, x, y, hx0, hx1, hy0, hy1, hfl, hb⟩
      · exact i7 e1 he1

/-- When `init_game` returns: the grid is the generated one, the player stands on an
interior floor cell with health 100 and 10 rounds, there are 10 enemies with health 50, each
on an interior floor cell, no projectile, and the session is not over. -/
theorem init_game_spec (fuel : Nat) (now : F) (times : Nat → F) (g0 : Game F) (rng : Rng)
    (st : Game F × Rng) (h : init_game fuel now times g0 rng = some st) :
    (∃ x y : Int, 1 ≤ x ∧ x ≤ 38 ∧ 1 ≤ y ∧ y ≤ 18 ∧ st.1.map y x = FLOOR_CHAR ∧
      st.1.player = { base := { x := ofInt x, y := ofInt y, character := PLAYER_CHAR },
                      health := 100, speed := ofInt 1, ammo := 10 }) ∧
    st.1.enemies.length = 10 ∧
    (∀ e ∈ st.1.enemies, e.health = 50 ∧
      ∃ x y : Int, 1 ≤ x ∧ x ≤ 38 ∧ 1 ≤ y ∧ y ≤ 18 ∧ st.1.map y x = FLOOR_CHAR ∧
        e.base = { x := ofInt x, y := ofInt y, character := ENEMY_CHAR }) ∧
    st.1.projectiles = [] ∧ st.1.game_over = false := by
  unfold init_game at h
  simp only [] at h
  cases h1 : spawn_player fuel (generate_map
      ({ map := fun _ _ => Char.ofNat 0,
         player := { base := { x := ofInt 0, y := ofInt 0, character := Char.ofNat 0 },
                     health := 0, speed := ofInt 0, ammo := 0 },
         enemies := [], projectiles := [], last_update := now, game_over := false } : Game F)
      rng).1 (generate_map
      ({ map := fun _ _ => Char.ofNat 0,
         player := { base := { x := ofInt 0, y := ofInt 0, character := Char.ofNat 0 },
                     health := 0, speed := ofInt 0, ammo := 0 },
         enemies := [], projectiles := [], last_update := now, game_over := false } : Game F)
      rng).2 with
  | none => simp [h1] at h
  | some st2 =>
    simp only [h1] at h
    obtain ⟨x, y, hx0, hx1, hy0, hy1, hfl, hst2⟩ := spawn_player_spec fuel _ _ st2 h1
    unfold spawn_enemies at h
    obtain ⟨i1, i2, i3, i4, l, i5, i6, i7⟩ := spawn_enemies_loop_spec fuel times _ _ _ st h
    simp only [List.nil_append] at i5
    have hmap : st.1.map = st2.1.map := i1
    rw [hst2] at hmap i2 i3 i4
    simp only at hmap i2 i3 i4
    refine ⟨⟨x, y, hx0, hx1, hy0, hy1, by rw [hmap]; exact hfl, by rw [i2]⟩, ?_, ?_, ?_, ?_⟩
    · rw [i5, i6]; rfl
    · intro e he
      rw [i5] at he
      obtain ⟨hh, x1, y1, a1, a2, a3, a4, a5, a6⟩ := i7 e he
      refine ⟨hh, x1, y1, a1, a2, a3, a4, ?_, a6⟩
      rw [hmap]
      rw [hst2] at a5
      exact a5
    · rw [i3]; rfl
    · rw [i4]; rfl

/-! ## Facts about `handle_input` and enemy-owned projectiles -/

theorem ite_pred {α : Type} (P : α → Prop) (c : Prop) [Decidable c] (a b : α)
    (ha : P a) (hb : P b) : P (if c then a else b) := by
  by_cases h : c
  · rw [if_pos h]; exact ha
  · rw [if_neg h]; exact hb

/-- What `handle_input` can do: one player move, one player shot, the quit flag, or nothing. -/
theorem handle_input_cases (g : Game F) (key : Key) : InputEffect g (handle_input g key) := by
  have hs : ∀ dx dy : Int, InputEffect g (player_shoot g dx dy) :=
    fun dx dy => Or.inr (Or.inl ⟨_, _, _, _, rfl⟩)
  cases key with
  | KEY_UP => exact Or.inl ⟨_, _, rfl⟩
  | KEY_DOWN => exact Or.inl ⟨_, _, rfl⟩
  | KEY_LEFT => exact Or.inl ⟨_, _, rfl⟩
  | KEY_RIGHT => exact Or.inl ⟨_, _, rfl⟩
  | none => exact Or.inr (Or.inr (Or.inr rfl))
  | char c =>
    unfold handle_input
    iterate 8 refine ite_pred (InputEffect g) _ _ _ (hs _ _) ?_
    exact ite_pred (InputEffect g) _ _ _ (Or.inr (Or.inr (Or.inl rfl)))
      (Or.inr (Or.inr (Or.inr rfl)))

theorem drop_eraseIdx_self {α : Type} (l : List α) (i : Nat) :
    (l.eraseIdx i).drop i = l.drop (i + 1) := by
  induction l generalizing i with
  | nil => simp
  | cons b t ih =>
    cases i with
    | zero => simp
    | succ n => simp [ih]

/-- Counting enemy-owned projectiles from slot `i` on. -/
theorem enemy_shots_drop (l : List (Projectile F)) (i : Nat) (h : i < l.length) :
    enemy_shots (l.drop i) =
      (if (l[i]).is_enemy = true then 1 else 0) + enemy_shots (l.drop (i + 1)) := by
  rw [List.drop_eq_getElem_cons h]
  unfold enemy_shots
  rw [List.countP_cons]
  omega

/-- A player shot does not change the number of enemy-owned projectiles. -/
theorem enemy_shots_shoot_player (g : Game F) (x y dx dy : F) :
    enemy_shots (shoot g x y dx dy false).projectiles = enemy_shots g.projectiles := by
  obtain ⟨_, _, _, _, _, _, h⟩ := shoot_frame g x y dx dy false
  rcases h with h | ⟨_, p, hp, h⟩
  · rw [h]
  · rw [h]
    simp [enemy_shots, List.countP_append, hp]

/-- Health and enemy-owned projectiles across `handle_input`. -/
theorem handle_input_health (g : Game F) (key : Key) :
    (handle_input g key).player.health = g.player.health ∧
    enemy_shots (handle_input g key).projectiles = enemy_shots g.projectiles := by
  rcases handle_input_cases g key with ⟨dx, dy, h⟩ | ⟨x, y, dx, dy, h⟩ | h | h
  · rw [h]; exact ⟨rfl, rfl⟩
  · rw [h]; exact ⟨(shoot_frame g x y dx dy false).2.2.2.1, enemy_shots_shoot_player g x y dx dy⟩
  · rw [h]; exact ⟨rfl, rfl⟩
  · rw [h]; exact ⟨rfl, rfl⟩

/-- The function `update_enemies` does not touch the player, the map or `game_over`. -/
theorem update_enemies_player (g : Game F) (dt now : F) (rng : Rng) :
    (update_enemies g dt now rng).1.player = g.player ∧
    (update_enemies g dt now rng).1.map = g.map ∧
    (update_enemies g dt now rng).1.game_over = g.game_over := by
  unfold update_enemies
  refine update_enemies_loop_rule dt now
    (fun g1 => g1.player = g.player ∧ g1.map = g.map ∧ g1.game_over = g.game_over) ?_
    g.enemies.length g rng 0 ⟨rfl, rfl, rfl⟩
  intro g1 rng1 i h ⟨h1, h2, h3⟩
  obtain ⟨_, b1, b2, b3, _⟩ := update_enemies_body_spec dt now g1 rng1 i h
  exact ⟨b2.trans h1, b1.trans h2, b3.trans h3⟩

/-- Health across `update_projectiles`: never raised, lowered by at most 10 per live
enemy-owned projectile, and `game_over` is set when it was lowered to `<= 0`. -/
theorem update_projectiles_health (g : Game F) (dt : F) :
    (update_projectiles g dt).player.health ≤ g.player.health ∧
    g.player.health - 10 * (enemy_shots g.projectiles : Int)
      ≤ (update_projectiles g dt).player.health ∧
    ((update_projectiles g dt).player.health ≤ 0 →
      (update_projectiles g dt).player.health < g.player.health →
      (update_projectiles g dt).game_over = true) := by
  refine update_projectiles_loop_rule dt
    (fun g1 i => g1.player.health ≤ g.player.health ∧
      g.player.health - 10 * (enemy_shots g.projectiles : Int)
        ≤ g1.player.health - 10 * (enemy_shots (g1.projectiles.drop i) : Int) ∧
      (g1.player.health ≤ 0 → g1.player.health < g.player.health → g1.game_over = true))
    (fun g1 => g1.player.health ≤ g.player.health ∧
      g.player.health - 10 * (enemy_shots g.projectiles : Int) ≤ g1.player.health ∧
      (g1.player.health ≤ 0 → g1.player.health < g.player.health → g1.game_over = true))
    ?_ ?_ g.projectiles.length g 0 (by omega) ⟨le_refl _, by simp, fun _ h => absurd h (lt_irrefl _)⟩
  · intro g1 i h ⟨h1, h2, h3⟩
    have hd := enemy_shots_drop g1.projectiles i h
    rcases update_projectiles_body_cases dt g1 i h with
      ⟨_, e⟩ | ⟨hE, _, _, e⟩ | ⟨_, j, _, e⟩ | ⟨_, _, _, e⟩
    · rw [e]
      simp only [drop_eraseIdx_self]
      refine ⟨h1, ?_, h3⟩
      split_ifs at hd <;> omega
    · rw [e]
      simp only [drop_eraseIdx_self]
      rw [if_pos hE] at hd
      refine ⟨by omega, by omega, ?_⟩
      intro hle _
      rw [if_pos hle]
    · rw [e]
      simp only [drop_eraseIdx_self]
      refine ⟨h1, ?_, h3⟩
      split_ifs at hd <;> omega
    · rw [e]
      simp only [List.drop_set_of_lt _ _ (show i < i + 1 by omega)]
      refine ⟨h1, ?_, h3⟩
      split_ifs at hd <;> omega
  · intro g1 i ⟨h1, h2, h3⟩ _
    refine ⟨h1, ?_, h3⟩
    have : (0 : Int) ≤ (enemy_shots (g1.projectiles.drop i) : Int) := Int.natCast_nonneg _
    omega

/-- Health across one pass of the loop of `run_game`. -/
theorem frame_health (g : Game F) (inp : FrameInput F) :
    (frame g inp).player.health ≤ g.player.health ∧
    g.player.health - 10 * (enemy_shots g.projectiles : Int) ≤ (frame g inp).player.health := by
  unfold frame
  simp only []
  rw [(update_enemies_player _ _ _ _).1]
  obtain ⟨h1, h2, _⟩ := update_projectiles_health
    (handle_input { g with last_update := inp.current_time } inp.key)
    (FloatOps.narrow (FloatOps.dsub inp.current_time g.last_update))
  obtain ⟨h3, h4⟩ := handle_input_health { g with last_update := inp.current_time } inp.key
  rw [h3] at h1 h2
  rw [h4] at h2
  exact ⟨h1, h2⟩

/-- Health never rises along passes of the loop of `run_game`. -/
theorem run_frames_health (inputs : List (FrameInput F)) :
    ∀ g : Game F, (run_frames g inputs).player.health ≤ g.player.health := by
  induction inputs with
  | nil => intro g; exact le_refl _
  | cons inp rest ih =>
    intro g
    exact le_trans (ih (frame g inp)) (frame_health g inp).1

/-! ## Capacity bounds and occupancy across the operations -/

theorem bounds_iff (g : Game F) :
    Bounds g ↔ g.enemies.length ≤ 10 ∧ g.projectiles.length ≤ 100 ∧ 0 ≤ g.player.ammo := by
  unfold Bounds Game.num_enemies Game.projectile_count
  constructor
  · rintro ⟨_, h2, _, h4, h5⟩
    exact ⟨by omega, by omega, h5⟩
  · rintro ⟨h1, h2, h3⟩
    exact ⟨by omega, by omega, by omega, by omega, h3⟩

theorem shoot_bounds (g : Game F) (x y dx dy : F) (o : Bool) (hb : Bounds g) :
    Bounds (shoot g x y dx dy o) := by
  rw [bounds_iff] at hb ⊢
  obtain ⟨_, f2, _, _, _, f6, f7⟩ := shoot_frame g x y dx dy o
  rw [f2]
  refine ⟨hb.1, ?_, ?_⟩
  · rcases f7 with h | ⟨hlt, p, _, h⟩
    · rw [h]; exact hb.2.1
    · rw [h]; simp; omega
  · rcases f6 with h | ⟨hpos, h⟩
    · rw [h]; exact hb.2.2
    · rw [h]; omega

theorem update_projectiles_bounds (g : Game F) (dt : F) (hb : Bounds g) :
    Bounds (update_projectiles g dt) := by
  refine update_projectiles_loop_rule dt (fun g1 _ => Bounds g1) (fun g1 => Bounds g1)
    ?_ (fun _ _ h _ => h) g.projectiles.length g 0 (by omega) hb
  intro g1 i h hb1
  rw [bounds_iff] at hb1
  have he : ∀ j, (g1.enemies.eraseIdx j).length ≤ 10 :=
    fun j => le_trans (List.eraseIdx_sublist _ _).length_le hb1.1
  have hp : (g1.projectiles.eraseIdx i).length ≤ 100 :=
    le_trans (List.eraseIdx_sublist _ _).length_le hb1.2.1
  rcases update_projectiles_body_cases dt g1 i h with
    ⟨_, e⟩ | ⟨_, _, _, e⟩ | ⟨_, j, _, e⟩ | ⟨_, _, _, e⟩
  · rw [e, bounds_iff]; exact ⟨hb1.1, hp, hb1.2.2⟩
  · rw [e, bounds_iff]; exact ⟨hb1.1, hp, hb1.2.2⟩
  · rw [e, bounds_iff]; exact ⟨he j, hp, by show 0 ≤ g1.player.ammo + 2; omega⟩
  · rw [e, bounds_iff]; exact ⟨hb1.1, by simpa using hb1.2.1, hb1.2.2⟩

theorem update_enemies_bounds (g : Game F) (dt now : F) (rng : Rng) (hb : Bounds g) :
    Bounds (update_enemies g dt now rng).1 := by
  unfold update_enemies
  refine update_enemies_loop_rule dt now (fun g1 => Bounds g1) ?_ g.enemies.length g rng 0 hb
  intro g1 rng1 i h hb1
  rw [bounds_iff] at hb1 ⊢
  obtain ⟨⟨e, b0, _⟩, _, b2, _, b4⟩ := update_enemies_body_spec dt now g1 rng1 i h
  rw [b0, b2]
  refine ⟨by simpa using hb1.1, ?_, hb1.2.2⟩
  rcases b4 with h4 | ⟨hlt, p, _, h4⟩
  · rw [h4]; exact hb1.2.1
  · rw [h4]; simp; omega

theorem init_game_bounds (fuel : Nat) (now : F) (times : Nat → F) (g0 : Game F) (rng : Rng)
    (st : Game F × Rng) (h : init_game fuel now times g0 rng = some st) : Bounds st.1 := by
  obtain ⟨⟨x, y, _, _, _, _, _, hp⟩, he, _, hpr, _⟩ := init_game_spec fuel now times g0 rng st h
  rw [bounds_iff, he, hpr, hp]
  exact ⟨le_refl _, by simp, by show (0 : Int) ≤ 10; omega⟩

theorem move_player_occupancy (hcast : CastExact F) (g : Game F) (dx dy : F)
    (ho : Occupancy g) : Occupancy (move_player g dx dy) := by
  refine ⟨?_, ho.2⟩
  show on_floor g.map (move_entity g g.player.base dx dy)
  unfold move_entity
  simp only [MAP_WIDTH, MAP_HEIGHT, ge_iff_le]
  split_ifs with h1 h2
  · unfold on_floor
    simp only [hcast _ h1.1 h1.2.1, hcast _ h1.2.2.1 (lt_trans h1.2.2.2 (by decide))]
    exact ⟨h1.1, h1.2.1, h1.2.2.1, h1.2.2.2, h2⟩
  · exact ho.1
  · exact ho.1

theorem shoot_occupancy (g : Game F) (x y dx dy : F) (o : Bool) (ho : Occupancy g) :
    Occupancy (shoot g x y dx dy o) := by
  obtain ⟨f1, f2, f3, _⟩ := shoot_frame g x y dx dy o
  unfold Occupancy
  rw [f1, f2, f3]
  exact ho

theorem handle_input_occupancy (hcast : CastExact F) (g : Game F) (key : Key)
    (ho : Occupancy g) : Occupancy (handle_input g key) := by
  rcases handle_input_cases g key with ⟨dx, dy, h⟩ | ⟨x, y, dx, dy, h⟩ | h | h
  · rw [h]; exact move_player_occupancy hcast g dx dy ho
  · rw [h]; exact shoot_occupancy g x y dx dy false ho
  · rw [h]; exact ho
  · rw [h]; exact ho

theorem update_projectiles_occupancy (g : Game F) (dt : F) (ho : Occupancy g) :
    Occupancy (update_projectiles g dt) := by
  have key : (update_projectiles g dt).map = g.map ∧
      (update_projectiles g dt).player.base = g.player.base ∧
      ∀ e ∈ (update_projectiles g dt).enemies, e ∈ g.enemies := by
    refine update_projectiles_loop_rule dt
      (fun g1 _ => g1.map = g.map ∧ g1.player.base = g.player.base ∧
        ∀ e ∈ g1.enemies, e ∈ g.enemies)
      (fun g1 => g1.map = g.map ∧ g1.player.base = g.player.base ∧
        ∀ e ∈ g1.enemies, e ∈ g.enemies)
      ?_ (fun _ _ h _ => h) g.projectiles.length g 0 (by omega) ⟨rfl, rfl, fun _ h => h⟩
    intro g1 i h ⟨h1, h2, h3⟩
    rcases update_projectiles_body_cases dt g1 i h with
      ⟨_, e⟩ | ⟨_, _, _, e⟩ | ⟨_, j, _, e⟩ | ⟨_, _, _, e⟩
    · rw [e]; exact ⟨h1, h2, h3⟩
    · rw [e]; exact ⟨h1, h2, h3⟩
    · rw [e]; exact ⟨h1, h2, fun e1 he1 => h3 e1 (List.mem_of_mem_eraseIdx he1)⟩
    · rw [e]; exact ⟨h1, h2, h3⟩
  obtain ⟨k1, k2, k3⟩ := key
  unfold Occupancy
  rw [k1, k2]
  exact ⟨ho.1, fun e he => ho.2 e (k3 e he)⟩

theorem update_enemies_occupancy (g : Game F) (dt now : F) (rng : Rng) (ho : Occupancy g) :
    Occupancy (update_enemies g dt now rng).1 := by
  unfold update_enemies
  refine update_enemies_loop_rule dt now (fun g1 => Occupancy g1) ?_ g.enemies.length g rng 0 ho
  intro g1 rng1 i h ho1
  obtain ⟨⟨e, b0, b5⟩, b1, b2, _, _⟩ := update_enemies_body_spec dt now g1 rng1 i h
  unfold Occupancy
  rw [b0, b1, b2]
  refine ⟨ho1.1, ?_⟩
  intro e1 he1
  rcases List.mem_or_eq_of_mem_set he1 with hm | hm
  · exact ho1.2 e1 hm
  · subst hm
    rcases b5 with hb | hb
    · unfold on_floor
      rw [hb]
      exact ho1.2 _ (List.getElem_mem h)
    · exact hb

theorem frame_occupancy (hcast : CastExact F) (g : Game F) (inp : FrameInput F)
    (ho : Occupancy g) : Occupancy (frame g inp) := by
  unfold frame
  exact update_enemies_occupancy _ _ _ _
    (update_projectiles_occupancy _ _ (handle_input_occupancy hcast _ _ ho))

theorem run_frames_occupancy (hcast : CastExact F) (inputs : List (FrameInput F)) :
    ∀ g : Game F, Occupancy g → Occupancy (run_frames g inputs) := by
  induction inputs with
  | nil => intro g ho; exact ho
  | cons inp rest ih => intro g ho; exact ih _ (frame_occupancy hcast g inp ho)

theorem init_game_occupancy (hcast : CastExact F) (fuel : Nat) (now : F) (times : Nat → F)
    (g0 : Game F) (rng : Rng) (st : Game F × Rng)
    (h : init_game fuel now times g0 rng = some st) : Occupancy st.1 := by
  obtain ⟨⟨x, y, x0, x1, y0, y1, hfl, hp⟩, _, he, _, _⟩ :=
    init_game_spec fuel now times g0 rng st h
  have hfloor : ∀ (x y : Int) (c : Char), 1 ≤ x → x ≤ 38 → 1 ≤ y → y ≤ 18 →
      st.1.map y x = FLOOR_CHAR →
      on_floor st.1.map ({ x := ofInt x, y := ofInt y, character := c } : Entity F) := by
    intro x y c a1 a2 a3 a4 a5
    unfold on_floor
    simp only [hcast x (by omega) (by omega), hcast y (by omega) (by omega)]
    exact ⟨by omega, by omega, by omega, by omega, a5⟩
  constructor
  · rw [hp]
    exact hfloor x y _ x0 x1 y0 y1 hfl
  · intro e hmem
    obtain ⟨_, x2, y2, a1, a2, a3, a4, a5, a6⟩ := he e hmem
    rw [a6]
    exact hfloor x2 y2 _ a1 a2 a3 a4 a5

/-! ## The in-place loop of `update_projectiles` and the fold -/

theorem take_set_succ {α : Type} (l : List α) (i : Nat) (h : i < l.length) (a : α) :
    (l.set i a).take (i + 1) = l.take i ++ [a] := by
  induction l generalizing i with
  | nil => simp at h
  | cons b t ih =>
    cases i with
    | zero => simp
    | succ n =>
      simp only [List.length_cons, Nat.add_lt_add_iff_right] at h
      simp [ih n h]

theorem take_eraseIdx_self {α : Type} (l : List α) (i : Nat) :
    (l.eraseIdx i).take i = l.take i := by
  induction l generalizing i with
  | nil => simp
  | cons b t ih =>
    cases i with
    | zero => simp
    | succ n => simp [ih]

/-- The index loop over the enemies finds what `first_enemy_on` finds. -/
theorem find_enemy_at_eq_first (es : List (Enemy F)) (x y : Int) :
    ∀ (fuel j : Nat), es.length - j ≤ fuel →
      find_enemy_at es x y fuel j = (first_enemy_on x y (es.drop j)).map (fun k => k + j) := by
  intro fuel
  induction fuel with
  | zero =>
    intro j hf
    rw [List.drop_of_length_le (by omega)]
    rfl
  | succ n ih =>
    intro j hf
    unfold find_enemy_at
    by_cases h : j < es.length
    · rw [dif_pos h, List.drop_eq_getElem_cons h]
      unfold first_enemy_on
      by_cases hc : toInt (es[j]).base.x = x ∧ toInt (es[j]).base.y = y
      · rw [if_pos hc, if_pos hc]
        simp
      · rw [if_neg hc, if_neg hc, ih (j + 1) (by omega), Option.map_map]
        congr 1
        funext k
        simp only [Function.comp]
        omega
    · rw [dif_neg h, List.drop_of_length_le (by omega)]
      rfl

/-- A projectile that the removal rules leave live is on a cell of the grid that is not a
wall, and the world is unchanged; the map and the order of the enemies are always kept. -/
theorem spec_resolve_facts (w : Game F) (q : Projectile F) :
    (spec_resolve w q).1.map = w.map ∧
    (spec_resolve w q).1.projectiles = w.projectiles ∧
    (spec_resolve w q).1.enemies.Sublist w.enemies ∧
    ((spec_resolve w q).2 = true → (spec_resolve w q).1 = w ∧ off_wall w.map q.base) := by
  unfold spec_resolve
  simp only [MAP_WIDTH, MAP_HEIGHT, ge_iff_le]
  by_cases h1 : toInt q.base.x < 0 ∨ 40 ≤ toInt q.base.x ∨ toInt q.base.y < 0 ∨
      20 ≤ toInt q.base.y
  · rw [if_pos h1]
    exact ⟨rfl, rfl, List.Sublist.refl _, fun h => by simp at h⟩
  rw [if_neg h1]
  by_cases h2 : w.map (toInt q.base.y) (toInt q.base.x) = WALL_CHAR
  · rw [if_pos h2]
    exact ⟨rfl, rfl, List.Sublist.refl _, fun h => by simp at h⟩
  rw [if_neg h2]
  simp only [not_or, not_le, not_lt] at h1
  have hin : off_wall w.map q.base := ⟨h1.1, h1.2.1, h1.2.2.1, h1.2.2.2, h2⟩
  by_cases h3 : q.is_enemy = true
  · rw [if_pos h3]
    by_cases h4 : toInt w.player.base.x = toInt q.base.x ∧
        toInt w.player.base.y = toInt q.base.y
    · rw [if_pos h4]
      exact ⟨rfl, rfl, List.Sublist.refl _, fun h => by simp at h⟩
    · rw [if_neg h4]
      exact ⟨rfl, rfl, List.Sublist.refl _, fun _ => ⟨rfl, hin⟩⟩
  · rw [if_neg h3]
    cases first_enemy_on (toInt q.base.x) (toInt q.base.y) w.enemies with
    | none => exact ⟨rfl, rfl, List.Sublist.refl _, fun _ => ⟨rfl, hin⟩⟩
    | some j => exact ⟨rfl, rfl, List.eraseIdx_sublist _ _, fun h => by simp at h⟩

/-- The removal rules do not look at the projectile collection of the world. -/
theorem spec_resolve_projectiles (w : Game F) (l : List (Projectile F)) (q : Projectile F) :
    spec_resolve { w with projectiles := l } q =
      ({ (spec_resolve w q).1 with projectiles := l }, (spec_resolve w q).2) := by
  unfold spec_resolve
  simp only [MAP_WIDTH, MAP_HEIGHT, ge_iff_le]
  by_cases h1 : toInt q.base.x < 0 ∨ 40 ≤ toInt q.base.x ∨ toInt q.base.y < 0 ∨
      20 ≤ toInt q.base.y
  · rw [if_pos h1, if_pos h1]
  rw [if_neg h1, if_neg h1]
  by_cases h2 : w.map (toInt q.base.y) (toInt q.base.x) = WALL_CHAR
  · rw [if_pos h2, if_pos h2]
  rw [if_neg h2, if_neg h2]
  by_cases h3 : q.is_enemy = true
  · rw [if_pos h3, if_pos h3]
    by_cases h4 : toInt w.player.base.x = toInt q.base.x ∧
        toInt w.player.base.y = toInt q.base.y
    · rw [if_pos h4, if_pos h4]
    · rw [if_neg h4, if_neg h4]
  · rw [if_neg h3, if_neg h3]
    cases first_enemy_on (toInt q.base.x) (toInt q.base.y) w.enemies with
    | none => rfl
    | some j => rfl

/-- The result of the fold does not depend on the projectile collection of the world it
starts from. -/
theorem spec_fold_projectiles (dt : F) (rest : List (Projectile F)) :
    ∀ (w : Game F) (l k : List (Projectile F)),
      spec_finish (rest.foldl (spec_step dt) ({ w with projectiles := l }, k))
        = spec_finish (rest.foldl (spec_step dt) (w, k)) := by
  induction rest with
  | nil => intro w l k; rfl
  | cons p t ih =>
    intro w l k
    simp only [List.foldl_cons]
    have e : spec_step dt ({ w with projectiles := l }, k) p =
        ({ (spec_step dt (w, k) p).1 with projectiles := l }, (spec_step dt (w, k) p).2) := by
      unfold spec_step
      simp only [spec_resolve_projectiles]
    rw [e]
    exact ih _ l _

/-- One pass of the in-place loop, in terms of the removal rules of the specification. -/
theorem update_projectiles_body_eq_spec (dt : F) (g : Game F) (i : Nat)
    (h : i < g.projectiles.length) :
    update_projectiles_body dt g i h =
      if (spec_resolve g (advance (g.projectiles[i]) dt)).2 = true then
        ({ g with projectiles := g.projectiles.set i (advance (g.projectiles[i]) dt) }, i + 1)
      else
        ({ (spec_resolve g (advance (g.projectiles[i]) dt)).1 with
           projectiles := g.projectiles.eraseIdx i }, i) := by
  have hfind := find_enemy_at_eq_first g.enemies
    (toInt (advance (g.projectiles[i]) dt).base.x)
    (toInt (advance (g.projectiles[i]) dt).base.y) g.enemies.length 0 (by omega)
  simp only [List.drop_zero, Nat.add_zero, Option.map_id_fun, id_eq] at hfind
  unfold update_projectiles_body spec_resolve
  simp only [MAP_WIDTH, MAP_HEIGHT, ge_iff_le, eraseIdx_set_self]
  by_cases h1 : toInt (advance (g.projectiles[i]) dt).base.x < 0 ∨
      40 ≤ toInt (advance (g.projectiles[i]) dt).base.x ∨
      toInt (advance (g.projectiles[i]) dt).base.y < 0 ∨
      20 ≤ toInt (advance (g.projectiles[i]) dt).base.y
  · rw [if_pos h1, if_pos h1]
    simp
  rw [if_neg h1, if_neg h1]
  by_cases h2 : g.map (toInt (advance (g.projectiles[i]) dt).base.y)
      (toInt (advance (g.projectiles[i]) dt).base.x) = WALL_CHAR
  · rw [if_pos h2, if_pos h2]
    simp
  rw [if_neg h2, if_neg h2]
  by_cases h3 : (advance (g.projectiles[i]) dt).is_enemy = true
  · rw [if_pos h3, if_pos h3]
    by_cases h4 : toInt g.player.base.x = toInt (advance (g.projectiles[i]) dt).base.x ∧
        toInt g.player.base.y = toInt (advance (g.projectiles[i]) dt).base.y
    · rw [if_pos h4, if_pos h4]
      by_cases h5 : g.player.health - 10 ≤ 0
      · simp [h5]
      · simp [h5]
    · rw [if_neg h4, if_neg h4]
      simp
  · rw [if_neg h3, if_neg h3, hfind]
    cases first_enemy_on (toInt (advance (g.projectiles[i]) dt).base.x)
        (toInt (advance (g.projectiles[i]) dt).base.y) g.enemies with
    | none => simp
    | some j => simp

/-- The in-place loop started at index `i` is the fold over the slots from `i` on, started
with the slots before `i` as survivors. -/
theorem update_projectiles_loop_eq_fold (dt : F) :
    ∀ (fuel : Nat) (g : Game F) (i : Nat), g.projectiles.length - i ≤ fuel →
      i ≤ g.projectiles.length →
      update_projectiles_loop dt fuel g i =
        spec_finish ((g.projectiles.drop i).foldl (spec_step dt) (g, g.projectiles.take i)) := by
  have hend : ∀ (g : Game F) (i : Nat), g.projectiles.length ≤ i →
      g = spec_finish ((g.projectiles.drop i).foldl (spec_step dt) (g, g.projectiles.take i)) := by
    intro g i hi
    rw [List.drop_of_length_le hi, List.take_of_length_le hi]
    rfl
  intro fuel
  induction fuel with
  | zero =>
    intro g i hf _
    unfold update_projectiles_loop
    exact hend g i (by omega)
  | succ n ih =>
    intro g i hf hi
    unfold update_projectiles_loop
    by_cases h : i < g.projectiles.length
    · rw [dif_pos h]
      have hm := update_projectiles_body_measure dt g i h
      rw [List.drop_eq_getElem_cons h, List.foldl_cons]
      have hb := update_projectiles_body_eq_spec dt g i h
      by_cases hk : (spec_resolve g (advance (g.projectiles[i]) dt)).2 = true
      · rw [if_pos hk] at hb
        have hw := ((spec_resolve_facts g (advance (g.projectiles[i]) dt)).2.2.2 hk).1
        have hstep : spec_step dt (g, g.projectiles.take i) (g.projectiles[i]) =
            (g, g.projectiles.take i ++ [advance (g.projectiles[i]) dt]) := by
          unfold spec_step
          simp only [hk, if_true, hw]
        rw [hstep, hb]
        rw [ih _ _ (by rw [hb] at hm; exact Nat.le_of_lt_succ (by omega))
          (by simp only [List.length_set]; omega)]
        simp only [take_set_succ _ _ h, List.drop_set_of_lt _ _ (show i < i + 1 by omega)]
        exact spec_fold_projectiles dt _ g _ _
      · rw [if_neg hk] at hb
        have hstep : spec_step dt (g, g.projectiles.take i) (g.projectiles[i]) =
            ((spec_resolve g (advance (g.projectiles[i]) dt)).1, g.projectiles.take i) := by
          unfold spec_step
          simp only [hk, if_false]
          rfl
        rw [hstep, hb]
        rw [ih _ _ (by rw [hb] at hm; exact Nat.le_of_lt_succ (by omega))
          (by simp only [List.length_eraseIdx, h, if_true]; omega)]
        simp only [take_eraseIdx_self, drop_eraseIdx_self]
        exact spec_fold_projectiles dt _ _ _ _
    · rw [dif_neg h]
      exact hend g i (by omega)

/-- The function `update_projectiles` is the fold of the specification. -/
theorem update_projectiles_eq_spec (g : Game F) (dt : F) :
    update_projectiles g dt = spec_update_projectiles g dt := by
  unfold update_projectiles spec_update_projectiles
  rw [update_projectiles_loop_eq_fold dt _ g 0 (by omega) (Nat.zero_le _)]
  simp only [List.drop_zero, List.take_zero]

/-- What the fold keeps: the map, the enemies in their order, and behind the survivors it
started with, in their order, advanced originals that lie on a cell of the grid that is not
a wall. -/
theorem spec_fold_facts (dt : F) (rest : List (Projectile F)) :
    ∀ (w : Game F) (k : List (Projectile F)),
      (rest.foldl (spec_step dt) (w, k)).1.map = w.map ∧
      (rest.foldl (spec_step dt) (w, k)).1.enemies.Sublist w.enemies ∧
      ∃ k1 : List (Projectile F), (rest.foldl (spec_step dt) (w, k)).2 = k ++ k1 ∧
        k1.Sublist ((rest.map (fun p => advance p dt)).filter
          (fun q => decide (off_wall w.map q.base))) := by
  induction rest with
  | nil =>
    intro w k
    exact ⟨rfl, List.Sublist.refl _, [], by simp, by simp⟩
  | cons p t ih =>
    intro w k
    simp only [List.foldl_cons, List.map_cons]
    obtain ⟨f1, _, f3, f4⟩ := spec_resolve_facts w (advance p dt)
    obtain ⟨i1, i2, k1, i3, i4⟩ := ih (spec_step dt (w, k) p).1 (spec_step dt (w, k) p).2
    have hmap : (spec_step dt (w, k) p).1.map = w.map := f1
    have hen : (spec_step dt (w, k) p).1.enemies.Sublist w.enemies := f3
    rw [hmap] at i1 i4
    refine ⟨i1, i2.trans hen, ?_⟩
    by_cases hk : (spec_resolve w (advance p dt)).2 = true
    · have hs : (spec_step dt (w, k) p).2 = k ++ [advance p dt] := by
        unfold spec_step; simp only [hk, if_true]
      have how : decide (off_wall w.map (advance p dt).base) = true :=
        decide_eq_true (f4 hk).2
      refine ⟨advance p dt :: k1, by rw [i3, hs]; simp, ?_⟩
      rw [List.filter_cons, if_pos how]
      exact List.Sublist.cons₂ _ i4
    · have hs : (spec_step dt (w, k) p).2 = k := by
        unfold spec_step; simp only [hk, if_false]; rfl
      refine ⟨k1, by rw [i3, hs], ?_⟩
      rw [List.filter_cons]
      split
      · exact List.Sublist.cons _ i4
      · exact i4

/-- After `update_projectiles` the survivors are, in their original order, advanced
originals whose new truncated position is a cell of the grid that is not a wall, and the
enemies left are in their original order. -/
theorem update_projectiles_sublist (g : Game F) (dt : F) :
    (update_projectiles g dt).projectiles.Sublist
      ((g.projectiles.map (fun p => advance p dt)).filter
        (fun q => decide (off_wall g.map q.base))) ∧
    (update_projectiles g dt).enemies.Sublist g.enemies := by
  rw [update_projectiles_eq_spec]
  unfold spec_update_projectiles spec_finish
  obtain ⟨_, h2, k1, h3, h4⟩ := spec_fold_facts dt g.projectiles g []
  simp only [List.nil_append] at h3
  exact ⟨by rw [h3]; exact h4, h2⟩

/-! ## Counting the walls of the interior -/

theorem interior_card : interior.card = 684 := by
  simp [interior, Finset.card_product]

theorem mem_interior (y x : Int) :
    (y, x) ∈ interior ↔ (1 ≤ y ∧ y ≤ 18) ∧ 1 ≤ x ∧ x ≤ 38 := by
  simp [interior, Finset.mem_product, Finset.mem_Icc]

/-- The grid before the random walls: wall on the border and floor inside; the map made by
`generate_map` is that grid after 26 passes of the loop that scatters walls. -/
theorem generate_map_walls (g : Game F) (rng : Rng) :
    ∃ m3 : Int → Int → Char,
      (∀ y x : Int, 0 ≤ y → y < 20 → 0 ≤ x → x < 40 →
        m3 y x = if y = 0 ∨ y = 19 ∨ x = 0 ∨ x = 39 then WALL_CHAR else FLOOR_CHAR) ∧
      (generate_map g rng).1.map
        = ((List.range 26).foldl (fun st _ => random_wall st) (m3, rng)).1 := by
  refine ⟨_, ?_, rfl⟩
  intro y x hy0 hy1 hx0 hx1
  rw [border_cols_spec, border_rows_spec, fill_rows_spec]
  simp only [MAP_WIDTH, MAP_HEIGHT]
  have e1 : Int.toNat 20 = 20 := by decide
  have e2 : Int.toNat 40 = 40 := by decide
  simp only [e1, e2]
  push_cast
  split_ifs <;> first | rfl | (exfalso; omega)

/-- One pass of the loop that scatters walls writes a wall into one interior cell. -/
theorem random_wall_cell (st : (Int → Int → Char) × Rng) :
    ∃ y x : Int, (y, x) ∈ interior ∧ (random_wall st).1 = set_cell st.1 y x WALL_CHAR := by
  unfold random_wall
  refine ⟨_, _, ?_, rfl⟩
  rw [mem_interior]
  simp only [rand, MAP_WIDTH, MAP_HEIGHT]
  omega

/-- One pass adds at most one wall to the interior. -/
theorem random_wall_count (st : (Int → Int → Char) × Rng) :
    interior_count (random_wall st).1 WALL_CHAR ≤ interior_count st.1 WALL_CHAR + 1 := by
  obtain ⟨y, x, _, he⟩ := random_wall_cell st
  unfold interior_count
  rw [he]
  have hsub : interior.filter (fun cell => set_cell st.1 y x WALL_CHAR cell.1 cell.2 = WALL_CHAR)
      ⊆ insert (y, x) (interior.filter (fun cell => st.1 cell.1 cell.2 = WALL_CHAR)) := by
    intro cell hc
    rw [Finset.mem_filter] at hc
    rw [Finset.mem_insert, Finset.mem_filter]
    by_cases h : cell = (y, x)
    · exact Or.inl h
    · right
      refine ⟨hc.1, ?_⟩
      have h2 := hc.2
      unfold set_cell at h2
      rw [if_neg] at h2
      · exact h2
      · intro hh
        exact h (Prod.ext hh.1 hh.2)
  exact le_trans (Finset.card_le_card hsub) (Finset.card_insert_le _ _)

/-- After `n` passes the interior has at most `n` walls more than before. -/
theorem random_walls_count :
    ∀ (n : Nat) (st : (Int → Int → Char) × Rng),
      interior_count ((List.range n).foldl (fun st1 _ => random_wall st1) st).1 WALL_CHAR
        ≤ interior_count st.1 WALL_CHAR + n := by
  intro n
  induction n with
  | zero => intro st; exact le_refl _
  | succ k ih =>
    intro st
    rw [List.range_succ, List.foldl_append]
    simp only [List.foldl_cons, List.foldl_nil]
    have h1 := random_wall_count ((List.range k).foldl (fun st1 _ => random_wall st1) st)
    have h2 := ih st
    omega

/-- After at least one pass the interior has a wall. -/
theorem random_walls_pos (n : Nat) (st : (Int → Int → Char) × Rng) :
    1 ≤ interior_count ((List.range (n + 1)).foldl (fun st1 _ => random_wall st1) st).1
      WALL_CHAR := by
  rw [List.range_succ, List.foldl_append]
  simp only [List.foldl_cons, List.foldl_nil]
  obtain ⟨y, x, hm, he⟩ :=
    random_wall_cell ((List.range n).foldl (fun st1 _ => random_wall st1) st)
  unfold interior_count
  rw [he]
  apply Finset.card_pos.mpr
  refine ⟨(y, x), ?_⟩
  rw [Finset.mem_filter]
  exact ⟨hm, by simp [set_cell]⟩

/-! ## Range of health and ammo in play -/

/-- The function `update_projectiles` keeps `ammo + 2 * num_enemies` (two rounds per enemy
removed) and never lowers ammo. -/
theorem update_projectiles_supply (g : Game F) (dt : F) :
    (update_projectiles g dt).player.ammo + 2 * ((update_projectiles g dt).num_enemies : Int)
      = g.player.ammo + 2 * (g.num_enemies : Int) ∧
    g.player.ammo ≤ (update_projectiles g dt).player.ammo := by
  unfold Game.num_enemies
  refine update_projectiles_loop_rule dt
    (fun g1 _ => g1.player.ammo + 2 * (g1.enemies.length : Int)
        = g.player.ammo + 2 * (g.enemies.length : Int) ∧ g.player.ammo ≤ g1.player.ammo)
    (fun g1 => g1.player.ammo + 2 * (g1.enemies.length : Int)
        = g.player.ammo + 2 * (g.enemies.length : Int) ∧ g.player.ammo ≤ g1.player.ammo)
    ?_ (fun _ _ h _ => h) g.projectiles.length g 0 (by omega) ⟨rfl, le_refl _⟩
  intro g1 i h ⟨h1, h2⟩
  rcases update_projectiles_body_cases dt g1 i h with
    ⟨_, e⟩ | ⟨_, _, _, e⟩ | ⟨_, j, hj, e⟩ | ⟨_, _, _, e⟩
  · rw [e]; exact ⟨h1, h2⟩
  · rw [e]; exact ⟨h1, h2⟩
  · rw [e]
    obtain ⟨_, hk, _⟩ := find_enemy_at_some _ _ _ _ _ _ hj
    have hl : ((g1.enemies.eraseIdx j).length : Int) = (g1.enemies.length : Int) - 1 := by
      rw [List.length_eraseIdx, if_pos hk]
      omega
    constructor
    · show g1.player.ammo + 2 + 2 * ((g1.enemies.eraseIdx j).length : Int) = _
      rw [hl]; omega
    · show g.player.ammo ≤ g1.player.ammo + 2
      omega
  · rw [e]; exact ⟨h1, h2⟩

/-- From a state that is over or has health `> 0`, `update_projectiles` ends in a state that
is over or has health `> 0`. -/
theorem update_projectiles_playing (g : Game F) (dt : F)
    (hg : g.game_over = false → 0 < g.player.health) :
    (update_projectiles g dt).game_over = false → 0 < (update_projectiles g dt).player.health := by
  refine update_projectiles_loop_rule dt
    (fun g1 _ => g1.game_over = false → 0 < g1.player.health)
    (fun g1 => g1.game_over = false → 0 < g1.player.health)
    ?_ (fun _ _ h _ => h) g.projectiles.length g 0 (by omega) hg
  intro g1 i h h1
  rcases update_projectiles_body_cases dt g1 i h with
    ⟨_, e⟩ | ⟨_, _, _, e⟩ | ⟨_, j, _, e⟩ | ⟨_, _, _, e⟩
  · rw [e]; exact h1
  · rw [e]
    intro hf
    show 0 < g1.player.health - 10
    by_cases hle : g1.player.health - 10 ≤ 0
    · simp only [if_pos hle] at hf
      exact absurd hf (by decide)
    · omega
  · rw [e]; exact h1
  · rw [e]; exact h1

/-- The function `update_projectiles` changes health by multiples of 10. -/
theorem update_projectiles_health_mod (g : Game F) (dt : F) :
    (update_projectiles g dt).player.health % 10 = g.player.health % 10 := by
  refine update_projectiles_loop_rule dt
    (fun g1 _ => g1.player.health % 10 = g.player.health % 10)
    (fun g1 => g1.player.health % 10 = g.player.health % 10)
    ?_ (fun _ _ h _ => h) g.projectiles.length g 0 (by omega) rfl
  intro g1 i h h1
  rcases update_projectiles_body_cases dt g1 i h with
    ⟨_, e⟩ | ⟨_, _, _, e⟩ | ⟨_, j, _, e⟩ | ⟨_, _, _, e⟩
  · rw [e]; exact h1
  · rw [e]
    show (g1.player.health - 10) % 10 = g.player.health % 10
    omega
  · rw [e]; exact h1
  · rw [e]; exact h1

theorem handle_input_play_range (g : Game F) (key : Key) (h : play_range g) :
    play_range (handle_input g key) := by
  obtain ⟨hb, hs, hh, hp, hm⟩ := h
  rcases handle_input_cases g key with ⟨dx, dy, e⟩ | ⟨x, y, dx, dy, e⟩ | e | e
  · rw [e]; exact ⟨hb, hs, hh, hp, hm⟩
  · rw [e]
    obtain ⟨_, f2, _, f4, f5, f6, _⟩ := shoot_frame g x y dx dy false
    refine ⟨shoot_bounds g x y dx dy false hb, ?_, by rw [f4]; exact hh,
      by rw [f4, f5]; exact hp, by rw [f4]; exact hm⟩
    unfold Game.num_enemies at hs ⊢
    rw [f2]
    rcases f6 with f6 | ⟨_, f6⟩
    · rw [f6]; exact hs
    · rw [f6]; omega
  · rw [e]
    refine ⟨hb, hs, hh, fun hf => ?_, hm⟩
    have ht : (true : Bool) = false := hf
    exact absurd ht (by decide)
  · rw [e]; exact ⟨hb, hs, hh, hp, hm⟩

theorem update_projectiles_play_range (g : Game F) (dt : F) (h : play_range g) :
    play_range (update_projectiles g dt) := by
  obtain ⟨hb, hs, hh, hp, hm⟩ := h
  obtain ⟨s1, _⟩ := update_projectiles_supply g dt
  exact ⟨update_projectiles_bounds g dt hb, by rw [s1]; exact hs,
    le_trans (update_projectiles_health g dt).1 hh, update_projectiles_playing g dt hp,
    by rw [update_projectiles_health_mod]; exact hm⟩

theorem update_enemies_play_range (g : Game F) (dt now : F) (rng : Rng) (h : play_range g) :
    play_range (update_enemies g dt now rng).1 := by
  obtain ⟨hb, hs, hh, hp, hm⟩ := h
  obtain ⟨p1, _, p3⟩ := update_enemies_player g dt now rng
  have hl := (update_enemies_timers g dt now rng).1
  refine ⟨update_enemies_bounds g dt now rng hb, ?_, by rw [p1]; exact hh,
    by rw [p1, p3]; exact hp, by rw [p1]; exact hm⟩
  unfold Game.num_enemies at hs ⊢
  rw [p1, hl]
  exact hs

theorem frame_play_range (g : Game F) (inp : FrameInput F) (h : play_range g) :
    play_range (frame g inp) := by
  unfold frame
  exact update_enemies_play_range _ _ _ _
    (update_projectiles_play_range _ _
      (handle_input_play_range { g with last_update := inp.current_time } _ h))

theorem run_frames_play_range (inputs : List (FrameInput F)) :
    ∀ g : Game F, play_range g → play_range (run_frames g inputs) := by
  induction inputs with
  | nil => intro g h; exact h
  | cons inp rest ih => intro g h; exact ih _ (frame_play_range g inp h)

theorem init_game_play_range (fuel : Nat) (now : F) (times : Nat → F) (g0 : Game F)
    (rng : Rng) (st : Game F × Rng) (h : init_game fuel now times g0 rng = some st) :
    play_range st.1 := by
  obtain ⟨⟨x, y, _, _, _, _, _, hp⟩, he, _, _, hgo⟩ := init_game_spec fuel now times g0 rng st h
  refine ⟨init_game_bounds fuel now times g0 rng st h, ?_, ?_, ?_, ?_⟩
  · unfold Game.num_enemies
    rw [hp, he]
    show (10 : Int) + 2 * ((10 : Nat) : Int) ≤ 30
    decide
  · rw [hp]
  · intro _
    rw [hp]
    show (0 : Int) < 100
    decide
  · rw [hp]
    show (100 : Int) % 10 = 0
    decide

/-- Every state of `play_range` has its ammo in the range of `int`, also after the two
rounds of a kill, and while the session is not over its health, also after a hit. -/
theorem play_range_in_int (g : Game F) (h : play_range g) :
    in_int g.player.ammo ∧
    (0 < g.num_enemies → in_int (g.player.ammo + 2)) ∧
    (g.game_over = false → in_int g.player.health ∧ in_int (g.player.health - 10)) := by
  obtain ⟨hb, hs, hh, hp, _⟩ := h
  rw [bounds_iff] at hb
  unfold in_int INT_MIN INT_MAX
  unfold Game.num_enemies at hs ⊢
  refine ⟨by omega, fun _ => by omega, fun hf => ?_⟩
  have := hp hf
  omega

/-- A pass of the loop of `run_game` made from a state of `play_range` that is not over
leaves health at -990 or above: at least 10 before, and at most 100 hits of 10. -/
theorem frame_health_floor (g : Game F) (inp : FrameInput F) (h : play_range g)
    (hplay : g.game_over = false) : -990 ≤ (frame g inp).player.health := by
  obtain ⟨hb, _, _, hp, hm⟩ := h
  rw [bounds_iff] at hb
  have h1 := (frame_health g inp).2
  have h2 : enemy_shots g.projectiles ≤ g.projectiles.length := by
    unfold enemy_shots
    exact List.countP_le_length _
  have h3 := hp hplay
  omega

/-! ## Movement (C1) -/

/-- C1: `move_entity` computes the target cell `(nx, ny)` as the `(int)` casts of `x + dx`
and `y + dy`; when that cell is inside the 40 x 20 grid and holds `FLOOR_CHAR` the entity
afterwards is at exactly `(nx, ny)` (glyph kept), and in every other case the entity is
exactly what it was before the call. -/
theorem move_entity_spec (game : Game F) (entity : Entity F) (dx dy : F) :
    ((0 ≤ toInt (entity.x + dx) ∧ toInt (entity.x + dx) < 40 ∧
        0 ≤ toInt (entity.y + dy) ∧ toInt (entity.y + dy) < 20 ∧
        game.map (toInt (entity.y + dy)) (toInt (entity.x + dx)) = FLOOR_CHAR) →
      move_entity game entity dx dy =
        { x := ofInt (toInt (entity.x + dx)), y := ofInt (toInt (entity.y + dy)),
          character := entity.character }) ∧
    (¬ (0 ≤ toInt (entity.x + dx) ∧ toInt (entity.x + dx) < 40 ∧
        0 ≤ toInt (entity.y + dy) ∧ toInt (entity.y + dy) < 20 ∧
        game.map (toInt (entity.y + dy)) (toInt (entity.x + dx)) = FLOOR_CHAR) →
      move_entity game entity dx dy = entity) := by
  constructor
  · rintro ⟨h1, h2, h3, h4, h5⟩
    simp [move_entity, MAP_WIDTH, MAP_HEIGHT, h1, h2, h3, h4, h5]
  · intro hn
    unfold move_entity
    simp only [MAP_WIDTH, MAP_HEIGHT, ge_iff_le]
    split_ifs with ha hb
    · exact absurd ⟨ha.1, ha.2.1, ha.2.2.1, ha.2.2.2, hb⟩ hn
    · rfl
    · rfl

/-- Witness for C1 on `arena_map`: from `(5, 5)` a step right lands on the floor cell
`(6, 5)`; from `(6, 5)` a step right into the wall at `(7, 5)` is rejected. -/
theorem move_entity_spec_witness :
    move_entity (sample_game 100 10 [] []) (entity_at 5 5 PLAYER_CHAR) ⟨1, 1⟩ ⟨0, 1⟩
        = entity_at 6 5 PLAYER_CHAR ∧
    move_entity (sample_game 100 10 [] []) (entity_at 6 5 PLAYER_CHAR) ⟨1, 1⟩ ⟨0, 1⟩
        = entity_at 6 5 PLAYER_CHAR :=
  ⟨(move_entity_spec (sample_game 100 10 [] []) (entity_at 5 5 PLAYER_CHAR) ⟨1, 1⟩ ⟨0, 1⟩).1
      (by decide),
   (move_entity_spec (sample_game 100 10 [] []) (entity_at 6 5 PLAYER_CHAR) ⟨1, 1⟩ ⟨0, 1⟩).2
      (by decide)⟩

/-! ## Shooting (C2, C3) -/

/-- C2: a player shot (`is_enemy = false`) with `ammo = 0` leaves the whole state, hence the
projectile collection and the ammo, unchanged; with `ammo > 0` and fewer than 100 live
projectiles it lowers ammo by exactly 1 and appends exactly one projectile, with the given
origin and direction, speed 2 and `is_enemy = false`, behind the unchanged live ones. -/
theorem shoot_player_spec (game : Game F) (x y dx dy : F) :
    (game.player.ammo = 0 → shoot game x y dx dy false = game) ∧
    (0 < game.player.ammo → game.projectile_count < 100 →
      (shoot game x y dx dy false).player.ammo = game.player.ammo - 1 ∧
      (shoot game x y dx dy false).projectile_count = game.projectile_count + 1 ∧
      (shoot game x y dx dy false).projectiles = game.projectiles ++
        [{ base := { x := x, y := y, character := ARROW_CHAR },
           dx := dx, dy := dy, speed := ofInt 2, is_enemy := false }]) := by
  constructor
  · intro h0
    simp [shoot, h0]
  · intro hpos hcap
    have h1 : ¬ game.player.ammo ≤ 0 := not_le.mpr hpos
    have h2 : ¬ 100 ≤ game.projectiles.length := not_le.mpr hcap
    simp [shoot, h1, h2, MAX_PROJECTILES, Game.projectile_count]

/-- Witness for C2: with no ammo nothing happens; with 10 rounds and no live projectile the
shot leaves 9 rounds and one projectile. -/
theorem shoot_player_spec_witness :
    shoot (sample_game 100 0 [] []) ⟨5, 1⟩ ⟨5, 1⟩ ⟨1, 1⟩ ⟨0, 1⟩ false
        = sample_game 100 0 [] [] ∧
    (shoot (sample_game 100 10 [] []) ⟨5, 1⟩ ⟨5, 1⟩ ⟨1, 1⟩ ⟨0, 1⟩ false).player.ammo = 9 ∧
    (shoot (sample_game 100 10 [] []) ⟨5, 1⟩ ⟨5, 1⟩ ⟨1, 1⟩ ⟨0, 1⟩ false).projectiles
        = [projectile_at 5 5 1 0 false] :=
  ⟨(shoot_player_spec (sample_game 100 0 [] []) ⟨5, 1⟩ ⟨5, 1⟩ ⟨1, 1⟩ ⟨0, 1⟩).1 rfl,
   ((shoot_player_spec (sample_game 100 10 [] []) ⟨5, 1⟩ ⟨5, 1⟩ ⟨1, 1⟩ ⟨0, 1⟩).2
      (by decide) (by decide)).1,
   ((shoot_player_spec (sample_game 100 10 [] []) ⟨5, 1⟩ ⟨5, 1⟩ ⟨1, 1⟩ ⟨0, 1⟩).2
      (by decide) (by decide)).2.2⟩

/-- C3 (the code at the failing input): with the projectile array full (100 live
projectiles) and 5 rounds, a player shot creates no projectile and still takes one round:
`ammo--` runs before the capacity test of `shoot`. -/
theorem shoot_at_cap_takes_ammo :
    (shoot (sample_game 100 5 [] (List.replicate 100 (projectile_at 20 10 1 0 true)))
        ⟨5, 1⟩ ⟨5, 1⟩ ⟨1, 1⟩ ⟨0, 1⟩ false).projectiles
      = List.replicate 100 (projectile_at 20 10 1 0 true) ∧
    (shoot (sample_game 100 5 [] (List.replicate 100 (projectile_at 20 10 1 0 true)))
        ⟨5, 1⟩ ⟨5, 1⟩ ⟨1, 1⟩ ⟨0, 1⟩ false).player.ammo = 4 := by
  constructor <;> simp [shoot, sample_game, MAX_PROJECTILES]

/-! ## Projectiles (C4, C5, C6) -/

/-- C4: after `update_projectiles` (any map, any projectiles, any `delta_time`) the map is
the same and every projectile still in the collection has a truncated position inside the
grid (`0 <= x < 40`, `0 <= y < 20`) on a cell that is not a wall. -/
theorem update_projectiles_survivors_off_wall (g : Game F) (dt : F) :
    (update_projectiles g dt).map = g.map ∧
    ∀ p ∈ (update_projectiles g dt).projectiles, off_wall g.map p.base := by
  refine update_projectiles_loop_rule dt
    (fun g1 i => g1.map = g.map ∧
      ∀ (k : Nat) (hk : k < g1.projectiles.length), k < i → off_wall g.map (g1.projectiles[k]).base)
    (fun g1 => g1.map = g.map ∧ ∀ p ∈ g1.projectiles, off_wall g.map p.base)
    ?_ ?_ g.projectiles.length g 0 (by omega) ⟨rfl, fun k _ hk => absurd hk (Nat.not_lt_zero k)⟩
  · intro g1 i h ⟨hmap, hgood⟩
    have hrem : ∀ (k : Nat) (hk : k < (g1.projectiles.eraseIdx i).length), k < i →
        off_wall g.map ((g1.projectiles.eraseIdx i)[k]).base := by
      intro k hk hki
      rw [List.getElem_eraseIdx_of_lt _ _ _ _ hki]
      exact hgood k _ hki
    rcases update_projectiles_body_cases dt g1 i h with
      ⟨_, e⟩ | ⟨_, _, _, e⟩ | ⟨_, j, _, e⟩ | ⟨hin, _, _, e⟩
    · rw [e]; exact ⟨hmap, hrem⟩
    · rw [e]; exact ⟨hmap, hrem⟩
    · rw [e]; exact ⟨hmap, hrem⟩
    · rw [e]
      refine ⟨hmap, ?_⟩
      intro k hk hki
      by_cases hk2 : k = i
      · subst hk2
        simp only [List.getElem_set_self]
        rw [← hmap]
        exact hin
      · have hk3 : k < g1.projectiles.length := by simpa using hk
        have : ((g1.projectiles.set i (advance (g1.projectiles[i]) dt))[k]) = g1.projectiles[k] :=
          List.getElem_set_ne (Ne.symm hk2) _
        simp only [this]
        exact hgood k hk3 (by omega)
  · intro g1 i ⟨hmap, hgood⟩ hlen
    refine ⟨hmap, ?_⟩
    intro p hp
    obtain ⟨k, hk, rfl⟩ := List.mem_iff_getElem.mp hp
    exact hgood k hk (by omega)

/-- Witness for C4 (`delta_time = 1`): of a player projectile flying from `(5, 5)` into the
wall at `(7, 5)`, an enemy projectile flying along row 10 and a player projectile leaving
the grid on the left, only the second is left, on the floor cell `(22, 10)`. -/
theorem update_projectiles_survivors_off_wall_witness :
    projectile_at 22 10 1 0 true ∈
      (update_projectiles (sample_game 100 10 []
        [projectile_at 5 5 1 0 false, projectile_at 20 10 1 0 true,
         projectile_at 0 3 (-1) 0 false]) ⟨1, 1⟩).projectiles ∧
    off_wall arena_map (projectile_at 22 10 1 0 true).base :=
  ⟨by decide,
   (update_projectiles_survivors_off_wall (sample_game 100 10 []
        [projectile_at 5 5 1 0 false, projectile_at 20 10 1 0 true,
         projectile_at 0 3 (-1) 0 false]) ⟨1, 1⟩).2 _ (by decide)⟩

/-- With a single live projectile `update_projectiles` is one pass of its loop. -/
theorem update_projectiles_single (g : Game F) (dt : F) (h : 0 < g.projectiles.length)
    (h1 : g.projectiles.length = 1) :
    update_projectiles g dt = (update_projectiles_body dt g 0 h).1 := by
  unfold update_projectiles
  rw [h1]
  unfold update_projectiles_loop
  simp only [h, dite_true]
  unfold update_projectiles_loop
  rfl

/-- C5 (kill reward): when the only live projectile `p` is player-owned and, once advanced,
lies on a grid cell that is not a wall and on which at least one live enemy stands,
`update_projectiles` removes exactly one enemy, the one of lowest index `j` on that cell
(the others keep their order), removes the projectile, and adds exactly 2 to ammo;
`num_enemies` goes down by exactly 1. The state is one in which `ammo + 2` does not leave
the range of `int` (signed overflow is undefined in C); every state of a session is
(`play_range_in_int`). -/
theorem update_projectiles_kill_reward (g : Game F) (dt : F) (p : Projectile F)
    (hp : g.projectiles = [p]) (hown : p.is_enemy = false)
    (hcell : off_wall g.map (advance p dt).base)
    (hen : ∃ e ∈ g.enemies, toInt e.base.x = toInt (advance p dt).base.x ∧
      toInt e.base.y = toInt (advance p dt).base.y)
    (hrange : in_int g.player.ammo ∧ in_int (g.player.ammo + 2)) :
    ∃ (j : Nat) (hj : j < g.enemies.length),
      (toInt (g.enemies[j]).base.x = toInt (advance p dt).base.x ∧
        toInt (g.enemies[j]).base.y = toInt (advance p dt).base.y) ∧
      (∀ (m : Nat) (hm : m < g.enemies.length), m < j →
        ¬ (toInt (g.enemies[m]).base.x = toInt (advance p dt).base.x ∧
          toInt (g.enemies[m]).base.y = toInt (advance p dt).base.y)) ∧
      (update_projectiles g dt).enemies = g.enemies.eraseIdx j ∧
      (update_projectiles g dt).num_enemies + 1 = g.num_enemies ∧
      (update_projectiles g dt).projectiles = [] ∧
      (update_projectiles g dt).player.ammo = g.player.ammo + 2 ∧
      in_int (update_projectiles g dt).player.ammo := by
  have h0 : 0 < g.projectiles.length := by simp [hp]
  have hp0 : g.projectiles[0] = p := by simp [hp]
  rw [update_projectiles_single g dt h0 (by simp [hp])]
  obtain ⟨c1, c2, c3, c4, c5⟩ := hcell
  rcases update_projectiles_body_cases dt g 0 h0 with
    ⟨hout, _⟩ | ⟨hE, _⟩ | ⟨_, j, hfind, e⟩ | ⟨_, _, hnone, _⟩
  · rw [hp0] at hout
    rcases hout with hc | hc | hc | hc | hc
    · omega
    · omega
    · omega
    · omega
    · exact absurd hc c5
  · rw [hp0, hown] at hE
    exact absurd hE (by simp)
  · rw [hp0] at hfind
    obtain ⟨_, hj, hon, hmin⟩ := find_enemy_at_some g.enemies _ _ _ _ _ hfind
    refine ⟨j, hj, hon, fun m hm hmj => hmin m hm (Nat.zero_le m) hmj, ?_⟩
    rw [e]
    refine ⟨rfl, ?_, ?_, rfl, hrange.2⟩
    · simp only [Game.num_enemies, List.length_eraseIdx, hj, if_true]
      omega
    · simp [hp]
  · rw [hp0] at hnone
    obtain ⟨e, he, hex, hey⟩ := hen
    obtain ⟨m, hm, rfl⟩ := List.mem_iff_getElem.mp he
    exact absurd ⟨hex, hey⟩
      (find_enemy_at_none g.enemies _ _ g.enemies.length 0 (by omega) (hnone hown) m hm
        (Nat.zero_le m))

/-- Witness for C5 (`delta_time = 1`): enemies at `(3, 3)`, `(10, 5)`, `(10, 5)` and a player
projectile fired from `(8, 5)` to the right, which lands on the floor cell `(10, 5)`; the
projectile is gone and ammo goes from 9 to 11. -/
theorem update_projectiles_kill_reward_witness :
    off_wall arena_map (advance (projectile_at 8 5 1 0 false) ⟨1, 1⟩).base ∧
    in_int 9 ∧ in_int (9 + 2) ∧
    (update_projectiles (sample_game 100 9 [enemy_at 3 3, enemy_at 10 5, enemy_at 10 5]
        [projectile_at 8 5 1 0 false]) ⟨1, 1⟩).projectiles = [] ∧
    (update_projectiles (sample_game 100 9 [enemy_at 3 3, enemy_at 10 5, enemy_at 10 5]
        [projectile_at 8 5 1 0 false]) ⟨1, 1⟩).player.ammo = 9 + 2 := by
  obtain ⟨_, _, _, _, _, _, hpr, ha, _⟩ :=
    update_projectiles_kill_reward
      (sample_game 100 9 [enemy_at 3 3, enemy_at 10 5, enemy_at 10 5]
        [projectile_at 8 5 1 0 false]) ⟨1, 1⟩ (projectile_at 8 5 1 0 false) rfl rfl
      (by decide) ⟨enemy_at 10 5, by decide, by decide⟩ ⟨by decide, by decide⟩
  exact ⟨by decide, by decide, by decide, hpr, ha⟩

/-- C6 (damage): when the only live projectile `p` is enemy-owned and, once advanced, lies
on a grid cell that is not a wall and is the player's truncated cell, `update_projectiles`
lowers the player's health by exactly 10 and removes the projectile; it sets `game_over`
when the resulting health is `<= 0` and leaves `game_over` as it was otherwise. The state
is one in which `health - 10` does not leave the range of `int` (signed overflow is
undefined in C); every state of a session that is not over is (`play_range_in_int`). -/
theorem update_projectiles_damage (g : Game F) (dt : F) (p : Projectile F)
    (hp : g.projectiles = [p]) (hown : p.is_enemy = true)
    (hcell : off_wall g.map (advance p dt).base)
    (hpl : toInt g.player.base.x = toInt (advance p dt).base.x ∧
      toInt g.player.base.y = toInt (advance p dt).base.y)
    (hrange : in_int g.player.health ∧ in_int (g.player.health - 10)) :
    (update_projectiles g dt).player.health = g.player.health - 10 ∧
    in_int (update_projectiles g dt).player.health ∧
    (update_projectiles g dt).projectiles = [] ∧
    ((update_projectiles g dt).player.health ≤ 0 →
      (update_projectiles g dt).game_over = true) ∧
    (0 < (update_projectiles g dt).player.health →
      (update_projectiles g dt).game_over = g.game_over) := by
  have h0 : 0 < g.projectiles.length := by simp [hp]
  have hp0 : g.projectiles[0] = p := by simp [hp]
  rw [update_projectiles_single g dt h0 (by simp [hp])]
  obtain ⟨c1, c2, c3, c4, c5⟩ := hcell
  rcases update_projectiles_body_cases dt g 0 h0 with
    ⟨hout, _⟩ | ⟨_, _, _, e⟩ | ⟨hE, _⟩ | ⟨_, hmiss, _, _⟩
  · rw [hp0] at hout
    rcases hout with hc | hc | hc | hc | hc
    · omega
    · omega
    · omega
    · omega
    · exact absurd hc c5
  · rw [e]
    refine ⟨rfl, hrange.2, by simp [hp], ?_, ?_⟩
    · intro hle
      simp only at hle
      simp only [if_pos hle]
    · intro hgt
      simp only at hgt
      simp only [if_neg (not_le.mpr hgt)]
  · rw [hp0, hown] at hE
    exact absurd hE (by simp)
  · rw [hp0] at hmiss
    exact absurd hpl (hmiss hown)

/-- Witness for C6 (`delta_time = 1`): an enemy projectile fired from `(3, 5)` to the right
reaches the player's cell `(5, 5)`; health 10 becomes 0 and the session is over. -/
theorem update_projectiles_damage_witness :
    in_int 10 ∧ in_int (10 - 10) ∧
    (update_projectiles (sample_game 10 10 [] [projectile_at 3 5 1 0 true]) ⟨1, 1⟩).player.health
      = 10 - 10 ∧
    (update_projectiles (sample_game 10 10 [] [projectile_at 3 5 1 0 true]) ⟨1, 1⟩).game_over
      = true :=
  ⟨by decide, by decide,
   (update_projectiles_damage (sample_game 10 10 [] [projectile_at 3 5 1 0 true]) ⟨1, 1⟩
      (projectile_at 3 5 1 0 true) rfl rfl (by decide) (by decide)
      ⟨by decide, by decide⟩).1,
   (update_projectiles_damage (sample_game 10 10 [] [projectile_at 3 5 1 0 true]) ⟨1, 1⟩
      (projectile_at 3 5 1 0 true) rfl rfl (by decide) (by decide)
      ⟨by decide, by decide⟩).2.2.2.1 (by decide)⟩

/-! ## Health (C7) -/

/-- C7 (counterexample): with health 10 and two enemy-owned projectiles that both reach the
player's cell `(5, 5)` in the same call (`delta_time = 1`), `update_projectiles` leaves
health at -10: the state had health `> 0` and the result is negative. -/
theorem update_projectiles_health_negative :
    0 < (sample_game 10 10 []
      [projectile_at 3 5 1 0 true, projectile_at 5 3 0 1 true]).player.health ∧
    (update_projectiles (sample_game 10 10 []
      [projectile_at 3 5 1 0 true, projectile_at 5 3 0 1 true]) ⟨1, 1⟩).player.health = -10 := by
  decide

/-- C7 (amended): health is not clamped at 0, it is kept above 0 only while the session is
not over. In every state reached from a fresh session by frames, health is at most 100, and
above 0 unless `game_over` is set; a frame made from such a state that is not over leaves
health at -990 or above, so health stays in the range of `int`. For every state with health
`> 0` (in the range of `int`) and at most 100 live projectiles, `k` of them enemy-owned:
`health - 10 k <= health after update_projectiles <= health`, the lower bound is in the
range of `int`, the result is above 0 unless `game_over` is set, and it is `>= 0` when
`10 k <= health`; the same two bounds hold across a whole frame. `move_entity` on the
player, `shoot` and `update_enemies` leave health unchanged. -/
theorem health_bounds (g : Game F) (dt : F) :
    (∀ (fuel : Nat) (now : F) (times : Nat → F) (rng : Rng) (st : Game F × Rng)
      (inputs : List (FrameInput F)), init_game fuel now times g rng = some st →
      (run_frames st.1 inputs).player.health ≤ 100 ∧
      ((run_frames st.1 inputs).game_over = false →
        0 < (run_frames st.1 inputs).player.health ∧
        ∀ inp : FrameInput F, -990 ≤ (frame (run_frames st.1 inputs) inp).player.health)) ∧
    (0 < g.player.health → in_int g.player.health → g.projectile_count ≤ 100 →
      ((update_projectiles g dt).player.health ≤ g.player.health ∧
        g.player.health - 10 * (enemy_shots g.projectiles : Int)
          ≤ (update_projectiles g dt).player.health ∧
        in_int (g.player.health - 10 * (enemy_shots g.projectiles : Int))) ∧
      ((update_projectiles g dt).game_over = false →
        0 < (update_projectiles g dt).player.health) ∧
      (10 * (enemy_shots g.projectiles : Int) ≤ g.player.health →
        0 ≤ (update_projectiles g dt).player.health) ∧
      (∀ inp : FrameInput F, (frame g inp).player.health ≤ g.player.health ∧
        g.player.health - 10 * (enemy_shots g.projectiles : Int)
          ≤ (frame g inp).player.health)) ∧
    (∀ dx dy : F, (move_player g dx dy).player.health = g.player.health) ∧
    (∀ (x y dx dy : F) (o : Bool), (shoot g x y dx dy o).player.health = g.player.health) ∧
    (∀ (now : F) (rng : Rng),
      (update_enemies g dt now rng).1.player.health = g.player.health) := by
  refine ⟨?_, ?_, fun _ _ => rfl, fun x y dx dy o => (shoot_frame g x y dx dy o).2.2.2.1,
    fun now rng => by rw [(update_enemies_player g dt now rng).1]⟩
  · intro fuel now times rng st inputs h
    have hr := run_frames_play_range inputs st.1 (init_game_play_range fuel now times g rng st h)
    exact ⟨hr.2.2.1, fun hf => ⟨hr.2.2.2.1 hf, fun inp => frame_health_floor _ inp hr hf⟩⟩
  · intro hpos hint hcap
    obtain ⟨h1, h2, _⟩ := update_projectiles_health g dt
    have hk : enemy_shots g.projectiles ≤ g.projectiles.length := by
      unfold enemy_shots
      exact List.countP_le_length _
    unfold Game.projectile_count at hcap
    refine ⟨⟨h1, h2, ?_⟩, update_projectiles_playing g dt (fun _ => hpos), fun h => by omega,
      fun inp => frame_health g inp⟩
    unfold in_int INT_MIN INT_MAX at hint ⊢
    omega

/-- Witness for C7: the fresh session on `sample_rng` has health in `(0, 100]` after a
frame, and one enemy-owned projectile against health 100 leaves health `>= 0`. -/
theorem health_bounds_witness :
    (∃ st, sample_init = some st ∧ (run_frames st.1 [sample_input]).player.health ≤ 100) ∧
    (0 < (100 : Int) ∧ in_int 100 ∧
      10 * (enemy_shots [projectile_at 3 5 1 0 true] : Int) ≤ 100 ∧
      0 ≤ (update_projectiles (sample_game 100 10 [] [projectile_at 3 5 1 0 true])
        ⟨1, 1⟩).player.health) := by
  have hi : sample_init.isSome = true := by decide!
  obtain ⟨st, hst⟩ := Option.isSome_iff_exists.mp hi
  exact ⟨⟨st, hst,
    ((health_bounds (sample_game 0 0 [] []) ⟨1, 1⟩).1 3 ⟨0, 1⟩ (fun _ => ⟨0, 1⟩)
      sample_rng st [sample_input] hst).1⟩,
    by decide, by decide, by decide,
    ((health_bounds (sample_game 100 10 [] [projectile_at 3 5 1 0 true]) ⟨1, 1⟩).2.1
      (by decide) (by decide) (by decide)).2.2.1 (by decide)⟩

/-! ## Capacity bounds (C8) -/

/-- C8: the predicate `0 <= num_enemies <= 10`, `0 <= projectile_count <= 100`, `ammo >= 0`
holds whenever `init_game` returns and is kept by `move_entity` on the player, by `shoot`
with either owner, by `update_projectiles` and by `update_enemies`, for every input, delta
time, clock value and stream of random values. For `update_projectiles`, which adds 2 to
ammo per enemy removed and keeps `ammo + 2 * num_enemies`, the state is one in which that
sum does not leave the range of `int` (signed overflow is undefined in C). In a session the
sum is at most 30: the predicate holds in every state reached from `init_game` by frames. -/
theorem bounds_invariant :
    (∀ (fuel : Nat) (now : F) (times : Nat → F) (g0 : Game F) (rng : Rng) (st : Game F × Rng),
      init_game fuel now times g0 rng = some st → Bounds st.1) ∧
    (∀ (g : Game F) (dx dy : F), Bounds g → Bounds (move_player g dx dy)) ∧
    (∀ (g : Game F) (x y dx dy : F) (o : Bool), Bounds g → Bounds (shoot g x y dx dy o)) ∧
    (∀ (g : Game F) (dt : F), Bounds g →
      in_int (g.player.ammo + 2 * (g.num_enemies : Int)) →
      Bounds (update_projectiles g dt) ∧
      (update_projectiles g dt).player.ammo + 2 * ((update_projectiles g dt).num_enemies : Int)
        = g.player.ammo + 2 * (g.num_enemies : Int) ∧
      in_int (update_projectiles g dt).player.ammo) ∧
    (∀ (g : Game F) (dt now : F) (rng : Rng), Bounds g →
      Bounds (update_enemies g dt now rng).1) ∧
    (∀ (fuel : Nat) (now : F) (times : Nat → F) (g0 : Game F) (rng : Rng) (st : Game F × Rng)
      (inputs : List (FrameInput F)), init_game fuel now times g0 rng = some st →
      Bounds (run_frames st.1 inputs) ∧
      (run_frames st.1 inputs).player.ammo + 2 * ((run_frames st.1 inputs).num_enemies : Int)
        ≤ 30) := by
  refine ⟨init_game_bounds, fun _ _ _ h => h, shoot_bounds, ?_, update_enemies_bounds, ?_⟩
  · intro g dt hb hr
    obtain ⟨s1, s2⟩ := update_projectiles_supply g dt
    have hb1 := update_projectiles_bounds g dt hb
    refine ⟨hb1, s1, ?_⟩
    rw [bounds_iff] at hb1
    unfold in_int INT_MIN INT_MAX at hr ⊢
    have : (0 : Int) ≤ ((update_projectiles g dt).num_enemies : Int) := Int.natCast_nonneg _
    omega
  · intro fuel now times g0 rng st inputs h
    have hr := run_frames_play_range inputs st.1
      (init_game_play_range fuel now times g0 rng st h)
    exact ⟨hr.1, hr.2.1⟩

/-- Witness for C8: `init_game` returns on `sample_rng` with the bounds, and the bounds
of a state with three enemies and one projectile survive `update_projectiles` and
`update_enemies`. -/
theorem bounds_invariant_witness :
    (∃ st, sample_init = some st ∧ Bounds st.1) ∧
    Bounds (sample_game 100 9 [enemy_at 3 3, enemy_at 10 5, enemy_at 10 5]
      [projectile_at 8 5 1 0 false]) ∧
    in_int (9 + 2 * ((3 : Nat) : Int)) ∧
    Bounds (update_projectiles (sample_game 100 9 [enemy_at 3 3, enemy_at 10 5, enemy_at 10 5]
      [projectile_at 8 5 1 0 false]) ⟨1, 1⟩) ∧
    Bounds (update_enemies (sample_game 100 9 [enemy_at 3 3, enemy_at 10 5, enemy_at 10 5]
      [projectile_at 8 5 1 0 false]) ⟨1, 1⟩ ⟨2, 1⟩ sample_rng).1 := by
  have hi : sample_init.isSome = true := by decide!
  obtain ⟨st, hst⟩ := Option.isSome_iff_exists.mp hi
  have hb : Bounds (sample_game 100 9 [enemy_at 3 3, enemy_at 10 5, enemy_at 10 5]
      [projectile_at 8 5 1 0 false]) := by
    rw [bounds_iff]; decide
  have h1 := (@bounds_invariant Frac _).1 3 ⟨0, 1⟩ (fun _ => ⟨0, 1⟩) (sample_game 0 0 [] [])
      sample_rng st hst
  have h2 := (@bounds_invariant Frac _).2.2.2.2.1 _ ⟨1, 1⟩ ⟨2, 1⟩ sample_rng hb
  have h3 := ((@bounds_invariant Frac _).2.2.2.1 _ ⟨1, 1⟩ hb (by decide)).1
  exact ⟨⟨st, hst, h1⟩, hb, by decide, h3, h2⟩

/-! ## Occupancy (C9) -/

/-- C9: provided the cast `(int)` gives back the whole numbers 0..39 converted to floating
point, the occupancy invariant (the player's and every live enemy's truncated position is a
floor cell of the grid) is kept by `move_entity` on the player for any step, by
`update_enemies` for any delta time, clock value and random values, and by
`update_projectiles`; it holds whenever `init_game` returns, hence in every state reached
from a fresh session by frames. -/
theorem occupancy_invariant (hcast : CastExact F) :
    (∀ (g : Game F) (dx dy : F), Occupancy g → Occupancy (move_player g dx dy)) ∧
    (∀ (g : Game F) (dt now : F) (rng : Rng), Occupancy g →
      Occupancy (update_enemies g dt now rng).1) ∧
    (∀ (g : Game F) (dt : F), Occupancy g → Occupancy (update_projectiles g dt)) ∧
    (∀ (fuel : Nat) (now : F) (times : Nat → F) (g0 : Game F) (rng : Rng) (st : Game F × Rng)
      (inputs : List (FrameInput F)), init_game fuel now times g0 rng = some st →
      Occupancy (run_frames st.1 inputs)) :=
  ⟨move_player_occupancy hcast, update_enemies_occupancy, update_projectiles_occupancy,
    fun fuel now times g0 rng st inputs h =>
      run_frames_occupancy hcast inputs st.1
        (init_game_occupancy hcast fuel now times g0 rng st h)⟩

/-- Witness for C9 over `Frac`: the player at `(5, 5)` and enemies at `(3, 3)`, `(10, 5)` on
`arena_map` occupy floor cells and still do after `update_enemies`; the fresh session on
`sample_rng` satisfies the invariant after a frame. -/
theorem occupancy_invariant_witness :
    (Occupancy (sample_game 100 10 [enemy_at 3 3, enemy_at 10 5] []) ∧
      Occupancy (update_enemies (sample_game 100 10 [enemy_at 3 3, enemy_at 10 5] [])
        ⟨1, 1⟩ ⟨2, 1⟩ sample_rng).1) ∧
    ∃ st, sample_init = some st ∧ Occupancy (run_frames st.1 [sample_input]) := by
  have hi : sample_init.isSome = true := by decide!
  obtain ⟨st, hst⟩ := Option.isSome_iff_exists.mp hi
  have ho : Occupancy (sample_game 100 10 [enemy_at 3 3, enemy_at 10 5] []) := by
    constructor
    · decide
    · intro e he
      simp only [sample_game, List.mem_cons, List.mem_singleton, List.not_mem_nil,
        or_false] at he
      rcases he with he | he <;> subst he <;> decide
  exact ⟨⟨ho, (occupancy_invariant Frac_cast_exact).2.1 _ ⟨1, 1⟩ ⟨2, 1⟩ sample_rng ho⟩,
    st, hst, (occupancy_invariant Frac_cast_exact).2.2.2 3 ⟨0, 1⟩ (fun _ => ⟨0, 1⟩)
      (sample_game 0 0 [] []) sample_rng st [sample_input] hst⟩

/-! ## Map generation (C10) -/

/-- C10: for every stream of random values the 40 x 20 grid made by `generate_map` has a
wall in every cell of row 0, row 19, column 0 and column 39, and every cell of the grid is
floor or wall. -/
theorem generate_map_border_and_tiles (g : Game F) (rng : Rng) :
    (∀ x : Int, 0 ≤ x → x < 40 →
      (generate_map g rng).1.map 0 x = WALL_CHAR ∧
      (generate_map g rng).1.map 19 x = WALL_CHAR) ∧
    (∀ y : Int, 0 ≤ y → y < 20 →
      (generate_map g rng).1.map y 0 = WALL_CHAR ∧
      (generate_map g rng).1.map y 39 = WALL_CHAR) ∧
    (∀ y x : Int, 0 ≤ y → y < 20 → 0 ≤ x → x < 40 →
      (generate_map g rng).1.map y x = FLOOR_CHAR ∨
      (generate_map g rng).1.map y x = WALL_CHAR) := by
  refine ⟨?_, ?_, ?_⟩
  · intro x h0 h1
    exact ⟨(generate_map_cell g rng 0 x (by decide) (by decide) h0 h1).1 (Or.inl rfl),
      (generate_map_cell g rng 19 x (by decide) (by decide) h0 h1).1 (Or.inr (Or.inl rfl))⟩
  · intro y h0 h1
    exact ⟨(generate_map_cell g rng y 0 h0 h1 (by decide) (by decide)).1
        (Or.inr (Or.inr (Or.inl rfl))),
      (generate_map_cell g rng y 39 h0 h1 (by decide) (by decide)).1
        (Or.inr (Or.inr (Or.inr rfl)))⟩
  · intro y x h0 h1 h2 h3
    exact (generate_map_cell g rng y x h0 h1 h2 h3).2

/-- Witness for C10 on `sample_rng`: the corner `(39, 19)` and the border cell `(0, 7)` are
wall, and the interior cell `(6, 3)`, on which a random wall fell, is floor or wall. -/
theorem generate_map_border_and_tiles_witness :
    (generate_map (sample_game 0 0 [] []) sample_rng).1.map 19 39 = WALL_CHAR ∧
    (generate_map (sample_game 0 0 [] []) sample_rng).1.map 7 0 = WALL_CHAR ∧
    ((generate_map (sample_game 0 0 [] []) sample_rng).1.map 3 6 = FLOOR_CHAR ∨
      (generate_map (sample_game 0 0 [] []) sample_rng).1.map 3 6 = WALL_CHAR) :=
  ⟨((generate_map_border_and_tiles (sample_game 0 0 [] []) sample_rng).1 39
      (by decide) (by decide)).2,
   ((generate_map_border_and_tiles (sample_game 0 0 [] []) sample_rng).2.1 7
      (by decide) (by decide)).1,
   (generate_map_border_and_tiles (sample_game 0 0 [] []) sample_rng).2.2 3 6
      (by decide) (by decide) (by decide) (by decide)⟩

/-! ## Spawning and the fresh session (C11, C12) -/

/-- C11: whenever `spawn_player` returns, the player stands at whole-numbered coordinates
`(x, y)` with `1 <= x <= 38`, `1 <= y <= 18` and `map[y][x]` floor; whenever
`spawn_enemies` returns, the same holds for each of the 10 enemies it created; neither
changes the map. -/
theorem spawn_on_floor (fuel : Nat) (times : Nat → F) (g : Game F) (rng : Rng)
    (st : Game F × Rng) :
    (spawn_player fuel g rng = some st →
      st.1.map = g.map ∧
      ∃ x y : Int, 1 ≤ x ∧ x ≤ 38 ∧ 1 ≤ y ∧ y ≤ 18 ∧ g.map y x = FLOOR_CHAR ∧
        st.1.player.base.x = ofInt x ∧ st.1.player.base.y = ofInt y) ∧
    (spawn_enemies fuel times g rng = some st →
      st.1.map = g.map ∧ st.1.enemies.length = 10 ∧
      ∀ e ∈ st.1.enemies,
        ∃ x y : Int, 1 ≤ x ∧ x ≤ 38 ∧ 1 ≤ y ∧ y ≤ 18 ∧ g.map y x = FLOOR_CHAR ∧
          e.base.x = ofInt x ∧ e.base.y = ofInt y) := by
  constructor
  · intro h
    obtain ⟨x, y, a1, a2, a3, a4, a5, hst⟩ := spawn_player_spec fuel g rng st h
    rw [hst]
    exact ⟨rfl, x, y, a1, a2, a3, a4, a5, rfl, rfl⟩
  · intro h
    unfold spawn_enemies at h
    obtain ⟨i1, _, _, _, l, i5, i6, i7⟩ := spawn_enemies_loop_spec fuel times _ _ _ st h
    simp only [List.nil_append] at i5
    refine ⟨i1, by rw [i5, i6]; rfl, ?_⟩
    intro e he
    rw [i5] at he
    obtain ⟨_, x, y, a1, a2, a3, a4, a5, a6⟩ := i7 e he
    exact ⟨x, y, a1, a2, a3, a4, a5, by rw [a6], by rw [a6]⟩

/-- Witness for C11: on the grid generated from `sample_rng` both spawns return, the player on
a floor cell of the interior and 10 enemies on the unchanged map. -/
theorem spawn_on_floor_witness :
    (∃ st, spawn_player 3 sample_generated.1 sample_generated.2 = some st ∧
      st.1.map = sample_generated.1.map ∧
      ∃ x y : Int, 1 ≤ x ∧ x ≤ 38 ∧ 1 ≤ y ∧ y ≤ 18 ∧
        sample_generated.1.map y x = FLOOR_CHAR ∧
        st.1.player.base.x = ofInt x ∧ st.1.player.base.y = ofInt y) ∧
    (∃ st, spawn_enemies 3 (fun _ => ⟨0, 1⟩) sample_generated.1 sample_generated.2 = some st ∧
      st.1.map = sample_generated.1.map ∧ st.1.enemies.length = 10) := by
  have h1 : (spawn_player 3 sample_generated.1 sample_generated.2).isSome = true := by decide!
  have h2 : (spawn_enemies 3 (fun _ => (⟨0, 1⟩ : Frac)) sample_generated.1
      sample_generated.2).isSome = true := by decide!
  obtain ⟨st1, hst1⟩ := Option.isSome_iff_exists.mp h1
  obtain ⟨st2, hst2⟩ := Option.isSome_iff_exists.mp h2
  have k1 := (spawn_on_floor 3 (fun _ => (⟨0, 1⟩ : Frac)) sample_generated.1
    sample_generated.2 st1).1 hst1
  have k2 := (spawn_on_floor 3 (fun _ => (⟨0, 1⟩ : Frac)) sample_generated.1
    sample_generated.2 st2).2 hst2
  exact ⟨⟨st1, hst1, k1⟩, st2, hst2, k2.1, k2.2.1⟩

/-- C12: whenever `init_game` returns, from any prior state of the session object,
`num_enemies = 10`, the player's health is 100 and ammo 10, `projectile_count = 0`,
`game_over` is false, and every enemy has health 50. -/
theorem init_game_fresh (fuel : Nat) (now : F) (times : Nat → F) (g0 : Game F) (rng : Rng)
    (st : Game F × Rng) (h : init_game fuel now times g0 rng = some st) :
    st.1.num_enemies = 10 ∧ st.1.player.health = 100 ∧ st.1.player.ammo = 10 ∧
    st.1.projectile_count = 0 ∧ st.1.game_over = false ∧
    ∀ e ∈ st.1.enemies, e.health = 50 := by
  obtain ⟨⟨x, y, _, _, _, _, _, hp⟩, he, hen, hpr, hgo⟩ :=
    init_game_spec fuel now times g0 rng st h
  refine ⟨he, by rw [hp], by rw [hp], ?_, hgo, fun e hm => (hen e hm).1⟩
  unfold Game.projectile_count
  rw [hpr]
  rfl

/-- Witness for C12: `init_game` on a won session (health 40, 7 rounds, no enemy, one
projectile in flight) returns a fresh session. -/
theorem init_game_fresh_witness :
    ∃ st, init_game 3 (⟨0, 1⟩ : Frac) (fun _ => ⟨0, 1⟩) sample_won sample_rng = some st ∧
      st.1.num_enemies = 10 ∧ st.1.player.health = 100 ∧ st.1.player.ammo = 10 ∧
      st.1.projectile_count = 0 ∧ st.1.game_over = false := by
  have h1 : (init_game 3 (⟨0, 1⟩ : Frac) (fun _ => ⟨0, 1⟩) sample_won sample_rng).isSome
      = true := by decide!
  obtain ⟨st, hst⟩ := Option.isSome_iff_exists.mp h1
  obtain ⟨k1, k2, k3, k4, k5, _⟩ :=
    init_game_fresh 3 (⟨0, 1⟩ : Frac) (fun _ => ⟨0, 1⟩) sample_won sample_rng st hst
  exact ⟨st, hst, k1, k2, k3, k4, k5⟩

/-! ## Owner flag (C13) -/

/-- C13: if all live projectiles are player-owned, `update_projectiles` leaves the player's
health and `game_over` unchanged; if all live projectiles are enemy-owned, it leaves the
enemy collection, `num_enemies` and ammo unchanged. -/
theorem update_projectiles_owner (g : Game F) (dt : F) :
    ((∀ p ∈ g.projectiles, p.is_enemy = false) →
      (update_projectiles g dt).player.health = g.player.health ∧
      (update_projectiles g dt).game_over = g.game_over) ∧
    ((∀ p ∈ g.projectiles, p.is_enemy = true) →
      (update_projectiles g dt).enemies = g.enemies ∧
      (update_projectiles g dt).num_enemies = g.num_enemies ∧
      (update_projectiles g dt).player.ammo = g.player.ammo) := by
  have hset : ∀ (l : List (Projectile F)) (i : Nat) (h : i < l.length) (b : Bool),
      (∀ p ∈ l, p.is_enemy = b) → ∀ p ∈ l.set i (advance (l[i]) dt), p.is_enemy = b := by
    intro l i h b hall p hp
    rcases List.mem_or_eq_of_mem_set hp with hm | hm
    · exact hall p hm
    · rw [hm]; exact hall (l[i]) (List.getElem_mem h)
  constructor
  · intro hall
    refine update_projectiles_loop_rule dt
      (fun g1 _ => (∀ p ∈ g1.projectiles, p.is_enemy = false) ∧
        g1.player.health = g.player.health ∧ g1.game_over = g.game_over)
      (fun g1 => g1.player.health = g.player.health ∧ g1.game_over = g.game_over)
      ?_ (fun _ _ h _ => h.2) g.projectiles.length g 0 (by omega) ⟨hall, rfl, rfl⟩
    intro g1 i h ⟨h1, h2, h3⟩
    have her : ∀ p ∈ g1.projectiles.eraseIdx i, p.is_enemy = false :=
      fun p hp => h1 p (List.mem_of_mem_eraseIdx hp)
    rcases update_projectiles_body_cases dt g1 i h with
      ⟨_, e⟩ | ⟨hE, _⟩ | ⟨_, j, _, e⟩ | ⟨_, _, _, e⟩
    · rw [e]; exact ⟨her, h2, h3⟩
    · rw [h1 _ (List.getElem_mem h)] at hE
      exact absurd hE (by simp)
    · rw [e]; exact ⟨her, h2, h3⟩
    · rw [e]; exact ⟨hset _ i h false h1, h2, h3⟩
  · intro hall
    have key : (update_projectiles g dt).enemies = g.enemies ∧
        (update_projectiles g dt).player.ammo = g.player.ammo := by
      refine update_projectiles_loop_rule dt
        (fun g1 _ => (∀ p ∈ g1.projectiles, p.is_enemy = true) ∧
          g1.enemies = g.enemies ∧ g1.player.ammo = g.player.ammo)
        (fun g1 => g1.enemies = g.enemies ∧ g1.player.ammo = g.player.ammo)
        ?_ (fun _ _ h _ => h.2) g.projectiles.length g 0 (by omega) ⟨hall, rfl, rfl⟩
      intro g1 i h ⟨h1, h2, h3⟩
      have her : ∀ p ∈ g1.projectiles.eraseIdx i, p.is_enemy = true :=
        fun p hp => h1 p (List.mem_of_mem_eraseIdx hp)
      rcases update_projectiles_body_cases dt g1 i h with
        ⟨_, e⟩ | ⟨_, _, _, e⟩ | ⟨hE, _⟩ | ⟨_, _, _, e⟩
      · rw [e]; exact ⟨her, h2, h3⟩
      · rw [e]; exact ⟨her, h2, h3⟩
      · rw [h1 _ (List.getElem_mem h)] at hE
        exact absurd hE (by simp)
      · rw [e]; exact ⟨hset _ i h true h1, h2, h3⟩
    exact ⟨key.1, by unfold Game.num_enemies; rw [key.1], key.2⟩

/-- Witness for C13 (`delta_time = 1`): a player-owned projectile that lands on the
player's own cell `(5, 5)` does no damage; an enemy-owned projectile that lands on the cell
`(10, 5)` of an enemy removes no enemy and adds no ammo. -/
theorem update_projectiles_owner_witness :
    ((update_projectiles (sample_game 10 9 [] [projectile_at 3 5 1 0 false])
        ⟨1, 1⟩).player.health = 10 ∧
      (update_projectiles (sample_game 10 9 [] [projectile_at 3 5 1 0 false])
        ⟨1, 1⟩).game_over = false) ∧
    ((update_projectiles (sample_game 10 9 [enemy_at 10 5] [projectile_at 8 5 1 0 true])
        ⟨1, 1⟩).enemies = [enemy_at 10 5] ∧
      (update_projectiles (sample_game 10 9 [enemy_at 10 5] [projectile_at 8 5 1 0 true])
        ⟨1, 1⟩).player.ammo = 9) :=
  ⟨(update_projectiles_owner (sample_game 10 9 [] [projectile_at 3 5 1 0 false]) ⟨1, 1⟩).1
      (by decide),
   ((update_projectiles_owner (sample_game 10 9 [enemy_at 10 5] [projectile_at 8 5 1 0 true])
      ⟨1, 1⟩).2 (by decide)).1,
   ((update_projectiles_owner (sample_game 10 9 [enemy_at 10 5] [projectile_at 8 5 1 0 true])
      ⟨1, 1⟩).2 (by decide)).2.2⟩

/-! ## Removal during iteration (C18) -/

/-- C18: the in-place loop of `update_projectiles` (removal by `memmove`, index held back
after a removal) equals the left-to-right fold over the original projectile list in which
each projectile is advanced exactly once, by `direction * speed * delta_time`, and then
resolved; the projectiles left are advanced originals in their original relative order,
and the enemies left keep their original relative order. Slots are only read through an
index below the live count (`update_projectiles_body` takes the proof `i < count`). -/
theorem update_projectiles_refines_fold (g : Game F) (dt : F) :
    update_projectiles g dt = spec_update_projectiles g dt ∧
    (update_projectiles g dt).projectiles.Sublist
      (g.projectiles.map (fun p => advance p dt)) ∧
    (update_projectiles g dt).enemies.Sublist g.enemies :=
  ⟨update_projectiles_eq_spec g dt,
   (update_projectiles_sublist g dt).1.trans (List.filter_sublist _),
   (update_projectiles_sublist g dt).2⟩

/-! ## Wall crossing (C16) -/

/-- C16 (counterexample, `delta_time = 1`): a projectile at `(6, 5)` flying right with speed
2 is advanced to `(8, 5)`; the point at `t = 1/2` of its path, `(7, 5)`, is the wall cell
of `arena_map`, yet the projectile survives the call, now at `(8, 5)`. -/
theorem update_projectiles_crosses_wall :
    FloatOps.le (ofInt 0) (⟨1, 1⟩ : Frac) = true ∧
    FloatOps.le (ofInt 0) (⟨1, 2⟩ : Frac) = true ∧
    FloatOps.le (⟨1, 2⟩ : Frac) (ofInt 1) = true ∧
    arena_map
      (toInt (segment_point (projectile_at 6 5 1 0 false) ⟨1, 1⟩ ⟨1, 2⟩).y)
      (toInt (segment_point (projectile_at 6 5 1 0 false) ⟨1, 1⟩ ⟨1, 2⟩).x) = WALL_CHAR ∧
    (update_projectiles (sample_game 100 10 [] [projectile_at 6 5 1 0 false]) ⟨1, 1⟩).projectiles
      = [projectile_at 8 5 1 0 false] := by
  decide

/-- C16 (amended): only the end point of a step is tested. After `update_projectiles` the
projectiles left are, in their original order, among the advanced originals whose new
truncated position is a cell of the grid that is not a wall; so a projectile whose advanced
position is outside the grid or on a wall cell is removed by that call (stated for a
single live projectile in the second part). -/
theorem update_projectiles_endpoint_test (g : Game F) (dt : F) :
    (update_projectiles g dt).projectiles.Sublist
      ((g.projectiles.map (fun p => advance p dt)).filter
        (fun q => decide (off_wall g.map q.base))) ∧
    (∀ p : Projectile F, g.projectiles = [p] → ¬ off_wall g.map (advance p dt).base →
      (update_projectiles g dt).projectiles = []) := by
  refine ⟨(update_projectiles_sublist g dt).1, ?_⟩
  intro p hp hoff
  have h := (update_projectiles_sublist g dt).1
  rw [hp] at h
  simp only [List.map_cons, List.map_nil, List.filter_cons, hoff, decide_False,
    Bool.false_eq_true, if_false, List.filter_nil] at h
  exact List.eq_nil_of_sublist_nil h

/-- Witness for C16 (amended, `delta_time = 1`): a projectile at `(5, 5)` flying right is
advanced onto the wall cell `(7, 5)` and is removed. -/
theorem update_projectiles_endpoint_test_witness :
    ¬ off_wall arena_map (advance (projectile_at 5 5 1 0 false) ⟨1, 1⟩).base ∧
    (update_projectiles (sample_game 100 10 [] [projectile_at 5 5 1 0 false]) ⟨1, 1⟩).projectiles
      = [] :=
  ⟨by decide,
   (update_projectiles_endpoint_test (sample_game 100 10 [] [projectile_at 5 5 1 0 false])
      ⟨1, 1⟩).2 (projectile_at 5 5 1 0 false) rfl (by decide)⟩

/-! ## Wall budget (C20) -/

/-- C20: for every stream of random values the map made by `generate_map` has at least 1 and
at most 26 wall cells in its 38 x 18 interior, every other interior cell is floor (walls and
floors together are all 684 interior cells), so there are at least 658 interior floor cells
and a cell that the spawn loops accept exists. -/
theorem generate_map_wall_budget (g : Game F) (rng : Rng) :
    1 ≤ interior_count (generate_map g rng).1.map WALL_CHAR ∧
    interior_count (generate_map g rng).1.map WALL_CHAR ≤ 26 ∧
    (∀ y x : Int, 1 ≤ y → y ≤ 18 → 1 ≤ x → x ≤ 38 →
      (generate_map g rng).1.map y x = FLOOR_CHAR ∨
      (generate_map g rng).1.map y x = WALL_CHAR) ∧
    interior_count (generate_map g rng).1.map WALL_CHAR
      + interior_count (generate_map g rng).1.map FLOOR_CHAR = 684 ∧
    658 ≤ interior_count (generate_map g rng).1.map FLOOR_CHAR ∧
    ∃ y x : Int, 1 ≤ x ∧ x ≤ 38 ∧ 1 ≤ y ∧ y ≤ 18 ∧
      (generate_map g rng).1.map y x = FLOOR_CHAR := by
  obtain ⟨m3, hm3, hmap⟩ := generate_map_walls g rng
  have hcell : ∀ y x : Int, 1 ≤ y → y ≤ 18 → 1 ≤ x → x ≤ 38 →
      (generate_map g rng).1.map y x = FLOOR_CHAR ∨
      (generate_map g rng).1.map y x = WALL_CHAR :=
    fun y x a1 a2 a3 a4 =>
      (generate_map_cell g rng y x (by omega) (by omega) (by omega) (by omega)).2
  have h0 : interior_count m3 WALL_CHAR = 0 := by
    unfold interior_count
    rw [Finset.card_eq_zero, Finset.filter_eq_empty_iff]
    rintro ⟨y, x⟩ hc
    rw [mem_interior] at hc
    simp only
    rw [hm3 y x (by omega) (by omega) (by omega) (by omega), if_neg (by omega)]
    decide
  have hlow : 1 ≤ interior_count (generate_map g rng).1.map WALL_CHAR := by
    rw [hmap]; exact random_walls_pos 25 (m3, rng)
  have hup : interior_count (generate_map g rng).1.map WALL_CHAR ≤ 26 := by
    rw [hmap]
    have := random_walls_count 26 (m3, rng)
    simp only [h0] at this
    omega
  have hsum : interior_count (generate_map g rng).1.map WALL_CHAR
      + interior_count (generate_map g rng).1.map FLOOR_CHAR = 684 := by
    unfold interior_count
    have hneg : interior.filter (fun cell => (generate_map g rng).1.map cell.1 cell.2 = FLOOR_CHAR)
        = interior.filter
            (fun cell => ¬ (generate_map g rng).1.map cell.1 cell.2 = WALL_CHAR) := by
      apply Finset.filter_congr
      rintro ⟨y, x⟩ hc
      rw [mem_interior] at hc
      simp only
      rcases hcell y x hc.1.1 hc.1.2 hc.2.1 hc.2.2 with h | h
      · rw [h]; decide
      · rw [h]; decide
    rw [hneg, Finset.filter_card_add_filter_neg_card_eq_card, interior_card]
  refine ⟨hlow, hup, hcell, hsum, by omega, ?_⟩
  have hpos : 0 < (interior.filter
      (fun cell => (generate_map g rng).1.map cell.1 cell.2 = FLOOR_CHAR)).card := by
    have : 658 ≤ interior_count (generate_map g rng).1.map FLOOR_CHAR := by omega
    unfold interior_count at this
    omega
  obtain ⟨⟨y, x⟩, hc⟩ := Finset.card_pos.mp hpos
  rw [Finset.mem_filter, mem_interior] at hc
  exact ⟨y, x, hc.1.2.1, hc.1.2.2, hc.1.1.1, hc.1.1.2, hc.2⟩

/-- Witness for C20 on `sample_rng`: the interior cell `(6, 3)` of the generated map is
floor or wall. -/
theorem generate_map_wall_budget_witness :
    (1 ≤ interior_count sample_generated.1.map WALL_CHAR ∧
      interior_count sample_generated.1.map WALL_CHAR ≤ 26) ∧
    (sample_generated.1.map 3 6 = FLOOR_CHAR ∨ sample_generated.1.map 3 6 = WALL_CHAR) :=
  ⟨⟨(generate_map_wall_budget (sample_game 0 0 [] []) sample_rng).1,
    (generate_map_wall_budget (sample_game 0 0 [] []) sample_rng).2.1⟩,
   (generate_map_wall_budget (sample_game 0 0 [] []) sample_rng).2.2.1 3 6
      (by decide) (by decide) (by decide) (by decide)⟩

/-! ## Travel of a projectile -/

/-- C19: in one call of `update_enemies` at clock value `now`, an enemy fires exactly when
`now - last_shot_time >= shoot_delay` (`due`, the subtraction on `double`). Over the whole
call: ammo is unchanged, every enemy that was due has `last_shot_time = now` and the new
delay `random_delay r` for a random value `r >= 0` (the expression
`1.0 + (rand() % 200) / 100.0` evaluated on `double` and converted to `float`), every other
enemy keeps timer and delay, and the projectiles added are enemy-owned, at most one per
enemy that was due. In the pass for enemy `i`: if it is due and fewer than 100 projectiles
are live, exactly one projectile is appended, enemy-owned, at the enemy's position; at the
cap, or if it is not due, none. The delays set by `spawn_enemies` have the same form, and
with the rounding of the machine every such delay is at least 1 and less than 3. -/
theorem enemy_shooting_rule (g : Game F) (dt now : F) (rng : Rng) :
    ((update_enemies g dt now rng).1.player.ammo = g.player.ammo ∧
      (∀ (k : Nat) (e e1 : Enemy F), g.enemies[k]? = some e →
        (update_enemies g dt now rng).1.enemies[k]? = some e1 → ShootTimer now e e1) ∧
      ∃ new : List (Projectile F),
        (update_enemies g dt now rng).1.projectiles = g.projectiles ++ new ∧
        (∀ p ∈ new, p.is_enemy = true) ∧ new.length ≤ g.enemies.countP (due now)) ∧
    (∀ (i : Nat) (h : i < g.enemies.length),
      (update_enemies_body dt now g rng i h).1.player.ammo = g.player.ammo ∧
      ∃ e2 : Enemy F,
        (update_enemies_body dt now g rng i h).1.enemies = g.enemies.set i e2 ∧
        ShootTimer now (g.enemies[i]) e2 ∧
        (due now (g.enemies[i]) = true → g.projectiles.length < 100 →
          ∃ p : Projectile F, p.is_enemy = true ∧
            p.base.x = e2.base.x ∧ p.base.y = e2.base.y ∧
            (update_enemies_body dt now g rng i h).1.projectiles = g.projectiles ++ [p]) ∧
        (due now (g.enemies[i]) = true → 100 ≤ g.projectiles.length →
          (update_enemies_body dt now g rng i h).1.projectiles = g.projectiles) ∧
        (due now (g.enemies[i]) = false →
          (update_enemies_body dt now g rng i h).1.projectiles = g.projectiles)) ∧
    (∀ (fuel : Nat) (times : Nat → F) (rng0 : Rng) (st : Game F × Rng),
      spawn_enemies fuel times g rng0 = some st →
      ∀ e ∈ st.1.enemies,
        ∃ r : Int, 0 ≤ r ∧ e.shoot_delay = random_delay r) ∧
    (∀ r : Int, FloatOps.le (ofInt 1 : Ieee) (random_delay r) = true ∧
      FloatOps.lt (random_delay r : Ieee) (ofInt 3) = true) := by
  refine ⟨?_, ?_, ?_, ieee_delay_range⟩
  · obtain ⟨_, h2, h3, h4⟩ := update_enemies_timers g dt now rng
    exact ⟨by rw [h2], h3, h4⟩
  · intro i h
    obtain ⟨b1, e2, b2, b3, b4, b5, b6⟩ := update_enemies_body_shoot dt now g rng i h
    refine ⟨by rw [b1], e2, b2, b4, ?_, fun hd => (b5 hd).2, b6⟩
    intro hd hlt
    obtain ⟨p, p1, p2, p3, p4⟩ := (b5 hd).1 hlt
    exact ⟨p, p1, by rw [p2, b3], by rw [p3, b3], p4⟩
  · intro fuel times rng0 st h
    unfold spawn_enemies at h
    obtain ⟨l, i1, i2⟩ := spawn_enemies_delay fuel times _ _ _ st h
    simp only [List.nil_append] at i1
    intro e he
    rw [i1] at he
    exact i2 e he

/-- Witness for C19, in machine arithmetic: at clock value 2 the enemy at `(3, 3)` (last
shot at 0, delay 1) is due, and with no live projectile its pass appends exactly one
enemy-owned projectile; an enemy whose delay was drawn with `r mod 200 = 10` (stored as the
`float` above 1.1) is not due when 1.1 seconds (as a `double`) have passed. -/
theorem enemy_shooting_rule_witness :
    due (ofInt 2 : Ieee) (ieee_enemy_at 3 3 (ofInt 1)) = true ∧
    (∃ p : Projectile Ieee, p.is_enemy = true ∧
      (update_enemies_body (ofInt 1) (ofInt 2) sample_ieee_duel sample_rng 0
        (by decide)).1.projectiles = [] ++ [p]) ∧
    (random_delay 10 : Ieee) = ⟨9227469, -23⟩ ∧
    due (FloatOps.ddiv (ofInt 11) (ofInt 10) : Ieee) (ieee_enemy_at 3 3 (random_delay 10))
      = false := by
  obtain ⟨_, _, _, _, hfire, _, _⟩ :=
    (enemy_shooting_rule sample_ieee_duel (ofInt 1 : Ieee) (ofInt 2) sample_rng).2.1 0
      (by decide)
  obtain ⟨p, p1, _, _, p4⟩ := hfire (by decide!) (by decide)
  exact ⟨by decide!, ⟨p, p1, p4⟩, by decide!, by decide!⟩

/-! ## Win and loss in the frame loop (C14, C15) -/

theorem frame_state_fst (g : Game F) (inp : FrameInput F) :
    (frame_state g inp).1 = frame g inp := rfl

/-- When enemies are left at the end of the frame part, the pass ends there, without the win
screen; if `game_over` was set in the frame, the loop of `run_game` is left after this
pass. -/
theorem run_game_pass_enemies_left (fuel reads : Nat) (g : Game F) (inp : FrameInput F)
    (win : WinInput F) (h : 0 < (frame g inp).num_enemies) :
    (run_game_pass fuel reads g inp win).won = false ∧
    (run_game_pass fuel reads g inp win).after = some (frame_state g inp) ∧
    (g.game_over = false → (frame g inp).game_over = true →
      ∀ rest, run_game fuel reads ((inp, win) :: rest) g = some (frame g inp, 1)) := by
  have hne : ¬ (frame_state g inp).1.num_enemies = 0 := by
    rw [frame_state_fst]; omega
  have e : run_game_pass fuel reads g inp win =
      { won := false, after := some (frame_state g inp) } := by
    unfold run_game_pass
    simp only [hne, if_false]
  refine ⟨by rw [e], by rw [e], ?_⟩
  intro hg hover rest
  unfold run_game
  simp only [hg, Bool.false_eq_true, if_false, e]
  cases rest with
  | nil =>
    unfold run_game
    simp [frame_state_fst]
  | cons a t =>
    unfold run_game
    simp [frame_state_fst, hover]

/-- A pass that starts with `game_over` false and comes to an end is followed by the rest of
the loop, run from the session it leaves. -/
theorem run_game_cons (fuel reads : Nat) (g : Game F) (inp : FrameInput F) (win : WinInput F)
    (rest : List (FrameInput F × WinInput F)) (st : Game F × Rng) (hg : g.game_over = false)
    (hst : (run_game_pass fuel reads g inp win).after = some st) :
    run_game fuel reads ((inp, win) :: rest) g
      = (run_game fuel reads rest st.1).map (fun r => (r.1, r.2 + 1)) := by
  rw [run_game]
  simp only [hg, Bool.false_eq_true, if_false, hst]

/-- C14 (the code at the failing input): in one pass the enemy-owned projectile brings the
player's health from 10 to 0 (`game_over` is set by `update_projectiles`) and the
player-owned projectile removes the last enemy; the pass then draws the win message, `y`
restarts the session, and the pass ends with `game_over` false, health 100 and 10 enemies:
the loop of `run_game` goes on with the next inputs. -/
theorem lost_frame_shows_win_and_restarts :
    sample_double_hit.game_over = false ∧
    (frame sample_double_hit sample_idle).player.health = 0 ∧
    (frame sample_double_hit sample_idle).game_over = true ∧
    (run_game_pass 3 1 sample_double_hit sample_idle sample_restart).won = true ∧
    ∃ st, (run_game_pass 3 1 sample_double_hit sample_idle sample_restart).after = some st ∧
      st.1.game_over = false ∧ st.1.player.health = 100 ∧ st.1.num_enemies = 10 ∧
      ∀ rest, run_game 3 1 ((sample_idle, sample_restart) :: rest) sample_double_hit
        = (run_game 3 1 rest st.1).map (fun r => (r.1, r.2 + 1)) := by
  have h1 : ((run_game_pass 3 1 sample_double_hit sample_idle sample_restart).after.map
      (fun st => (st.1.game_over, st.1.player.health, st.1.num_enemies)))
      = some (false, 100, 10) := by decide!
  cases hst : (run_game_pass 3 1 sample_double_hit sample_idle sample_restart).after with
  | none => rw [hst] at h1; simp at h1
  | some st =>
    rw [hst] at h1
    simp only [Option.map_some', Option.some.injEq, Prod.mk.injEq] at h1
    refine ⟨rfl, by decide, by decide, by decide, st, rfl, h1.1, h1.2.1, h1.2.2, ?_⟩
    intro rest
    exact run_game_cons 3 1 sample_double_hit sample_idle sample_restart rest st rfl hst

/-- C15: a pass of the loop of `run_game` enters the win branch exactly when
`num_enemies = 0` after the `update_projectiles` and `update_enemies` of that pass; with an
enemy left the pass ends without it; and from a state with exactly one live enemy, a pass
whose `update_projectiles` removes it ends with `num_enemies = 0` and enters the win branch
in that same pass. -/
theorem win_condition (fuel reads : Nat) (g : Game F) (inp : FrameInput F)
    (win : WinInput F) :
    ((run_game_pass fuel reads g inp win).won = true ↔ (frame g inp).num_enemies = 0) ∧
    (0 < (frame g inp).num_enemies →
      (run_game_pass fuel reads g inp win).won = false ∧
      (run_game_pass fuel reads g inp win).after = some (frame_state g inp)) ∧
    (g.num_enemies = 1 →
      (update_projectiles (handle_input { g with last_update := inp.current_time } inp.key)
        (FloatOps.narrow (FloatOps.dsub inp.current_time g.last_update))).num_enemies < g.num_enemies →
      (frame g inp).num_enemies = 0 ∧ (run_game_pass fuel reads g inp win).won = true) := by
  have hiff : (run_game_pass fuel reads g inp win).won = true ↔
      (frame g inp).num_enemies = 0 := by
    unfold run_game_pass
    simp only [frame_state_fst]
    by_cases h : (frame g inp).num_enemies = 0
    · simp [h]
    · simp [h]
  refine ⟨hiff, ?_, ?_⟩
  · intro h
    exact ⟨(run_game_pass_enemies_left fuel reads g inp win h).1,
      (run_game_pass_enemies_left fuel reads g inp win h).2.1⟩
  · intro h1 hlt
    have hfr : (frame g inp).num_enemies =
        (update_projectiles (handle_input { g with last_update := inp.current_time } inp.key)
          (FloatOps.narrow (FloatOps.dsub inp.current_time g.last_update))).num_enemies := by
      unfold frame Game.num_enemies
      exact (update_enemies_timers _ _ _ _).1
    have h0 : (frame g inp).num_enemies = 0 := by omega
    exact ⟨h0, hiff.mpr h0⟩

/-- Witness for C15: with the single enemy at `(10, 5)` and a player-owned projectile that
lands on its cell, the pass ends with no enemy and enters the win branch. -/
theorem win_condition_witness :
    (sample_game 100 9 [enemy_at 10 5] [projectile_at 8 5 1 0 false]).num_enemies = 1 ∧
    (frame (sample_game 100 9 [enemy_at 10 5] [projectile_at 8 5 1 0 false])
      sample_idle).num_enemies = 0 ∧
    (run_game_pass 3 1 (sample_game 100 9 [enemy_at 10 5] [projectile_at 8 5 1 0 false])
      sample_idle sample_restart).won = true :=
  ⟨rfl,
   (win_condition 3 1 (sample_game 100 9 [enemy_at 10 5] [projectile_at 8 5 1 0 false])
      sample_idle sample_restart).2.2 rfl (by decide)⟩

end Roguelike
